import Mathlib

/-!
The SQL statement builder of `storage/dbr`: conditions and UPDATE.

A shallow embedding of `src/storage/dbr/conditions.go` and
`src/storage/dbr/update.go`.

Conventions of the embedding.

* A `queryWriter` only ever appends, so every writing function returns the
  text it appends to the buffer instead of taking the buffer.
* A Go `error` result is an `Option Error` (`none` is `nil`); a Go `panic`
  aborts the pass in the same way and is reported through the same channel,
  marked as `Error.panic`.
* The text pass mutates the fragments it walks (`f.Operator = In`), so it
  returns the fragments as they are after the pass.
* Listeners are not part of the embedding: every statement is one without
  listeners, for which `Listeners.dispatch` returns `nil`.
-/

namespace Dbr

/-! ## Errors -/

/-- Error values: the behaviour kinds of `github.com/corestoreio/errors`
that the builder raises, the Go runtime failures it can run into, and
`errors.Wrap`. -/
inductive Error where
  | empty (msg : String) : Error
  | notSupported (msg : String) : Error
  | mismatch (msg : String) : Error
  | indexOutOfRange : Error
  | nilPointer : Error
  | other (msg : String) : Error
  | wrap (msg : String) (cause : Error) : Error
  | panic (cause : Error) : Error
  deriving DecidableEq, Repr

/-- The call `errors.Wrap(err, msg)` on a returned error. A panic is not a
returned value: it passes every `if err != nil` of its callers untouched. -/
def Error.Wrap (msg : String) : Error → Error
  | .panic c => .panic c
  | e => .wrap msg e

/-- Whether a failure is a panic and not an error value that a function
returns. -/
def Error.isPanic : Error → Bool
  | .panic _ => true
  | _ => false

/-- The kind of an error, looked up through the messages wrapped around it,
as the behaviour tests `errors.IsEmpty`, `errors.IsNotSupported` and
`errors.IsMismatch` do. -/
def Error.kind : Error → Error
  | .wrap _ c => c.kind
  | .panic c => c.kind
  | e => e

/-! ## Arguments -/

/-- One `Argument` interface value. `nil` is the nil interface; `expr` is the
`*expr` of `ArgExpr(sql, args...)`; `placeHolder` is `argPlaceHolder`. The
other constructors are scalar and sequence variants of the tagged union. -/
inductive Argument where
  | nil : Argument
  | null : Argument
  | int (v : Int) : Argument
  | ints (vs : List Int) : Argument
  | str (s : String) : Argument
  | strs (ss : List String) : Argument
  | placeHolder (id : Int) : Argument
  | expr (sql : String) (args : List Argument) : Argument

/-- The type `Arguments`, a slice of `Argument`. -/
abbrev Arguments := List Argument

/-- Go's `x != nil` on an `Argument`. -/
def Argument.isSet : Argument → Bool
  | .nil => false
  | _ => true

/-- Modelled from the spec: `Argument.len()`, which is not under src/: "1 for
scalars, N for sequences, 0 for null/no value". The nil interface has no
method to call in Go; every call site under src/ tests `!= nil` first and the
value 0 given here is never consulted by the embedded code. -/
def Argument.len : Argument → Nat
  | .nil => 0
  | .null => 0
  | .int _ => 1
  | .ints vs => vs.length
  | .str _ => 1
  | .strs ss => ss.length
  | .placeHolder _ => 1
  | .expr _ _ => 1

/-- Number of placeholder slots that an argument sequence covers: the sum of
`len()` over its entries. -/
def slots : Arguments → Nat
  | [] => 0
  | a :: as => a.len + slots as

/-- Cahen's constant, the identifier carried by `argPlaceHolder`. -/
def cahensConstant : Int := -64341

/-- Structural equality test on arguments. -/
def Argument.beq : Argument → Argument → Bool
  | .nil, .nil => true
  | .null, .null => true
  | .int a, .int b => a == b
  | .ints a, .ints b => a == b
  | .str a, .str b => a == b
  | .strs a, .strs b => a == b
  | .placeHolder a, .placeHolder b => a == b
  | .expr s as, .expr t bs => s == t && beqList as bs
  | _, _ => false
where
  /-- Structural equality test on argument sequences. -/
  beqList : List Argument → List Argument → Bool
    | [], [] => true
    | a :: as, b :: bs => Argument.beq a b && beqList as bs
    | _, _ => false

/-! ## Operators -/

/-- Modelled from the spec: the type `Op` and its constants, which are not
under src/: the closed enumeration of §3. `unset` is the zero value, which
the source tests with `f.Operator == 0` and `f.Operator > 0`. -/
inductive Op where
  | unset | Null | NotNull | In | NotIn | Between | NotBetween | Like | NotLike
  | Greatest | Least | Equal | NotEqual | Exists | NotExists | Less | Greater
  | LessOrEqual | GreaterOrEqual | Regexp | NotRegexp | Xor | SpaceShip | Coalesce
  deriving DecidableEq, Repr

/-- The text `?,?,...,?` with `n` placeholders. -/
def placeHolders : Nat → String
  | 0 => ""
  | 1 => "?"
  | n + 2 => "?," ++ placeHolders (n + 1)

/-- Modelled from the spec: the result of a list operator of §4.2 (IN, NOT IN,
GREATEST, LEAST): the keyword, then `(?,?,...)` with exactly `argLen`
placeholders; without arguments (the sub-select call) only the keyword. -/
def writeOperatorList (keyword : String) (argLen : Nat) : String × Bool :=
  if argLen > 0 then (keyword ++ "(" ++ placeHolders argLen ++ ")", true) else (keyword, false)

/-- Modelled from the spec: the result of a binary comparison of §4.2: the
keyword and a single `?`; without arguments (the sub-select call) only the
keyword. -/
def writeOperatorBinary (keyword : String) (argLen : Nat) : String × Bool :=
  if argLen > 0 then (keyword ++ "?", true) else (keyword, false)

/-- Modelled from the spec: `writeOperator(w, argLen, op) (addArg bool)`, which
is not under src/: the decision table of §4.2. It yields the text written and
whether the argument pass has to add the argument. BETWEEN and NOT BETWEEN
"require N==2 (error otherwise)"; the call sites take one boolean result, so
that error is raised and aborts the pass; it is of the mismatch kind (§7).
The keywords are those of the outputs in `example_test.go`. -/
def writeOperator (argLen : Nat) (operator : Op) : Except Error (String × Bool) :=
  match operator with
  | .Null => .ok (" IS NULL", false)
  | .NotNull => .ok (" IS NOT NULL", false)
  | .In => .ok (writeOperatorList " IN " argLen)
  | .NotIn => .ok (writeOperatorList " NOT IN " argLen)
  | .Greatest => .ok (writeOperatorList " GREATEST " argLen)
  | .Least => .ok (writeOperatorList " LEAST " argLen)
  | .Between =>
      if argLen = 2 then .ok (" BETWEEN ? AND ?", true)
      else .error (.panic (.mismatch "[dbr] BETWEEN requires two arguments"))
  | .NotBetween =>
      if argLen = 2 then .ok (" NOT BETWEEN ? AND ?", true)
      else .error (.panic (.mismatch "[dbr] NOT BETWEEN requires two arguments"))
  | .Exists => .ok (" EXISTS ", false)
  | .NotExists => .ok (" NOT EXISTS ", false)
  | .Like => .ok (writeOperatorBinary " LIKE " argLen)
  | .NotLike => .ok (writeOperatorBinary " NOT LIKE " argLen)
  | .NotEqual => .ok (writeOperatorBinary " != " argLen)
  | .Less => .ok (writeOperatorBinary " < " argLen)
  | .Greater => .ok (writeOperatorBinary " > " argLen)
  | .LessOrEqual => .ok (writeOperatorBinary " <= " argLen)
  | .GreaterOrEqual => .ok (writeOperatorBinary " >= " argLen)
  | .Regexp => .ok (writeOperatorBinary " REGEXP " argLen)
  | .NotRegexp => .ok (writeOperatorBinary " NOT REGEXP " argLen)
  | .Xor => .ok (writeOperatorBinary " XOR " argLen)
  | .SpaceShip => .ok (writeOperatorBinary " <=> " argLen)
  | .Coalesce => .ok (writeOperatorBinary " COALESCE " argLen)
  | .Equal => .ok (writeOperatorBinary " = " argLen)
  | .unset => .ok (writeOperatorBinary " = " argLen)

/-! ## Identifier quoting -/

/-- The backtick. -/
def backtick : Char := Char.ofNat 96

/-- Characters of a name with every qualifier dot turned into
backtick-dot-backtick and a closing backtick at the end. -/
def quoteChars : List Char → List Char
  | [] => [backtick]
  | c :: cs => if c = '.' then backtick :: '.' :: backtick :: quoteChars cs else c :: quoteChars cs

/-- Modelled from the spec: `Quoter.writeName`, which is not under src/: "every
column/table/alias reference is wrapped in backticks" (§6), a
`qualifier.identifier` part by part as in the outputs of `example_test.go`. -/
def Quoter.writeName (name : String) : String := ⟨backtick :: quoteChars name.data⟩

/-- Modelled from the spec: `Quoter.quote`, which is not under src/: the name
wrapped in backticks. -/
def Quoter.quote (name : String) : String := "`" ++ name ++ "`"

/-- Modelled from the spec: `Quoter.WriteNameAlias`, which is not under src/:
the quoted name, followed by ` AS ` and the quoted alias when there is one. -/
def Quoter.WriteNameAlias (name aliasName : String) : String :=
  if aliasName = "" then Quoter.writeName name
  else Quoter.writeName name ++ " AS " ++ Quoter.quote aliasName

/-- Modelled from the spec: `Quoter.FquoteAs(w, name)` without an alias, which
is not under src/. -/
def Quoter.FquoteAs (name : String) : String := Quoter.WriteNameAlias name ""

/-! ## Conditions -/

/-- Modelled from the spec: the `Select` builder is not under src/. A
sub-select is represented by what its two passes yield: the text that its
`toSQL` writes with the error it returns, and the arguments that its
`appendArgs` appends with the error it returns. Both passes are taken to be
repeatable. -/
structure Select where
  text : String := ""
  args : Arguments := []
  err : Option Error := none
  table : String := ""

/-- The constants `logicalAnd`, `logicalOr`, `logicalXor`, `logicalNot`. -/
def logicalAnd : Char := 'a'
def logicalOr : Char := 'o'
def logicalXor : Char := 'x'
def logicalNot : Char := 'n'

/-- The struct `WhereFragment`. `Arguments` is `none` for the nil slice, which
the source tells apart from an empty one (`f.Arguments == nil`). `SubSelect`
and `SubOperator` are the fields `Sub.Select` and `Sub.Operator`. -/
structure WhereFragment where
  Condition : String := ""
  Operator : Op := .unset
  Argument : Argument := .nil
  Arguments : Option Arguments := none
  SubSelect : Option Select := none
  SubOperator : Op := .unset
  Logical : Char := Char.ofNat 0
  IsExpression : Bool := false
  IsPlaceHolder : Bool := false
  Using : List String := []

/-- The type `WhereFragments`. -/
abbrev WhereFragments := List WhereFragment

/-- The length of the `Arguments` slice of a fragment. -/
def WhereFragment.argumentsLen (f : WhereFragment) : Nat :=
  match f.Arguments with
  | none => 0
  | some l => l.length

/-- The entries of the `Arguments` slice of a fragment (`f.Arguments...`). -/
def WhereFragment.argumentsList (f : WhereFragment) : Dbr.Arguments :=
  match f.Arguments with
  | none => []
  | some l => l

/-- The method `And`. -/
def WhereFragment.And (wf : WhereFragment) : WhereFragment := { wf with Logical := logicalAnd }

/-- The method `Or`. -/
def WhereFragment.Or (wf : WhereFragment) : WhereFragment := { wf with Logical := logicalOr }

/-- The constructor `Using`. -/
def Using (columns : List String) : WhereFragment := { Using := columns }

/-- The constructor `SubSelect`. -/
def SubSelect (columnName : String) (operator : Op) (s : Select) : WhereFragment :=
  { Condition := columnName, SubSelect := some s, SubOperator := operator }

/-- The constructor `Column`. -/
def Column (columnName : String) : WhereFragment := { Condition := columnName }

/-- The operator setters `Null`, `In`, `Between`, ...: each stores its
operator. -/
def WhereFragment.op (wf : WhereFragment) (o : Op) : WhereFragment := { wf with Operator := o }

/-- The method `PlaceHolder`. -/
def WhereFragment.PlaceHolder (wf : WhereFragment) : WhereFragment :=
  { wf with Argument := .placeHolder cahensConstant, IsPlaceHolder := true }

/-- The value setters `Int`, `Ints`, `String`, `Strings`, ...: each stores its
argument. -/
def WhereFragment.arg (wf : WhereFragment) (a : Dbr.Argument) : WhereFragment :=
  { wf with Argument := a }

/-- The constructor `Expression`; without variadic arguments the slice is
nil. -/
def Expression (expression : String) (arg : Arguments) : WhereFragment :=
  { IsExpression := true, Condition := expression,
    Arguments := if arg.isEmpty then none else some arg }

/-- The constructor `ParenthesisOpen`. -/
def ParenthesisOpen : WhereFragment := { Condition := "(" }

/-- The constructor `ParenthesisClose`. -/
def ParenthesisClose : WhereFragment := { Condition := ")" }

/-- The method `intersectConditions`. -/
def WhereFragments.intersectConditions (wfs : WhereFragments) (c : List String) : List String :=
  c ++ (wfs.filter (fun w => w.IsPlaceHolder)).map (fun w => w.Condition)

/-! ## The text pass over a condition list -/

/-- What a writing pass leaves behind: the text appended to the buffer, the
walked value as it is after the pass, and the error returned. -/
structure Written (σ : Type) where
  text : String
  state : σ
  err : Option Error

/-- The connector written in front of a fragment that is not the first of its
group: the `switch f.Logical` of `WhereFragments.write`. -/
def connector (logical : Char) : String :=
  if logical = logicalAnd then " AND "
  else if logical = logicalOr then " OR "
  else if logical = logicalXor then " XOR "
  else if logical = logicalNot then " NOT "
  else " AND "

/-- Characters of a text with every double quote and every backslash escaped
by a backslash. -/
def quotedChars : List Char → List Char
  | [] => []
  | c :: cs =>
    if c = Char.ofNat 34 ∨ c = Char.ofNat 92 then Char.ofNat 92 :: c :: quotedChars cs
    else c :: quotedChars cs

/-- The verb `%q` of a format for a text (package `fmt` of the Go library): the
text between double quotes, a double quote and a backslash in it escaped by a
backslash. Texts with control characters, which `%q` escapes as well, do not
occur in the messages at hand. -/
def quoted (s : String) : String := ⟨Char.ofNat 34 :: quotedChars s.data ++ [Char.ofNat 34]⟩

/-- The message of the error wrapped around a failing sub-select, the table
name formatted with `%q`. -/
def subSelectMsg (s : Select) : String :=
  "[dbr] write failed SubSelect for table: " ++ quoted s.table

/-- A call `writeOperator(w, argLen, op)` after the text `before` of the same
condition: the text of the condition then, and the error raised. -/
def writeOperatorAfter (before : String) (argLen : Nat) (operator : Op) : String × Option Error :=
  match writeOperator argLen operator with
  | .ok r => (before ++ r.1, none)
  | .error e => (before, some e)

/-- The `switch` of `WhereFragments.write` that writes one condition between
its parentheses. The `default` branch panics with a not-supported error. -/
def WhereFragment.writeCondition (f : WhereFragment) : Written WhereFragment :=
  if f.IsExpression then
    if !f.Condition.data.contains '?' && (f.argumentsLen == 1 || f.Argument.isSet)
        && f.Operator != Op.unset then
      let eArg := if f.Argument.isSet then f.Argument else f.argumentsList.headD Argument.nil
      if eArg.isSet then
        ⟨(writeOperatorAfter f.Condition eArg.len f.Operator).1, f,
          (writeOperatorAfter f.Condition eArg.len f.Operator).2⟩
      else ⟨f.Condition, f, some (Error.panic Error.nilPointer)⟩
    else ⟨f.Condition, f, none⟩
  else
    match f.SubSelect with
    | some s =>
      let r := writeOperatorAfter (Quoter.WriteNameAlias f.Condition "") 0 f.SubOperator
      match r.2 with
      | some e => ⟨r.1, f, some e⟩
      | none =>
        match s.err with
        | some e => ⟨r.1 ++ "(" ++ s.text, f, some (Error.Wrap (subSelectMsg s) e)⟩
        | none => ⟨r.1 ++ "(" ++ s.text ++ ")", f, none⟩
    | none =>
      match f.Arguments with
      | some _ =>
        ⟨"", f, some (Error.panic
          (Error.notSupported "[dbr] Multiple arguments for a column are not supported"))⟩
      | none =>
        if f.Argument.isSet then
          let al := if f.IsPlaceHolder then 1 else f.Argument.len
          let f1 : WhereFragment :=
            if al > 1 && f.Operator == Op.unset then { f with Operator := Op.In } else f
          ⟨(writeOperatorAfter (Quoter.WriteNameAlias f.Condition "") al f1.Operator).1, f1,
            (writeOperatorAfter (Quoter.WriteNameAlias f.Condition "") al f1.Operator).2⟩
        else
          let c := if f.Operator = Op.unset then Op.Null else f.Operator
          ⟨(writeOperatorAfter (Quoter.WriteNameAlias f.Condition "") 1 c).1, f,
            (writeOperatorAfter (Quoter.WriteNameAlias f.Condition "") 1 c).2⟩

/-- The quoted columns of a USING list, joined by commas. -/
def usingColumns : List String → String
  | [] => ""
  | [c] => Quoter.writeName c
  | c :: cs => Quoter.writeName c ++ "," ++ usingColumns cs

/-- Puts the text and the fragment of one loop iteration in front of the
outcome of the remaining iterations. -/
def Written.push (t : String) (f : WhereFragment) (r : Written WhereFragments) :
    Written WhereFragments :=
  ⟨t ++ r.text, f :: r.state, r.err⟩

/-- The `for _, f := range wfs` loop of `WhereFragments.write`, started with
the counter `i`. -/
def writeLoop (conditionType : Char) : Nat → WhereFragments → Written WhereFragments
  | _, [] => ⟨"", [], none⟩
  | i, f :: rest =>
    if conditionType = 'j' ∧ f.Using.length > 0 then
      ⟨" USING (" ++ usingColumns f.Using ++ ")", f :: rest, none⟩
    else
      let onText := if conditionType = 'j' ∧ i = 0 then " ON " else ""
      if f.Condition = ")" then
        (writeLoop conditionType i rest).push (onText ++ ")") f
      else
        let conn := if i > 0 then connector f.Logical else ""
        if f.Condition = "(" then
          (writeLoop conditionType 0 rest).push (onText ++ conn ++ "(") f
        else
          let c := f.writeCondition
          match c.err with
          | some e => ⟨onText ++ conn ++ "(" ++ c.text, c.state :: rest, some e⟩
          | none => (writeLoop conditionType (i + 1) rest).push (onText ++ conn ++ "(" ++ c.text ++ ")") c.state

/-- The keyword that `WhereFragments.write` puts in front of the list. -/
def clauseKeyword (conditionType : Char) : String :=
  if conditionType = 'w' then " WHERE " else if conditionType = 'h' then " HAVING " else ""

/-- The method `WhereFragments.write`; `conditionType` is `j`, `w` or `h`. -/
def WhereFragments.write (wfs : WhereFragments) (conditionType : Char) : Written WhereFragments :=
  if wfs.length = 0 then ⟨"", wfs, none⟩
  else
    let r := writeLoop conditionType 0 wfs
    ⟨clauseKeyword conditionType ++ r.text, r.state, r.err⟩

/-! ## The argument pass over a condition list -/

/-- The three results of `WhereFragments.appendArgs`. -/
structure Appended where
  args : Arguments
  pendingArgPos : List Nat
  err : Option Error

/-- The `for _, f := range wfs` loop of `WhereFragments.appendArgs`. The
counter `i` of the source is written but never read and is left out. -/
def appendArgsLoop (conditionType : Char) :
    WhereFragments → Arguments → List Nat → Nat → Appended
  | [], args, pendingArgPos, _ => ⟨args, pendingArgPos, none⟩
  | f :: rest, args, pendingArgPos, pendingArgPosCount =>
    if conditionType = 'j' ∧ f.Using.length > 0 then ⟨args, pendingArgPos, none⟩
    else if f.Condition = ")" then
      appendArgsLoop conditionType rest args pendingArgPos pendingArgPosCount
    else if f.Condition = "(" then
      appendArgsLoop conditionType rest args pendingArgPos pendingArgPosCount
    else
      let add (addArg : Bool) (args : Arguments) (pendingArgPos : List Nat) : Appended :=
        let args1 :=
          if addArg then
            (if f.Argument.isSet then args ++ [f.Argument] else args) ++ f.argumentsList
          else args
        appendArgsLoop conditionType rest args1 pendingArgPos (pendingArgPosCount + 1)
      if f.IsExpression then add true args pendingArgPos
      else if f.IsPlaceHolder then
        match writeOperator 1 f.Operator with
        | .ok r => add r.2 args (pendingArgPos ++ [pendingArgPosCount])
        | .error e => ⟨[], pendingArgPos, some e⟩
      else if f.Argument.isSet then
        match writeOperator f.Argument.len f.Operator with
        | .ok r => add r.2 args pendingArgPos
        | .error e => ⟨[], pendingArgPos, some e⟩
      else
        match f.SubSelect with
        | some s =>
          match s.err with
          | some e => ⟨[], pendingArgPos, some (Error.Wrap (subSelectMsg s) e)⟩
          | none => add false (args ++ s.args) pendingArgPos
        | none => add false args pendingArgPos

/-- The method `WhereFragments.appendArgs`. -/
def WhereFragments.appendArgs (wfs : WhereFragments) (args : Arguments) (conditionType : Char) :
    Appended :=
  if wfs.length = 0 then ⟨args, [], none⟩
  else appendArgsLoop conditionType wfs args [] args.length

/-! ## Assembled arguments -/

/-- Modelled from the spec: the statement part identifier handed to an
assembler (`SQLStmtUpdate|SQLPartSet`, `SQLStmtUpdate|SQLPartWhere`); the
constants are not under src/. -/
inductive StmtType where
  | updateSet | updateWhere
  deriving DecidableEq, Repr

/-- The interface `ArgumentAssembler`: its method `AssembleArguments(stmtType,
args, columns)`. -/
abbrev ArgumentAssembler := StmtType → Arguments → List String → Except Error Arguments

/-- The statement `args[p], args[i] = args[i], args[p]`. -/
def swapArgs (args : Arguments) (p i : Nat) : Arguments :=
  match args[i]?, args[p]? with
  | some ai, some ap => (args.set p ai).set i ap
  | _, _ => args

/-- The loop `for i := newLen; i < lenAfter; i++` of `appendAssembledArgs`,
which runs once for each entry of `pendingArgPos` (`j` counts them) while `i`
runs from `newLen`; an index outside the slice is a runtime panic. -/
def swapPending : List Nat → Int → Arguments → Except Error Arguments
  | [], _, args => .ok args
  | p :: ps, i, args =>
    if 0 ≤ i ∧ i.toNat < args.length ∧ p < args.length then
      swapPending ps (i + 1) (swapArgs args p i.toNat)
    else .error (Error.panic Error.indexOutOfRange)

/-- The function `appendAssembledArgs`. -/
def appendAssembledArgs (pendingArgPos : List Nat) (record : Option ArgumentAssembler)
    (args : Arguments) (stmtType : StmtType) (columns : List String) : Except Error Arguments :=
  match record with
  | none => .ok args
  | some r =>
    match r stmtType args columns with
    | .error e => .error e
    | .ok assembled =>
      if assembled.length > args.length then
        let newLen : Int := (assembled.length : Int) - (pendingArgPos.length : Int)
        match swapPending pendingArgPos newLen assembled with
        | .error e => .error e
        | .ok swapped => .ok (swapped.take newLen.toNat)
      else .ok assembled

/-! ## The UPDATE statement -/

/-- Modelled from the spec: the type `alias`, which is not under src/: a table
or column reference with an optional alias, a flag for a raw expression that
is not quoted, and the sort direction of an ORDER BY entry. -/
structure NameAlias where
  Name : String := ""
  Alias : String := ""
  IsExpression : Bool := false
  Descending : Bool := false
  deriving DecidableEq, Repr

/-- Modelled from the spec: `MakeAlias(table...)`, which is not under src/: the
first string is the name, the second one the alias. -/
def MakeAlias (table : List String) : NameAlias :=
  { Name := table.headD "", Alias := table.tail.headD "" }

/-- Modelled from the spec: `alias.FquoteAs`, which is not under src/: the
reference quoted (§6), a raw expression left as it is, with ` AS ` and the
quoted alias when there is one. -/
def NameAlias.FquoteAs (a : NameAlias) : String :=
  if a.IsExpression then
    (if a.Alias = "" then a.Name else a.Name ++ " AS " ++ Quoter.quote a.Alias)
  else Quoter.WriteNameAlias a.Name a.Alias

/-- Modelled from the spec: `aliases.appendColumns(columns, isExpression)`,
which is not under src/. -/
def appendColumns (as : List NameAlias) (columns : List String) (isExpression : Bool) :
    List NameAlias :=
  as ++ columns.map (fun c => { Name := c, IsExpression := isExpression })

/-- Modelled from the spec: `aliases.applySort(lastNindexes, sortDescending)`,
which is not under src/: the last `n` entries sort descending. -/
def applySortDescending (as : List NameAlias) (n : Nat) : List NameAlias :=
  as.take (as.length - n) ++ (as.drop (as.length - n)).map (fun a => { a with Descending := true })

/-- Decimal digits of a number, most significant first. -/
def decDigits : Nat → Nat → List Char
  | 0, _ => []
  | fuel + 1, n =>
    if n < 10 then [Char.ofNat (48 + n)]
    else decDigits fuel (n / 10) ++ [Char.ofNat (48 + n % 10)]

/-- The decimal form in which a `uint64` is written. -/
def writeUint64 (n : Nat) : String := ⟨decDigits (n + 1) n⟩

/-- One entry of an ORDER BY list. -/
def orderByEntry (a : NameAlias) : String :=
  (if a.IsExpression then a.Name else Quoter.writeName a.Name)
    ++ (if a.Descending then " DESC" else "")

/-- The entries of an ORDER BY list, joined by `, `. -/
def orderByEntries : List NameAlias → String
  | [] => ""
  | [a] => orderByEntry a
  | a :: as => orderByEntry a ++ ", " ++ orderByEntries as

/-- Modelled from the spec: `sqlWriteOrderBy(w, orderBys, false)`, which is not
under src/: nothing for an empty list, else ` ORDER BY ` and the entries as in
the outputs of `example_test.go`. -/
def sqlWriteOrderBy (orderBys : List NameAlias) : String :=
  if orderBys.isEmpty then "" else " ORDER BY " ++ orderByEntries orderBys

/-- Modelled from the spec: `sqlWriteLimitOffset`, which is not under src/:
` LIMIT n` when the limit is valid and ` OFFSET m` when the offset is valid
(§6). -/
def sqlWriteLimitOffset (limitValid : Bool) (limitCount : Nat) (offsetValid : Bool)
    (offsetCount : Nat) : String :=
  (if limitValid then " LIMIT " ++ writeUint64 limitCount else "")
    ++ (if offsetValid then " OFFSET " ++ writeUint64 offsetCount else "")

/-- The struct `UpdatedColumns`. -/
structure UpdatedColumns where
  Columns : List String := []
  Arguments : Dbr.Arguments := []
  Record : Option ArgumentAssembler := none

/-- The struct `Update`, without its logger, database handle and listeners. -/
structure Update where
  RawFullSQL : String := ""
  RawArguments : Dbr.Arguments := []
  buildCache : String := ""
  Table : NameAlias := {}
  SetClauses : UpdatedColumns := {}
  WhereFragments : Dbr.WhereFragments := []
  OrderBys : List NameAlias := []
  LimitCount : Nat := 0
  OffsetCount : Nat := 0
  LimitValid : Bool := false
  OffsetValid : Bool := false
  PropagationStopped : Bool := false
  IsInterpolate : Bool := false
  UseBuildCache : Bool := false
  previousError : Option Error := none

/-- The constructor `NewUpdate`. -/
def NewUpdate (table : List String) : Update := { Table := MakeAlias table }

/-- The method `Update.Set`. -/
def Update.Set (b : Update) (column : String) (arg : Argument) : Update :=
  match b.previousError with
  | some _ => b
  | none =>
    { b with SetClauses := { b.SetClauses with
        Columns := b.SetClauses.Columns ++ [column],
        Arguments := b.SetClauses.Arguments ++ [arg] } }

/-- The method `Update.AddColumns`. -/
def Update.AddColumns (b : Update) (columnNames : List String) : Update :=
  match b.previousError with
  | some _ => b
  | none =>
    { b with SetClauses := { b.SetClauses with Columns := b.SetClauses.Columns ++ columnNames } }

/-- The method `Update.SetRecord`. -/
def Update.SetRecord (b : Update) (columns : List String) (record : ArgumentAssembler) : Update :=
  match b.previousError with
  | some _ => b
  | none =>
    { b with SetClauses := { b.SetClauses with
        Columns := b.SetClauses.Columns ++ columns, Record := some record } }

/-- The method `Update.Where`; `WhereFragments.append` adds the given
fragments at the end of the list. -/
def Update.Where (b : Update) (args : Dbr.WhereFragments) : Update :=
  match b.previousError with
  | some _ => b
  | none => { b with WhereFragments := b.WhereFragments ++ args }

/-- The method `Update.OrderBy`. -/
def Update.OrderBy (b : Update) (columns : List String) : Update :=
  { b with OrderBys := appendColumns b.OrderBys columns false }

/-- The method `Update.OrderByDesc`. -/
def Update.OrderByDesc (b : Update) (columns : List String) : Update :=
  { b with OrderBys := applySortDescending (appendColumns b.OrderBys columns false) columns.length }

/-- The method `Update.OrderByExpr`. -/
def Update.OrderByExpr (b : Update) (columns : List String) : Update :=
  { b with OrderBys := appendColumns b.OrderBys columns true }

/-- The method `Update.Limit`. -/
def Update.Limit (b : Update) (limit : Nat) : Update :=
  { b with LimitCount := limit, LimitValid := true }

/-- The method `Update.Offset`. -/
def Update.Offset (b : Update) (offset : Nat) : Update :=
  { b with OffsetCount := offset, OffsetValid := true }

/-- The method `Update.Interpolate`. -/
def Update.Interpolate (b : Update) : Update := { b with IsInterpolate := true }

/-- The loop of `Update.toSQL` that writes the SET clause, started at column
index `i`: an expression argument writes its own text (`e.writeTo`), every
other column a `?`. -/
def writeSetClauses (arguments : Arguments) : Nat → List String → String
  | _, [] => ""
  | i, c :: cs =>
    (if i > 0 then ", " else "") ++ Quoter.FquoteAs c ++ "="
      ++ (match arguments[i]? with
          | some (Argument.expr sql _) => sql
          | _ => "?")
      ++ writeSetClauses arguments (i + 1) cs

/-- The method `Update.toSQL`. -/
def Update.toSQL (b : Update) : Written Update :=
  match b.previousError with
  | some e => ⟨"", b, some (Error.wrap "[dbr] Update.ToSQL" e)⟩
  | none =>
    if b.RawFullSQL ≠ "" then ⟨b.RawFullSQL, b, none⟩
    else if b.Table.Name.length = 0 then ⟨"", b, some (Error.empty "[dbr] Update: Table at empty")⟩
    else if b.SetClauses.Columns.length = 0 then
      ⟨"", b, some (Error.empty "[dbr] Update: SetClauses are empty")⟩
    else
      let head := "UPDATE " ++ b.Table.FquoteAs ++ " SET "
        ++ writeSetClauses b.SetClauses.Arguments 0 b.SetClauses.Columns
      let w := WhereFragments.write b.WhereFragments 'w'
      match w.err with
      | some e =>
        ⟨head ++ w.text, { b with WhereFragments := w.state },
          some (Error.Wrap "[dbr] Update.ToSQL.write" e)⟩
      | none =>
        ⟨head ++ w.text ++ sqlWriteOrderBy b.OrderBys
            ++ sqlWriteLimitOffset b.LimitValid b.LimitCount b.OffsetValid b.OffsetCount,
          { b with WhereFragments := w.state }, none⟩

/-- The loop of `Update.appendArgs` over the SET arguments: an expression
contributes its own arguments, every other argument itself. -/
def setArguments : Arguments → Arguments
  | [] => []
  | Argument.expr _ inner :: rest => inner ++ setArguments rest
  | a :: rest => a :: setArguments rest

/-- Modelled from the spec: `WhereFragments.Conditions()`, which is not under
src/: the column names of the list, handed to the assembler. -/
def WhereFragments.Conditions (wfs : WhereFragments) : List String :=
  wfs.map (fun w => w.Condition)

/-- The call of `Record.AssembleArguments` for the SET part in
`Update.appendArgs`, skipped without a record. -/
def assembleSet (record : Option ArgumentAssembler) (args : Arguments) (columns : List String) :
    Except Error Arguments :=
  match record with
  | none => .ok args
  | some r => r StmtType.updateSet args columns

/-- The method `Update.appendArgs`. -/
def Update.appendArgs (b : Update) (args : Arguments) : Except Error Arguments :=
  match b.previousError with
  | some e => .error (Error.wrap "[dbr] Update.appendArgs" e)
  | none =>
    if b.RawFullSQL ≠ "" then .ok b.RawArguments
    else
      match assembleSet b.SetClauses.Record args b.SetClauses.Columns with
      | .error e => .error (Error.Wrap "[dbr] Update.ToSQL Record.AssembleArguments" e)
      | .ok assembled =>
        let w := WhereFragments.appendArgs b.WhereFragments
          (assembled ++ setArguments b.SetClauses.Arguments) 'w'
        match w.err with
        | some e => .error (Error.Wrap "[dbr] Update.ToSQL.write" e)
        | none =>
          match appendAssembledArgs w.pendingArgPos b.SetClauses.Record w.args
              StmtType.updateWhere (WhereFragments.Conditions b.WhereFragments) with
          | .error e => .error (Error.Wrap "[dbr] Update.toSQL.appendAssembledArgs" e)
          | .ok r => .ok r

/-- Number of `?` in a text. -/
def countPlaceHolders (text : String) : Nat := text.data.count '?'

/-! ## The grouping rule of WHERE and HAVING in the words of the specification -/

/-- The connector that a value of the `Logical` field names: `a` AND, `o` OR,
`x` XOR, `n` NOT, and AND for every other value. -/
def namedConnector (logical : Char) : String :=
  match logical with
  | 'a' => " AND "
  | 'o' => " OR "
  | 'x' => " XOR "
  | 'n' => " NOT "
  | _ => " AND "

/-- Whether the fragment that follows the fragments `pre` has a predecessor in
its group: a fragment other than a closing parenthesis marker that stands
after the last opening parenthesis marker of `pre`. `seen` is the answer for
what stands before `pre`. -/
def hasGroupPredecessor (seen : Bool) : WhereFragments → Bool
  | [] => seen
  | g :: pre =>
    if g.Condition = ")" then hasGroupPredecessor seen pre
    else if g.Condition = "(" then hasGroupPredecessor false pre
    else hasGroupPredecessor true pre

/-- The text of a condition list after the clause keyword, as the
serialization rule words it: a closing marker is written verbatim and without
connector, an opening marker verbatim, every other condition inside its own
pair of parentheses; the first fragment of a group takes no connector, every
later one the connector that its `Logical` field names. `first` says whether
the next fragment is the first of its group. -/
def groupedConditions (first : Bool) : WhereFragments → String
  | [] => ""
  | f :: rest =>
    if f.Condition = ")" then ")" ++ groupedConditions first rest
    else if f.Condition = "(" then
      (if first then "" else namedConnector f.Logical) ++ "(" ++ groupedConditions true rest
    else
      (if first then "" else namedConnector f.Logical) ++ "(" ++ f.writeCondition.text ++ ")"
        ++ groupedConditions false rest

/-- The counter `i` of the loop of `WhereFragments.write` after its run over
the fragments `pre`, started with `i`. -/
def counterAfter : Nat → WhereFragments → Nat
  | i, [] => i
  | i, g :: pre =>
    if g.Condition = ")" then counterAfter i pre
    else if g.Condition = "(" then counterAfter 0 pre
    else counterAfter (i + 1) pre

/-! ## The arguments of a WHERE list, fragment by fragment -/

/-- The result `addArg` of the counting call `writeOperator(backHole, n, op)`;
a failing call adds nothing. -/
def addsArgument (argLen : Nat) (operator : Op) : Bool :=
  match writeOperator argLen operator with
  | .ok r => r.2
  | .error _ => false

/-- The arguments that one fragment of a WHERE list binds: none for a
parenthesis marker; the direct argument and the `Arguments` slice of an
expression; the direct argument of a column condition whose operator takes
one; the arguments of a sub-select. -/
def fragmentArguments (f : WhereFragment) : Arguments :=
  if f.Condition = ")" ∨ f.Condition = "(" then []
  else if f.IsExpression then
    (if f.Argument.isSet then [f.Argument] else []) ++ f.argumentsList
  else if f.IsPlaceHolder then
    (if addsArgument 1 f.Operator then
      (if f.Argument.isSet then [f.Argument] else []) ++ f.argumentsList else [])
  else if f.Argument.isSet then
    (if addsArgument f.Argument.len f.Operator then f.Argument :: f.argumentsList else [])
  else
    match f.SubSelect with
    | some s => s.args
    | none => []

/-- The arguments of a WHERE list in fragment order. -/
def whereArguments : WhereFragments → Arguments
  | [] => []
  | f :: rest => fragmentArguments f ++ whereArguments rest

/-! ## Statements whose placeholders all have their value at build time -/

/-- A text without `?`. -/
def noPlaceHolder (s : String) : Bool := !s.data.contains '?'

/-- The comparisons of §4.2 that take one argument. -/
def Op.isComparison : Op → Bool
  | .Like | .NotLike | .Equal | .NotEqual | .Less | .Greater | .LessOrEqual
  | .GreaterOrEqual | .Regexp | .NotRegexp | .Xor | .SpaceShip | .Coalesce => true
  | _ => false

/-- The operators BETWEEN and NOT BETWEEN. -/
def Op.isBetween : Op → Bool
  | .Between | .NotBetween => true
  | _ => false

/-- The operators that a column condition without a value can carry without a
placeholder being written: none, IS NULL, IS NOT NULL, EXISTS, NOT EXISTS. -/
def Op.takesNoValue : Op → Bool
  | .unset | .Null | .NotNull | .Exists | .NotExists => true
  | _ => false

/-- A value given to `Set` that covers the placeholders written for its
column: an expression whose text has as many `?` as its own arguments cover,
or another argument of length one. -/
def Argument.coversOwnPlaceHolders : Argument → Bool
  | .expr sql inner => countPlaceHolders sql == slots inner
  | a => a.len == 1

/-- A WHERE fragment whose placeholders all have their value at build time: a
parenthesis marker; an expression without operator whose text has as many `?`
as its arguments cover; a sub-select condition without a direct argument whose
sub-select is built without error and has as many `?` as arguments; a column
condition that is not deferred and whose argument fits its operator (two
values for BETWEEN, one at most for a comparison, no value only with no
operator, IS NULL, IS NOT NULL, EXISTS or NOT EXISTS). -/
def WhereFragment.directlyBound (f : WhereFragment) : Bool :=
  f.Condition == "(" || f.Condition == ")" ||
  (if f.IsExpression then
    f.Operator == Op.unset
      && countPlaceHolders f.Condition
        == slots ((if f.Argument.isSet then [f.Argument] else []) ++ f.argumentsList)
  else
    !f.IsPlaceHolder && noPlaceHolder f.Condition && f.Arguments.isNone &&
    (match f.SubSelect with
    | some s =>
      !f.Argument.isSet && s.err.isNone && !f.SubOperator.isBetween
        && countPlaceHolders s.text == slots s.args
    | none =>
      if f.Argument.isSet then
        (!f.Operator.isBetween || f.Argument.len == 2)
          && (!f.Operator.isComparison || decide (f.Argument.len ≤ 1))
      else f.Operator.takesNoValue))

/-- An Update whose placeholders all have their value at build time: no
record, a value from `Set` for every SET column that covers its own
placeholders, WHERE fragments that are directly bound, and no `?` inside an
identifier or a raw ORDER BY expression. -/
def Update.directlyBound (b : Update) : Bool :=
  b.SetClauses.Record.isNone
    && b.SetClauses.Arguments.length == b.SetClauses.Columns.length
    && b.SetClauses.Arguments.all Argument.coversOwnPlaceHolders
    && b.SetClauses.Columns.all noPlaceHolder
    && noPlaceHolder b.Table.Name && noPlaceHolder b.Table.Alias
    && b.OrderBys.all (fun a => noPlaceHolder a.Name)
    && b.WhereFragments.all WhereFragment.directlyBound

/-- The steps of both passes at a fragment that is no parenthesis marker,
summed up: the text pass succeeds, the argument pass over the fragment as the
text pass left it adds the arguments of the fragment and nothing else, and
these cover as many slots as the text has placeholders. -/
structure BoundStep (f : WhereFragment) : Prop where
  noErr : f.writeCondition.err = none
  balanced : countPlaceHolders f.writeCondition.text
    = slots (fragmentArguments f.writeCondition.state)
  step : ∀ (rest : WhereFragments) (args : Arguments) (pap : List Nat) (cnt : Nat),
    appendArgsLoop 'w' (f.writeCondition.state :: rest) args pap cnt
      = appendArgsLoop 'w' rest (args ++ fragmentArguments f.writeCondition.state) pap (cnt + 1)

/-! ## USING in a join condition list -/

/-- A condition list with the `Using` column lists taken off its fragments. -/
def withoutUsing (wfs : WhereFragments) : WhereFragments :=
  wfs.map (fun f => { f with Using := [] })

/-! ## More of the UPDATE builder -/

/-- The constructors `Connection.UpdateBySQL` and `Tx.UpdateBySQL`, without
logger and database handle. -/
def UpdateBySQL (sql : String) (args : Arguments) : Update :=
  { RawFullSQL := sql, RawArguments := args }

/-- The method `Update.SetMap`; `clauses` lists the entries of the map in the
order in which the `range` loop visits them. -/
def Update.SetMap (b : Update) (clauses : List (String × Argument)) : Update :=
  match b.previousError with
  | some _ => b
  | none => clauses.foldl (fun u p => u.Set p.1 p.2) b

/-- The method `Update.writeBuildCache`. -/
def Update.writeBuildCache (b : Update) (sql : String) (arguments : Arguments) : Update :=
  { b with buildCache := sql, RawArguments := arguments }

/-- The method `Update.readBuildCache`. -/
def Update.readBuildCache (b : Update) : String × Arguments := (b.buildCache, b.RawArguments)

/-- The method `Update.hasBuildCache`. -/
def Update.hasBuildCache (b : Update) : Bool := b.UseBuildCache

/-! ## UpdateMulti -/

/-- Modelled from the spec: the text of an error value (`err.Error()`, the `%s`
of a format), which is not under src/: the messages wrapped around the
cause, outermost first. -/
def Error.message : Error → String
  | .empty m => m
  | .notSupported m => m
  | .mismatch m => m
  | .other m => m
  | .indexOutOfRange => "runtime error: index out of range"
  | .nilPointer => "runtime error: invalid memory address or nil pointer dereference"
  | .wrap m c => m ++ ": " ++ c.message
  | .panic c => c.message

/-- A `sql.Result` of the driver. -/
structure SqlResult where
  lastInsertId : Int
  rowsAffected : Int
  deriving DecidableEq, Repr

/-- The interface `Txer` as far as `UpdateMulti.Exec` looks at it: what its
`Commit` and its `Rollback` return. -/
structure Txer where
  commit : Option Error
  rollback : Option Error

/-- Modelled from the spec: the type `txMock`, which is not under src/: the
stand-in used without a transaction, whose `Commit` and `Rollback` do nothing
and return nil. -/
def txMock : Txer := ⟨none, none⟩

/-- The collaborators of `UpdateMulti.Exec` (database handle, transaction
beginner, prepared statement and the function `interpolate`, all outside
src/), each given by its answer: `beginTx` for `Tx.BeginTx`, `prepare` for
`PrepareContext`, `execStmt n` and `execSQL n` for the execution that follows
`n` earlier ones, through the prepared statement or as literal SQL. -/
structure Driver where
  beginTx : Except Error Txer
  prepare : String → Option Error
  execStmt : Nat → Arguments → Except Error SqlResult
  execSQL : Nat → String → Except Error SqlResult
  interpolate : String → Arguments → Except Error String

/-- The calls that reach the database. -/
inductive Event where
  | beginTx : Event
  | prepare (sql : String) : Event
  | execStmt (args : Arguments) : Event
  | execSQL (sql : String) : Event
  | commit : Event
  | rollback : Event

/-- The struct `UpdateMulti`; `Tx` is part of the `Driver`, and `RecordChan`
says whether the channel is non-nil. -/
structure UpdateMulti where
  IsTransaction : Bool := false
  IsolationLevel : Nat := 0
  Update : Dbr.Update := {}
  Alias : List String := []
  Records : List ArgumentAssembler := []
  RecordChan : Bool := false

/-- The constructor `NewUpdateMulti`. -/
def NewUpdateMulti (tpl : Update) : UpdateMulti := { Update := tpl }

/-- The method `UpdateMulti.AddRecords`. -/
def UpdateMulti.AddRecords (b : UpdateMulti) (recs : List ArgumentAssembler) : UpdateMulti :=
  { b with Records := b.Records ++ recs }

/-- The method `UpdateMulti.Transaction`. -/
def UpdateMulti.Transaction (b : UpdateMulti) (level : List Nat) : UpdateMulti :=
  match level with
  | [l] => { b with IsTransaction := true, IsolationLevel := l }
  | _ => { b with IsTransaction := true }

/-- The method `UpdateMulti.validate`. -/
def UpdateMulti.validate (b : UpdateMulti) : Option Error :=
  if b.Update.SetClauses.Columns.length = 0 then
    some (Error.empty "[dbr] UpdateMulti: Columns are empty")
  else if b.Alias.length > 0 ∧ b.Alias.length ≠ b.Update.SetClauses.Columns.length then
    some (Error.mismatch
      "[dbr] UpdateMulti: Alias slice and Columns slice must have the same length")
  else if b.Records.length = 0 ∧ b.RecordChan = false then
    some (Error.empty "[dbr] UpdateMulti: Records empty or RecordChan is nil")
  else none

/-- The call `errors.Wrapf(err, msg, ...)` on what a function returned: nil for
a nil error, the error under the message otherwise. -/
def Error.Wrapf (err : Option Error) (msg : String) : Option Error :=
  match err with
  | none => none
  | some e => some (Error.wrap msg e)

/-- Modelled from the spec: the text that the verb `%s` of a format writes for
an error operand (`fmt` is not under src/): its message, and the marker of the
nil operand. -/
def errorText : Option Error → String
  | none => "%!s(<nil>)"
  | some e => e.message

/-- The function `txUpdateMultiRollback`; `msg` is the message with its
arguments filled in. -/
def txUpdateMultiRollback (tx : Txer) (previousErr : Option Error) (msg : String) :
    Option (List SqlResult) × Option Error :=
  match tx.rollback with
  | some err =>
    (none, Error.Wrapf (some err) ("[dbr] UpdateMulti.Tx.Rollback. Previous Error: "
      ++ errorText previousErr ++ ". " ++ msg))
  | none => (none, Error.Wrapf previousErr msg)

/-- What a run of `UpdateMulti.Exec` leaves behind: the results (`none` is the
nil slice) and the error it returns, the calls that reached the database, and
the template statement as it is after the run. -/
structure ExecOutcome where
  results : Option (List SqlResult)
  err : Option Error
  events : List Event
  update : Update

/-- The statement `return txUpdateMultiRollback(tx, err, msg, ...)` of
`UpdateMulti.Exec`; the rollback reaches the database inside a transaction. -/
def execFails (tx : Txer) (isTransaction : Bool) (previousErr : Error) (msg : String)
    (events : List Event) (u : Update) : ExecOutcome :=
  ⟨(txUpdateMultiRollback tx (some previousErr) msg).1,
    (txUpdateMultiRollback tx (some previousErr) msg).2,
    events ++ (if isTransaction then [Event.rollback] else []), u⟩

/-- The message of a failure at the record with index `i`: the index formatted
with `%d` and the text of the statement with `%q`. -/
def indexMsg (step : String) (i : Nat) (sql : String) : String :=
  "[dbr] UpdateMulti.Exec." ++ step ++ ". Index " ++ writeUint64 i ++ " with Query: "
    ++ quoted sql

/-- The loop `for i, rec := range b.Records` of `UpdateMulti.Exec` from the
record with index `i` on, followed by `tx.Commit()`. A panic of the argument
pass ends the run at once. -/
def execRecords (d : Driver) (tx : Txer) (isTransaction isInterpolate : Bool) (sql : String) :
    Nat → List ArgumentAssembler → Update → List SqlResult → List Event → ExecOutcome
  | _, [], u, results, events =>
    match tx.commit with
    | some e =>
      ⟨none, some (Error.Wrap ("[dbr] UpdateMulti.Tx.Commit. Query: " ++ quoted sql) e),
        events ++ (if isTransaction then [Event.commit] else []), u⟩
    | none => ⟨some results, none, events ++ (if isTransaction then [Event.commit] else []), u⟩
  | i, record :: records, u, results, events =>
    let u1 : Update := { u with SetClauses := { u.SetClauses with Record := some record } }
    match u1.appendArgs [] with
    | .error e =>
      if e.isPanic then ⟨none, some e, events, u1⟩
      else execFails tx isTransaction e (indexMsg "Interpolate" i sql) events u1
    | .ok args =>
      if isInterpolate then
        match d.interpolate sql args with
        | .error e => execFails tx isTransaction e (indexMsg "Interpolate" i sql) events u1
        | .ok fullSQL =>
          match d.execSQL i fullSQL with
          | .error e =>
            execFails tx isTransaction e (indexMsg "Exec" i sql)
              (events ++ [Event.execSQL fullSQL]) u1
          | .ok r =>
            execRecords d tx isTransaction isInterpolate sql (i + 1) records u1 (results ++ [r])
              (events ++ [Event.execSQL fullSQL])
      else
        match d.execStmt i args with
        | .error e =>
          execFails tx isTransaction e (indexMsg "Stmt.Exec" i sql)
            (events ++ [Event.execStmt args]) u1
        | .ok r =>
          execRecords d tx isTransaction isInterpolate sql (i + 1) records u1 (results ++ [r])
            (events ++ [Event.execStmt args])

/-- The method `UpdateMulti.Exec`. The operand `b.Update` of `%q` in the messages
for `BeginTx` and `Prepare` is taken to be the text of the statement; its
`String` method is not under src/. -/
def UpdateMulti.Exec (b : UpdateMulti) (d : Driver) : ExecOutcome :=
  match b.validate with
  | some e => ⟨none, some (Error.Wrap "[dbr] UpdateMulti.Exec" e), [], b.Update⟩
  | none =>
    let isInterpolate := b.Update.IsInterpolate
    let sqlPass := ({ b.Update with IsInterpolate := false } : Dbr.Update).toSQL
    match sqlPass.err with
    | some e =>
      ⟨none, some (Error.Wrap "[dbr] UpdateMulti.Exec.Update.toSQL" e), [], sqlPass.state⟩
    | none =>
      match (if b.IsTransaction then d.beginTx else .ok txMock) with
      | .error e =>
        ⟨none, some (Error.Wrap ("[dbr] UpdateMulti.Exec.Tx.BeginTx. with Query: "
          ++ quoted sqlPass.text) e),
          [Event.beginTx], sqlPass.state⟩
      | .ok tx =>
        let begun : List Event := if b.IsTransaction then [Event.beginTx] else []
        if isInterpolate then
          execRecords d tx b.IsTransaction true sqlPass.text 0 b.Records sqlPass.state [] begun
        else
          match d.prepare sqlPass.text with
          | some e =>
            execFails tx b.IsTransaction e
              ("[dbr] UpdateMulti.Exec.Prepare. with Query: " ++ quoted sqlPass.text)
              (begun ++ [Event.prepare sqlPass.text]) sqlPass.state
          | none =>
            execRecords d tx b.IsTransaction false sqlPass.text 0 b.Records sqlPass.state []
              (begun ++ [Event.prepare sqlPass.text])

/-! ## One record of a bulk update -/

/-- The statement `b.Update.SetClauses.Record = rec` of the loop of
`UpdateMulti.Exec`. -/
def Update.withRecord (u : Update) (record : ArgumentAssembler) : Update :=
  { u with SetClauses := { u.SetClauses with Record := some record } }

/-- The body of the loop of `UpdateMulti.Exec` for the record at index `i`,
taken on its own: the argument pass with the record, then the execution
through the prepared statement or, interpolating, as literal SQL. It yields the
result of the record, or the error that ends the loop. -/
def execRecord (d : Driver) (isInterpolate : Bool) (sql : String) (u : Update) (i : Nat)
    (record : ArgumentAssembler) : Except Error SqlResult :=
  match (u.withRecord record).appendArgs [] with
  | .error e => .error e
  | .ok args =>
    if isInterpolate then
      match d.interpolate sql args with
      | .error e => .error e
      | .ok fullSQL => d.execSQL i fullSQL
    else d.execStmt i args

/-- The call by which the loop of `UpdateMulti.Exec` hands a record to the
database, when its argument pass and its interpolation succeed. -/
def recordCall (d : Driver) (isInterpolate : Bool) (sql : String) (u : Update)
    (record : ArgumentAssembler) : Option Event :=
  match (u.withRecord record).appendArgs [] with
  | .error _ => none
  | .ok args =>
    if isInterpolate then
      match d.interpolate sql args with
      | .error _ => none
      | .ok fullSQL => some (Event.execSQL fullSQL)
    else some (Event.execStmt args)

/-- Whether a call is an execution of the statement. -/
def Event.isExecution : Event → Bool
  | .execStmt _ => true
  | .execSQL _ => true
  | _ => false

/-- The errors below an error: what it wraps, outermost first. -/
def Error.causes : Error → List Error
  | .wrap _ c => c :: c.causes
  | .panic c => c.causes
  | _ => []

/-- The text pass of `UpdateMulti.Exec`: `b.Update.toSQL(sqlBuf)` after
`b.Update.IsInterpolate = false`. -/
def UpdateMulti.templatePass (b : UpdateMulti) : Written Dbr.Update :=
  ({ b.Update with IsInterpolate := false } : Dbr.Update).toSQL

/-! ## ON DUPLICATE KEY UPDATE -/

/-- The body of the loop of `UpdatedColumns.writeOnDuplicateKey` for the column
`c` at index `i`, after the separator: the quoted column, `=`, and with one
argument per column (`useArgs`, the index is then in range) the text of an
expression argument, `VALUES(c)` for the nil argument and `?` for every other
one; without, `VALUES(c)`. -/
def writeOnDuplicateKeyColumn (useArgs : Bool) (arguments : Arguments) (i : Nat) (c : String) :
    String :=
  Quoter.quote c ++ "="
    ++ (if useArgs then
          match arguments[i]? with
          | some (Argument.expr sql _) => sql
          | some Argument.nil => "VALUES(" ++ Quoter.quote c ++ ")"
          | _ => "?"
        else "VALUES(" ++ Quoter.quote c ++ ")")

/-- The loop of `UpdatedColumns.writeOnDuplicateKey`, started at column index
`i`. -/
def writeOnDuplicateKeyLoop (useArgs : Bool) (arguments : Arguments) : Nat → List String → String
  | _, [] => ""
  | i, c :: cs =>
    (if i > 0 then ", " else "") ++ writeOnDuplicateKeyColumn useArgs arguments i c
      ++ writeOnDuplicateKeyLoop useArgs arguments (i + 1) cs

/-- The method `UpdatedColumns.writeOnDuplicateKey`: the text it writes and the
error it returns. -/
def UpdatedColumns.writeOnDuplicateKey (uc : UpdatedColumns) : String × Option Error :=
  if uc.Columns.length = 0 then ("", none)
  else
    (" ON DUPLICATE KEY UPDATE "
      ++ writeOnDuplicateKeyLoop (decide (uc.Arguments.length = uc.Columns.length)) uc.Arguments 0
          uc.Columns, none)

/-- Texts joined by a separator, after a first text. -/
def joinTail (sep : String) : List String → String
  | [] => ""
  | s :: rest => sep ++ s ++ joinTail sep rest

/-- Texts joined by a separator. -/
def joinWith (sep : String) : List String → String
  | [] => ""
  | s :: rest => s ++ joinTail sep rest

/-- The assignments that the loop of `UpdatedColumns.writeOnDuplicateKey`
writes between the separators, from column index `i` on. -/
def onDuplicateKeyAssignments (useArgs : Bool) (arguments : Arguments) :
    Nat → List String → List String
  | _, [] => []
  | i, c :: cs =>
    writeOnDuplicateKeyColumn useArgs arguments i c
      :: onDuplicateKeyAssignments useArgs arguments (i + 1) cs

/-! ## Interpolation and Repeat -/

/-- The decimal form of a signed integer. -/
def intLiteral (v : Int) : String :=
  if v < 0 then "-" ++ writeUint64 v.natAbs else writeUint64 v.natAbs

/-- The apostrophe. -/
def apostrophe : Char := Char.ofNat 39

/-- The backslash. -/
def backslash : Char := Char.ofNat 92

/-- Modelled from the spec: the escaping of a string literal, which is not under
src/: "the embedded quote is escaped, not left raw" (§8), by a backslash, and
so is the backslash itself, so that the text can be recovered. -/
def escapeChars : List Char → List Char
  | [] => []
  | c :: cs =>
    if c = apostrophe ∨ c = backslash then backslash :: c :: escapeChars cs
    else c :: escapeChars cs

/-- Modelled from the spec: the literal of a string, which is not under src/:
"escaped and quoted" (§4.6). -/
def strLiteral (s : String) : String := ⟨apostrophe :: escapeChars s.data ++ [apostrophe]⟩

/-- Modelled from the spec: the literal that interpolation writes for an
argument, which is not under src/ (§4.6): `NULL` for null, the decimal form of
an integer, the quoted form of a string, and for a sequence the literals of its
elements joined by commas, as in `ExampleInterpolate`, where `IN (?)` with
`Ints(1, 2, 3)` becomes `IN (1,2,3)`. The nil interface, an unbound placeholder
and an expression have no literal. -/
def Argument.literal : Argument → Option String
  | .null => some "NULL"
  | .int v => some (intLiteral v)
  | .ints vs => some (joinWith "," (vs.map intLiteral))
  | .str s => some (strLiteral s)
  | .strs ss => some (joinWith "," (ss.map strLiteral))
  | .nil => none
  | .placeHolder _ => none
  | .expr _ _ => none

/-- Modelled from the spec: the scan of `interpolate`, which is not under src/:
every `?` takes the next argument and is replaced by its literal, every other
character is kept; a `?` without an argument and an argument without a `?` are
a mismatch (§7). -/
def interpolateChars : List Char → Arguments → Except Error (List Char)
  | [], args =>
    match args with
    | [] => .ok []
    | _ :: _ =>
      .error (Error.mismatch "[dbr] Number of place holders vs number of arguments do not match")
  | c :: cs, args =>
    if c = '?' then
      match args with
      | [] =>
        .error (Error.mismatch "[dbr] Number of place holders vs number of arguments do not match")
      | a :: rest =>
        match a.literal with
        | none => .error (Error.notSupported "[dbr] Argument without a literal")
        | some l =>
          match interpolateChars cs rest with
          | .error e => .error e
          | .ok out => .ok (l.data ++ out)
    else
      match interpolateChars cs args with
      | .error e => .error e
      | .ok out => .ok (c :: out)

/-- Modelled from the spec: the function `interpolate(sql, args...)` that
`UpdateMulti.Exec` calls and `ExampleInterpolate` shows, which is not under
src/. -/
def interpolate (sql : String) (args : Arguments) : Except Error String :=
  match interpolateChars sql.data args with
  | .error e => .error e
  | .ok out => .ok ⟨out⟩

/-- Modelled from the spec: the scan of `Repeat`, which is not under src/: every
`?` takes the next argument and is replaced by as many `?`, joined by commas,
as the argument has elements, every other character is kept; a `?` without an
argument and an argument without a `?` are a mismatch. -/
def repeatChars : List Char → Arguments → Except Error (List Char)
  | [], args =>
    match args with
    | [] => .ok []
    | _ :: _ =>
      .error (Error.mismatch "[dbr] Repeat: Number of place holders vs number of arguments")
  | c :: cs, args =>
    if c = '?' then
      match args with
      | [] =>
        .error (Error.mismatch "[dbr] Repeat: Number of place holders vs number of arguments")
      | a :: rest =>
        match repeatChars cs rest with
        | .error e => .error e
        | .ok out => .ok ((placeHolders a.len).data ++ out)
    else
      match repeatChars cs args with
      | .error e => .error e
      | .ok out => .ok (c :: out)

/-- Modelled from the spec: the function `Repeat(sql, args)` of `ExampleRepeat`,
which is not under src/ (§4.6): it "expands a placeholder template into the
exact number of placeholders a given argument set requires". -/
def Repeat (sql : String) (args : Arguments) : Except Error String :=
  match repeatChars sql.data args with
  | .error e => .error e
  | .ok out => .ok ⟨out⟩

/-- A text given by its pieces, with a filler after every piece but the last:
the pieces are what stands between the placeholders of a template. -/
def weave : List String → List String → String
  | [], _ => ""
  | s :: _, [] => s
  | s :: rest, l :: ls => s ++ l ++ weave rest ls

/-! ## The argument pass, fragment by fragment -/

/-- A parenthesis marker: a fragment whose condition is `(` or `)`. -/
def WhereFragment.isMarker (f : WhereFragment) : Bool :=
  f.Condition == ")" || f.Condition == "("

/-- A fragment at which `WhereFragments.appendArgs` records a position: the
`case f.IsPlaceHolder` of its `switch`, which comes after `case f.IsExpression`. -/
def WhereFragment.isPending (f : WhereFragment) : Bool :=
  !f.IsExpression && f.IsPlaceHolder

/-- The failure with which the `switch` of `WhereFragments.appendArgs` ends at a
fragment that is no marker: a counting call of `writeOperator` that panics, or
the error of a sub-select. -/
def WhereFragment.argumentError (f : WhereFragment) : Option Error :=
  if f.IsExpression then none
  else if f.IsPlaceHolder then
    match writeOperator 1 f.Operator with
    | .ok _ => none
    | .error e => some e
  else if f.Argument.isSet then
    match writeOperator f.Argument.len f.Operator with
    | .ok _ => none
    | .error e => some e
  else
    match f.SubSelect with
    | some s =>
      match s.err with
      | some e => some (Error.Wrap (subSelectMsg s) e)
      | none => none
    | none => none

/-- Whether the loops of `WhereFragments.write` and `WhereFragments.appendArgs`
end at a fragment: in join mode, at a fragment with a USING list. -/
def endsAtUsing (conditionType : Char) (f : WhereFragment) : Bool :=
  conditionType == 'j' && decide (f.Using.length > 0)

/-- The fragments that the loops walk: in join mode those before the first
fragment with a USING list, otherwise all. -/
def walked (conditionType : Char) : WhereFragments → WhereFragments
  | [] => []
  | f :: rest => if endsAtUsing conditionType f then [] else f :: walked conditionType rest

/-- Number of fragments of a list that are no parenthesis markers. -/
def countNonMarkers (wfs : WhereFragments) : Nat := wfs.countP (fun f => !f.isMarker)

/-- The positions of the placeholder fragments of a list as the counter of the
argument pass numbers them: the counter starts at `cnt` and goes up by one at
every fragment that is no parenthesis marker. -/
def pendingPositions (cnt : Nat) : WhereFragments → List Nat
  | [] => []
  | f :: rest =>
    if f.isMarker then pendingPositions cnt rest
    else (if f.isPending then [cnt] else []) ++ pendingPositions (cnt + 1) rest

/-- The entries that the claim about assembled arguments names, for a list
and the values of an assembler: nothing for a parenthesis marker, the next
assembled value for a placeholder fragment, and for every other fragment the
arguments it binds itself. -/
def boundEntries : WhereFragments → Arguments → Arguments
  | [], _ => []
  | f :: rest, values =>
    if f.isMarker then boundEntries rest values
    else if f.isPending then
      match values with
      | v :: vs => v :: boundEntries rest vs
      | [] => fragmentArguments f ++ boundEntries rest []
    else fragmentArguments f ++ boundEntries rest values

/-! ## The arguments of ON DUPLICATE KEY UPDATE -/

/-- The loop `for i := range uc.Columns` of `UpdatedColumns.appendArgs`, started
at column index `i`: every argument that is not the nil interface is
appended. The loop only runs with one argument per column, so the index is in
range. -/
def appendNonNilArgs (arguments : Arguments) : Nat → List String → Arguments → Arguments
  | _, [], args => args
  | i, _ :: cs, args =>
    match arguments[i]? with
    | some a =>
      if a.isSet then appendNonNilArgs arguments (i + 1) cs (args ++ [a])
      else appendNonNilArgs arguments (i + 1) cs args
    | none => appendNonNilArgs arguments (i + 1) cs args

/-- The method `UpdatedColumns.appendArgs`. -/
def UpdatedColumns.appendArgs (uc : UpdatedColumns) (args : Dbr.Arguments) :
    Except Error Dbr.Arguments :=
  if uc.Columns.length = 0 then .ok args
  else if uc.Arguments.length = uc.Columns.length then
    .ok (appendNonNilArgs uc.Arguments 0 uc.Columns args)
  else .ok args

/-- An argument that is the nil interface or a value of length one that is no
expression. -/
def Argument.isNilOrSingleValue : Argument → Bool
  | .nil => true
  | .expr _ _ => false
  | a => a.len == 1

end Dbr

/-!
The Content-Signature header of `net/signed`.

A shallow embedding of `src/net/signed/signature.go`. The request is given by
the two values that `Parse` reads from it; the lines that `Parse` prints are
part of its outcome; a runtime panic is reported through the error of the
outcome.
-/

namespace Signed

/-- The ways in which `Signature.Parse` and `Signature.IsValid` can end
without success: the behaviours not-found and not-valid of the errors
package, and the runtime panic of an index out of range. -/
inductive Error where
  | notFound (msg : String) : Error
  | notValid (msg : String) : Error
  | panicIndexOutOfRange : Error
  deriving DecidableEq, Repr

/-- The constant `signatureDefaultSeparator`. -/
def signatureDefaultSeparator : Char := ','

/-- The struct `Signature`; the signature is a sequence of bytes, and the zero
rune stands for a separator that is not set. -/
structure Signature where
  KeyID : String := ""
  Algorithm : String := ""
  Signature : List Nat := []
  Separator : Char := Char.ofNat 0
  deriving DecidableEq, Repr

/-- The method `Signature.IsValid`. -/
def Signature.IsValid (s : Signed.Signature) : Option Error :=
  if s.KeyID = "" then some (Error.notValid "[signed] Empty KeyID")
  else if s.Algorithm = "" then some (Error.notValid "[signed] Empty Algorithm")
  else if s.Signature.length = 0 then some (Error.notValid "[signed] Empty Signature")
  else none

/-- The double quote. -/
def quoteMark : String := String.singleton (Char.ofNat 34)

/-- The method `Signature.Write`: the value it sets for the Content-Signature
header and the error it returns. The receiver is a copy, so the default
separator stays local. -/
def Signature.Write (s : Signed.Signature) (encoder : List Nat → String) : String × Option Error :=
  let separator := if s.Separator = Char.ofNat 0 then signatureDefaultSeparator else s.Separator
  ("keyId=" ++ quoteMark ++ s.KeyID ++ quoteMark ++ String.singleton separator
    ++ "algorithm=" ++ quoteMark ++ s.Algorithm ++ quoteMark ++ String.singleton separator
    ++ "signature=" ++ quoteMark ++ encoder s.Signature ++ quoteMark, none)

/-- A request as far as `Signature.Parse` reads it: the values of
Content-Signature in the header and in the trailer, empty when absent. -/
structure Request where
  header : String := ""
  trailer : String := ""

/-- The array `fields` of `Signature.Parse`, three buffers. -/
structure Fields where
  first : String := ""
  second : String := ""
  third : String := ""
  deriving DecidableEq, Repr

/-- The statement `fields[idx].WriteRune(r)`: an index past the three buffers
is a runtime panic. -/
def Fields.writeRune (fields : Fields) (idx : Nat) (r : Char) : Except Error Fields :=
  match idx with
  | 0 => .ok { fields with first := fields.first.push r }
  | 1 => .ok { fields with second := fields.second.push r }
  | 2 => .ok { fields with third := fields.third.push r }
  | _ => .error Error.panicIndexOutOfRange

/-- The loop `for _, r := range raw` of `Signature.Parse`. -/
def parseLoop (separator : Char) : List Char → Nat → Fields → Except Error Fields
  | [], _, fields => .ok fields
  | r :: rest, idx, fields =>
    if r = separator then parseLoop separator rest (idx + 1) fields
    else
      match fields.writeRune idx r with
      | .error e => .error e
      | .ok fields1 => parseLoop separator rest idx fields1

/-- What a call of `Signature.Parse` leaves behind: the receiver after the
call, the lines it printed, and the error it returns or the panic it ends
in. -/
structure Parsed where
  signature : Signature
  printed : List String
  err : Option Error
  deriving DecidableEq, Repr

/-- The method `Signature.Parse`. The decoder is not called. -/
def Signature.Parse (s : Signed.Signature) (r : Request) (_decoder : String → Except Error (List Nat)) :
    Parsed :=
  let s1 : Signed.Signature :=
    if s.Separator = Char.ofNat 0 then { s with Separator := signatureDefaultSeparator } else s
  let raw := if r.header = "" then r.trailer else r.header
  if raw = "" then ⟨s1, [], some (Error.notFound "[signed]")⟩
  else
    match parseLoop s1.Separator raw.data 0 {} with
    | .error e => ⟨s1, [], some e⟩
    | .ok fields => ⟨s1, [fields.first, fields.second, fields.third], none⟩

/-! ### Concrete inputs -/

/-- A request whose Content-Signature header has four fields. -/
def requestFourFields : Request := { header := "a,b,c,d" }

/-- A valid signature: key `k1`, algorithm `hmac-sha1`, two bytes. -/
def signatureK1 : Signature := { KeyID := "k1", Algorithm := "hmac-sha1", Signature := [171, 205] }

/-- The hexadecimal digit of a number below 16. -/
def hexDigit (n : Nat) : Char := if n < 10 then Char.ofNat (48 + n) else Char.ofNat (87 + n)

/-- The number that a hexadecimal digit stands for. -/
def hexValue (c : Char) : Nat := if c.toNat < 58 then c.toNat - 48 else c.toNat - 87

/-- Two hexadecimal digits for each byte. -/
def hexEncodeChars : List Nat → List Char
  | [] => []
  | b :: rest => hexDigit (b / 16) :: hexDigit (b % 16) :: hexEncodeChars rest

/-- One byte for each two hexadecimal digits. -/
def hexDecodeChars : List Char → List Nat
  | hi :: lo :: rest => (hexValue hi * 16 + hexValue lo) :: hexDecodeChars rest
  | _ => []

/-- An encoder as `Signature.Write` takes it: the bytes in hexadecimal. -/
def hexEncoder (src : List Nat) : String := ⟨hexEncodeChars src⟩

/-- A decoder as `Signature.Parse` takes it, the inverse of `hexEncoder`. -/
def hexDecoder (s : String) : Except Error (List Nat) := .ok (hexDecodeChars s.data)

end Signed

namespace Dbr

/-! ## Statements and collaborators used as concrete inputs -/

/-- The assembler of the C3 witness: it appends the value `v`. -/
def assemblerV : ArgumentAssembler := fun _ args _ => .ok (args ++ [Argument.str "v"])

/-- A sub-select with two bound arguments, as `Select.toSQL` and
`Select.appendArgs` present it. -/
def selectTwoArgs : Select :=
  { text := "SELECT `entity_id` FROM `catalog_category_product` WHERE (`category_id` = ?) AND (`position` = ?)",
    args := [Argument.int 234, Argument.int 5],
    table := "catalog_category_product" }

/-- The list `SubSelect("entity_id", In, sel)`, `Column("store_id").PlaceHolder()`. -/
def whereSubThenPlaceHolder : WhereFragments :=
  [SubSelect "entity_id" Op.In selectTwoArgs, (Column "store_id").PlaceHolder]

/-- The fragment `SubSelect("entity_id", In, sel).Int(3)`: a sub-select and a
direct argument on one column. -/
def fragmentSubAndArgument : WhereFragment :=
  (SubSelect "entity_id" Op.In selectTwoArgs).arg (Argument.int 3)

/-- The fragment `Column("d").Between().Ints(13, 14, 15)`. -/
def fragmentBetweenThree : WhereFragment :=
  ((Column "d").op Op.Between).arg (Argument.ints [13, 14, 15])

/-- The WHERE list of `ExampleParenthesisOpen`. -/
def whereParenthesisOpen : WhereFragments :=
  [ParenthesisOpen, (Column "d").arg (Argument.int 1), ((Column "e").arg (Argument.str "wat")).Or,
    ParenthesisClose, (Column "f").arg (Argument.int 2)]

/-- The statement of `ExampleSQLCase_update`. -/
def updateSQLCase : Update :=
  ((NewUpdate ["cataloginventory_stock_item"]).Set "qty"
    (Argument.expr
      "CASE `product_id` WHEN 3456 THEN qty+? WHEN 3457 THEN qty+? WHEN 3458 THEN qty+? ELSE qty END"
      [Argument.ints [3, 4, 5]])).Where
    [((Column "product_id").op Op.In).arg (Argument.ints [345, 567, 897]),
      (Column "website_id").arg (Argument.int 6)]

/-- The statement `NewUpdate("t").Set("x", ArgInt(1)).Where(Column("a").Ints(1, 2, 3))`:
a multi-value condition without an operator. -/
def updateMultiValue : Update :=
  ((NewUpdate ["t"]).Set "x" (Argument.int 1)).Where [(Column "a").arg (Argument.ints [1, 2, 3])]

/-- The assembler of a record that supplies the value `va` for its column `a`
in the SET part and nothing in the WHERE part. -/
def assemblerA : ArgumentAssembler := fun stmtType args _ =>
  match stmtType with
  | StmtType.updateSet => .ok (args ++ [Argument.str "va"])
  | StmtType.updateWhere => .ok args

/-- The statement `NewUpdate("t").Set("b", ArgInt(1)).SetRecord([]string{"a"}, rec)`. -/
def updateSetThenRecord : Update :=
  ((NewUpdate ["t"]).Set "b" (Argument.int 1)).SetRecord ["a"] assemblerA

/-- The statement `NewUpdate("t").AddColumns("a")`, a template without record. -/
def updateTemplate : Update := (NewUpdate ["t"]).AddColumns ["a"]

/-- The fragment `Column("d").Int(3).Null()` of `ExampleArguments`. -/
def fragmentIntNull : WhereFragment := ((Column "d").arg (Argument.int 3)).op Op.Null

/-- The fragment `Expression("d", ArgInt(3)).Null()`: an expression with one
argument and the operator IS NULL. -/
def fragmentExpressionNull : WhereFragment := (Expression "d" [Argument.int 3]).op Op.Null

/-- The fragment `SubSelect("entity_id", Null, sel).Null()`: a sub-select whose
fragment carries the operator IS NULL in both operator fields. -/
def fragmentSubNull : WhereFragment := (SubSelect "entity_id" Op.Null selectTwoArgs).op Op.Null

/-- The sub-select of `ExampleCondition_Sub`. -/
def selectCategory : Select :=
  { text := "SELECT `entity_id` FROM `catalog_category_product` WHERE (`category_id` = ?)",
    args := [Argument.int 234],
    table := "catalog_category_product" }

/-- The WHERE fragment of `ExampleCondition_Sub`. -/
def fragmentSubCategory : WhereFragment := SubSelect "entity_id" Op.In selectCategory

/-- The fragment `Column("a").Ints(1, 2, 3)`: three values and no operator. -/
def fragmentThreeValues : WhereFragment := (Column "a").arg (Argument.ints [1, 2, 3])

/-- The fragment `Column("b").PlaceHolder()`. -/
def fragmentPlaceHolder : WhereFragment := (Column "b").PlaceHolder

/-- The join condition list `Column("a").Int(1)`, `Using("b", "c")`,
`Column("d").Int(2)`. -/
def joinOnThenUsing : WhereFragments :=
  [(Column "a").arg (Argument.int 1), Using ["b", "c"], (Column "d").arg (Argument.int 2)]

/-- The join condition list `Using("b", "c")`, `Column("d").Int(2)`. -/
def joinUsingFirst : WhereFragments := [Using ["b", "c"], (Column "d").arg (Argument.int 2)]

/-- A statement on which an error has been recorded. -/
def updateWithError : Update :=
  { NewUpdate ["t"] with previousError := some (Error.other "[dbr] previous") }

/-- The statement `NewUpdate("t").Set("a", ArgInt(1))` after its build has been
stored with `writeBuildCache`. -/
def updateCached : Update :=
  ((NewUpdate ["t"]).Set "a" (Argument.int 1)).writeBuildCache "UPDATE `t` SET `a`=?"
    [Argument.int 1]

/-- The statement `UpdateBySQL("UPDATE `x` SET `y`=? WHERE 1", ArgInt(7))` with a
table, a SET column, a condition, an order and a limit added to it. -/
def updateRaw : Update :=
  (((({ UpdateBySQL "UPDATE `x` SET `y`=? WHERE 1" [Argument.int 7] with
        Table := MakeAlias ["t"] }).Set "a" (Argument.int 1)).Where
      [(Column "b").arg (Argument.int 2)]).OrderBy ["c"]).Limit 3

/-- A driver whose prepared statement executes once and then fails. -/
def driverFailsSecond : Driver :=
  { beginTx := .ok ⟨none, none⟩,
    prepare := fun _ => none,
    execStmt := fun n _ =>
      if n = 0 then .ok ⟨0, 1⟩ else .error (Error.other "driver: bad connection"),
    execSQL := fun _ _ => .ok ⟨0, 1⟩,
    interpolate := fun sql _ => .ok sql }

/-- The bulk update of the template `NewUpdate("t").AddColumns("a")` over two
records, without a transaction. -/
def multiTwoRecords : UpdateMulti :=
  (NewUpdateMulti ((NewUpdate ["t"]).AddColumns ["a"])).AddRecords [assemblerA, assemblerA]

/-- The bulk update of two records inside a transaction. -/
def multiTwoRecordsTx : UpdateMulti := multiTwoRecords.Transaction []

/-- A driver whose prepared statement executes once and then fails, and whose
transaction fails to roll back. -/
def driverRollbackFails : Driver :=
  { driverFailsSecond with beginTx := .ok ⟨none, some (Error.other "driver: rollback failed")⟩ }

/-- A driver on which every call succeeds; the result of an execution records
how many executions came before it. -/
def driverSucceeds : Driver :=
  { beginTx := .ok ⟨none, none⟩,
    prepare := fun _ => none,
    execStmt := fun n _ => .ok ⟨n, 1⟩,
    execSQL := fun n _ => .ok ⟨n, 1⟩,
    interpolate := fun sql _ => .ok sql }

/-- The ON DUPLICATE KEY part of `ExampleInsert_AddOnDuplicateKey`: the column
`name` with a value and the column `email` with the nil argument. -/
def onDuplicateKeyNameEmail : UpdatedColumns :=
  { Columns := ["name", "email"], Arguments := [Argument.str "Pik3", Argument.nil] }

/-- The statement `NewUpdate("t").AddColumns("a").Set("b", ArgExpr("`b`+?", ArgInt(1)))`:
a column for a record first, then a column with an expression. -/
def updateAddColumnsThenSet : Update :=
  ((NewUpdate ["t"]).AddColumns ["a"]).Set "b" (Argument.expr "`b`+?" [Argument.int 1])

/-- The pieces of the template of `ExampleInterpolate` between its
placeholders. -/
def interpolateExamplePieces : List String :=
  ["SELECT * FROM x WHERE a IN (", ") AND b IN (", ") AND c NOT IN (", ") AND d BETWEEN ",
    " AND ", ""]

/-- The arguments of `ExampleInterpolate`. -/
def interpolateExampleArgs : Arguments :=
  [Argument.ints [1], Argument.ints [1, 2, 3], Argument.ints [5, 6, 7], Argument.str "wat",
    Argument.str "ok"]

/-- The pieces of the template of `ExampleRepeat` between its placeholders. -/
def repeatExamplePieces : List String :=
  ["SELECT * FROM `table` WHERE id IN (", ") AND name IN (", ")"]

/-- The arguments of `ExampleRepeat`. -/
def repeatExampleArgs : Arguments :=
  [Argument.ints [5, 7, 9], Argument.strs ["a", "b", "c", "d", "e"]]

/-- A WHERE list whose opening parenthesis marker carries the argument 9:
`ParenthesisOpen().Int(9)`, `Column("a").Int(1)`, `ParenthesisClose()`. -/
def whereMarkerWithArgument : WhereFragments :=
  [ParenthesisOpen.arg (Argument.int 9), (Column "a").arg (Argument.int 1), ParenthesisClose]

/-- The WHERE list `Column("a").Int(1)`, `ParenthesisOpen()`,
`Column("b").PlaceHolder()`, `Column("c").PlaceHolder()`, `ParenthesisClose()`. -/
def whereTwoPlaceHolders : WhereFragments :=
  [(Column "a").arg (Argument.int 1), ParenthesisOpen, (Column "b").PlaceHolder,
    (Column "c").PlaceHolder, ParenthesisClose]

/-- An assembler that appends the values `vb` and `vc` in the WHERE part and
nothing in the SET part. -/
def assemblerBC : ArgumentAssembler := fun stmtType args _ =>
  match stmtType with
  | StmtType.updateSet => .ok args
  | StmtType.updateWhere => .ok (args ++ [Argument.str "vb", Argument.str "vc"])

/-- An assembler that appends the value `vc` in the WHERE part and nothing in
the SET part. -/
def assemblerC : ArgumentAssembler := fun stmtType args _ =>
  match stmtType with
  | StmtType.updateSet => .ok args
  | StmtType.updateWhere => .ok (args ++ [Argument.str "vc"])

/-- The WHERE list `Column("a").Null()`, `Column("b").Null()`,
`Column("c").PlaceHolder()`: two conditions that bind nothing before a
placeholder. -/
def whereNullNullPlaceHolder : WhereFragments :=
  [(Column "a").op Op.Null, (Column "b").op Op.Null, (Column "c").PlaceHolder]

/-- The statement `NewUpdate("t").Set("x", ArgInt(1)).Where(...)` with the list
above and a record for the placeholder. -/
def updateNullNullPlaceHolder : Update :=
  (((NewUpdate ["t"]).Set "x" (Argument.int 1)).Where whereNullNullPlaceHolder).withRecord
    assemblerC

/-- Two columns with three arguments: the number of arguments differs from the
number of columns. -/
def onDuplicateKeyMismatch : UpdatedColumns :=
  { Columns := ["name", "email"],
    Arguments := [Argument.str "a", Argument.str "b", Argument.str "c"] }

/-- The join conditions `Column("a").Int(1)`, `ParenthesisOpen()`,
`Column("b").Int(2)`, `Column("c").Int(3).Or()`, `ParenthesisClose()`, without a
USING fragment. -/
def joinWithParentheses : WhereFragments :=
  [(Column "a").arg (Argument.int 1), ParenthesisOpen, (Column "b").arg (Argument.int 2),
    ((Column "c").arg (Argument.int 3)).Or, ParenthesisClose]

/-- The WHERE list `Column("a").Ints(1, 2, 3)`, `Column("b").Int(4)`: a
multi-value condition without an operator and a single-value condition. -/
def whereMultiThenSingle : WhereFragments :=
  [(Column "a").arg (Argument.ints [1, 2, 3]), (Column "b").arg (Argument.int 4)]

/-- The bulk update of the template `NewUpdate("t").AddColumns("a").Interpolate()`
over one record. -/
def multiInterpolated : UpdateMulti :=
  (NewUpdateMulti (((NewUpdate ["t"]).AddColumns ["a"]).Interpolate)).AddRecords [assemblerA]

/-! ## Decidable equality of arguments -/

theorem Argument.eq_of_beq : ∀ (a b : Argument), Argument.beq a b = true → a = b
  | .nil, b => by cases b <;> simp [Argument.beq]
  | .null, b => by cases b <;> simp [Argument.beq]
  | .int _, b => by cases b <;> simp [Argument.beq]
  | .ints _, b => by cases b <;> simp [Argument.beq]
  | .str _, b => by cases b <;> simp [Argument.beq]
  | .strs _, b => by cases b <;> simp [Argument.beq]
  | .placeHolder _, b => by cases b <;> simp [Argument.beq]
  | .expr s as, b => by
      cases b <;> simp [Argument.beq]
      intro h1 h2
      exact ⟨h1, eq_of_beqList _ _ h2⟩
where
  eq_of_beqList : ∀ (as bs : List Argument), Argument.beq.beqList as bs = true → as = bs
    | [], bs => by cases bs <;> simp [Argument.beq.beqList]
    | a :: as, bs => by
        cases bs <;> simp [Argument.beq.beqList]
        intro h1 h2
        exact ⟨Argument.eq_of_beq _ _ h1, eq_of_beqList _ _ h2⟩

theorem Argument.beq_self : ∀ (a : Argument), Argument.beq a a = true
  | .nil => by simp [Argument.beq]
  | .null => by simp [Argument.beq]
  | .int _ => by simp [Argument.beq]
  | .ints _ => by simp [Argument.beq]
  | .str _ => by simp [Argument.beq]
  | .strs _ => by simp [Argument.beq]
  | .placeHolder _ => by simp [Argument.beq]
  | .expr s as => by simp [Argument.beq, beqList_self as]
where
  beqList_self : ∀ (as : List Argument), Argument.beq.beqList as as = true
    | [] => by simp [Argument.beq.beqList]
    | a :: as => by simp [Argument.beq.beqList, Argument.beq_self a, beqList_self as]

instance : DecidableEq Argument := fun a b =>
  decidable_of_iff (Argument.beq a b = true)
    ⟨Argument.eq_of_beq a b, fun h => h ▸ Argument.beq_self a⟩


/-! ## Assembled values swapped into their recorded positions (C3) -/

theorem swapArgs_length (args : Arguments) (p i : Nat) : (swapArgs args p i).length = args.length := by
  unfold swapArgs
  split <;> simp

theorem swapArgs_getElem? (args : Arguments) (p i k : Nat) (hp : p < args.length)
    (hi : i < args.length) :
    (swapArgs args p i)[k]? = if k = i then args[p]? else if k = p then args[i]? else args[k]? := by
  unfold swapArgs
  rw [List.getElem?_eq_getElem hp, List.getElem?_eq_getElem hi]
  simp only [List.getElem?_set]
  by_cases h1 : k = i
  · subst h1; simp [hp, hi]
  · by_cases h2 : k = p
    · subst h2; simp [h1, Ne.symm h1, hi, hp]
    · simp [h1, h2, Ne.symm h1, Ne.symm h2]


theorem swapPending_spec (n : Nat) : ∀ (ps : List Nat) (i : Nat) (l : Arguments),
    ps.Nodup → (∀ p ∈ ps, p < n) → n ≤ i → i + ps.length ≤ l.length →
    ∃ r, swapPending ps (i : Int) l = .ok r ∧ r.length = l.length ∧
      (∀ j, j < ps.length → r[ps.getD j 0]? = l[i + j]?) ∧
      (∀ k, k < n → k ∉ ps → r[k]? = l[k]?)
  | [], i, l, _, _, _, _ => by
      refine ⟨l, by simp [swapPending], rfl, ?_, ?_⟩
      · intro j hj; simp at hj
      · intro k _ _; rfl
  | p :: ps, i, l, hnd, hlt, hni, hlen => by
      have hp : p < n := hlt p (by simp)
      have hpl : p < l.length := by simp at hlen; omega
      have hil : i < l.length := by simp at hlen; omega
      obtain ⟨hpn, hnd1⟩ := List.nodup_cons.mp hnd
      obtain ⟨r, hr, hrl, hr1, hr2⟩ := swapPending_spec n ps (i + 1) (swapArgs l p i) hnd1
        (fun q hq => hlt q (by simp [hq])) (by omega)
        (by rw [swapArgs_length]; simp at hlen; omega)
      refine ⟨r, ?_, ?_, ?_, ?_⟩
      · have : swapPending (p :: ps) (i : Int) l = swapPending ps ((i : Int) + 1) (swapArgs l p i) := by
          simp [swapPending, hpl, hil]
        rw [this]
        exact_mod_cast hr
      · rw [hrl, swapArgs_length]
      · intro j hj
        cases j with
        | zero =>
          simp only [List.getD_cons_zero, Nat.add_zero]
          rw [hr2 p hp hpn, swapArgs_getElem? l p i p hpl hil]
          have : p ≠ i := by omega
          simp [this]
        | succ j =>
          simp only [List.getD_cons_succ]
          have hj1 : j < ps.length := by simp at hj; omega
          rw [hr1 j hj1, swapArgs_getElem? l p i _ hpl hil]
          have h1 : i + 1 + j ≠ i := by omega
          have h2 : i + 1 + j ≠ p := by omega
          simp only [h1, h2, if_false]
          congr 1
          omega
      · intro k hk hkn
        have hkp : k ≠ p := fun h => hkn (by simp [h])
        have hki : k ≠ i := by omega
        rw [hr2 k hk (fun h => hkn (by simp [h])), swapArgs_getElem? l p i k hpl hil]
        simp [hkp, hki]


/-- C3. `appendAssembledArgs` with a record, `p >= 1` pairwise distinct recorded
positions all below `len(args)`, and an assembler that returns `args` extended
by exactly `p` values: the result has the length of `args`, holds the `j`-th
value at the `j`-th recorded position, and equals `args` at every other
index. -/
theorem appendAssembledArgs_fills_recorded_positions
    (pendingArgPos : List Nat) (record : ArgumentAssembler) (args values : Arguments)
    (stmtType : StmtType) (columns : List String)
    (hp : 1 ≤ pendingArgPos.length) (hd : pendingArgPos.Nodup)
    (hlt : ∀ p ∈ pendingArgPos, p < args.length)
    (hv : values.length = pendingArgPos.length)
    (hr : record stmtType args columns = .ok (args ++ values)) :
    ∃ res, appendAssembledArgs pendingArgPos (some record) args stmtType columns = .ok res ∧
      res.length = args.length ∧
      (∀ j (hj : j < pendingArgPos.length), res[pendingArgPos[j]]? = values[j]?) ∧
      (∀ k, k < args.length → k ∉ pendingArgPos → res[k]? = args[k]?) := by
  obtain ⟨r, hr1, hrl, hr2, hr3⟩ := swapPending_spec args.length pendingArgPos args.length
    (args ++ values) hd hlt (le_refl _) (by simp [hv])
  have hnew : ((args ++ values).length : Int) - (pendingArgPos.length : Int) = (args.length : Int) := by
    simp [hv]
  refine ⟨r.take args.length, ?_, ?_, ?_, ?_⟩
  · have hgt : (args ++ values).length > args.length := by simp; omega
    simp only [appendAssembledArgs, hr, hgt, if_true, hnew, hr1, Int.toNat_ofNat]
  · simp [hrl]
  · intro j hj
    have hpj : pendingArgPos[j] < args.length := hlt _ (List.getElem_mem _)
    have h := hr2 j hj
    rw [List.getD_eq_getElem _ _ hj] at h
    rw [List.getElem?_take_of_lt hpj, h, List.getElem?_append_right (by omega)]
    simp
  · intro k hk hkn
    rw [List.getElem?_take_of_lt hk, hr3 k hk hkn, List.getElem?_append_left hk]

/-- C3 at the positions `[1]`, the arguments `[1, placeholder, 3]` and an
assembler that appends `v`. -/
theorem appendAssembledArgs_fills_recorded_positions_witness :
    ∃ res, appendAssembledArgs [1] (some assemblerV)
        [Argument.int 1, Argument.placeHolder cahensConstant, Argument.int 3]
        StmtType.updateWhere ["a", "b", "c"] = .ok res ∧
      res.length = [Argument.int 1, Argument.placeHolder cahensConstant, Argument.int 3].length ∧
      (∀ j (hj : j < [1].length), res[[1][j]]? = [Argument.str "v"][j]?) ∧
      (∀ k, k < [Argument.int 1, Argument.placeHolder cahensConstant, Argument.int 3].length →
        k ∉ [1] → res[k]? =
          [Argument.int 1, Argument.placeHolder cahensConstant, Argument.int 3][k]?) :=
  appendAssembledArgs_fills_recorded_positions [1] assemblerV
    [Argument.int 1, Argument.placeHolder cahensConstant, Argument.int 3] [Argument.str "v"]
    StmtType.updateWhere ["a", "b", "c"] (by decide) (by decide) (by decide) rfl rfl
/-! ## BETWEEN and NOT BETWEEN with a wrong number of values -/

theorem writeOperator_between_fails (n : Nat) (o : Op) (ho : o = Op.Between ∨ o = Op.NotBetween)
    (hn : n ≠ 2) : ∃ e, writeOperator n o = .error e := by
  rcases ho with h | h <;> subst h <;> simp [writeOperator, hn]

theorem writeCondition_between_fails (f : WhereFragment)
    (hexpr : f.IsExpression = false) (hsub : f.SubSelect = none) (hargs : f.Arguments = none)
    (harg : f.Argument.isSet = true)
    (hop : f.Operator = Op.Between ∨ f.Operator = Op.NotBetween) (hlen : f.Argument.len ≠ 2) :
    f.writeCondition.err ≠ none := by
  have hu : (f.Operator == Op.unset) = false := by
    rcases hop with h | h <;> rw [h] <;> decide
  have hal : (if f.IsPlaceHolder = true then 1 else f.Argument.len) ≠ 2 := by
    split <;> simp [hlen]
  obtain ⟨e, he⟩ := writeOperator_between_fails _ f.Operator hop hal
  simp only [WhereFragment.writeCondition, hexpr, hsub, hargs, harg, hu, Bool.and_false, if_true]
  simp [writeOperatorAfter, he]

theorem writeLoop_fails_at (ct : Char) (f : WhereFragment) (post : WhereFragments)
    (hf : f.writeCondition.err ≠ none) (ho : f.Condition ≠ "(") (hc : f.Condition ≠ ")")
    (hu : ct = 'j' → f.Using.length = 0) :
    ∀ (pre : WhereFragments) (i : Nat), (ct = 'j' → ∀ g ∈ pre, g.Using.length = 0) →
      (writeLoop ct i (pre ++ f :: post)).err ≠ none
  | [], i, _ => by
      have h1 : ¬ (ct = 'j' ∧ f.Using.length > 0) := fun h => by have := hu h.1; omega
      cases hfe : f.writeCondition.err with
      | none => exact absurd hfe hf
      | some e => simp [writeLoop, h1, ho, hc, hfe]
  | g :: pre, i, hpre => by
      have h1 : ¬ (ct = 'j' ∧ g.Using.length > 0) := fun h => by
        have := hpre h.1 g (by simp); omega
      have ih := fun j => writeLoop_fails_at ct f post hf ho hc hu pre j
        (fun hj q hq => hpre hj q (by simp [hq]))
      simp only [List.cons_append, writeLoop, h1, if_false]
      split
      · simpa [Written.push] using ih i
      · split
        · simpa [Written.push] using ih 0
        · split
          · simp
          · simpa [Written.push] using ih (i + 1)
theorem appendArgsLoop_between_fails (ct : Char) (f : WhereFragment) (post : WhereFragments)
    (hexpr : f.IsExpression = false) (harg : f.Argument.isSet = true)
    (hop : f.Operator = Op.Between ∨ f.Operator = Op.NotBetween) (hlen : f.Argument.len ≠ 2)
    (ho : f.Condition ≠ "(") (hc : f.Condition ≠ ")")
    (hu : ct = 'j' → f.Using.length = 0) :
    ∀ (pre : WhereFragments) (args : Arguments) (pap : List Nat) (cnt : Nat),
      (ct = 'j' → ∀ g ∈ pre, g.Using.length = 0) →
      (appendArgsLoop ct (pre ++ f :: post) args pap cnt).err ≠ none
  | [], args, pap, cnt, _ => by
      have h1 : ¬ (ct = 'j' ∧ f.Using.length > 0) := fun h => by have := hu h.1; omega
      obtain ⟨e1, he1⟩ := writeOperator_between_fails 1 f.Operator hop (by decide)
      obtain ⟨e2, he2⟩ := writeOperator_between_fails _ f.Operator hop hlen
      by_cases hph : f.IsPlaceHolder = true <;>
        simp [appendArgsLoop, h1, ho, hc, hexpr, harg, hph, he1, he2]
  | g :: pre, args, pap, cnt, hpre => by
      have h1 : ¬ (ct = 'j' ∧ g.Using.length > 0) := fun h => by
        have := hpre h.1 g (by simp); omega
      have ih := fun a p c => appendArgsLoop_between_fails ct f post hexpr harg hop hlen ho hc hu
        pre a p c (fun hj q hq => hpre hj q (by simp [hq]))
      simp only [List.cons_append, appendArgsLoop, h1, if_false]
      repeat' split
      all_goals first | exact ih _ _ _ | simp

/-- A column condition whose operator is BETWEEN or NOT BETWEEN and whose
argument holds a number of values other than two makes both passes end with a
failure, wherever the condition stands in the list (in join mode: before any
USING fragment). -/
theorem between_condition_fails (pre post : WhereFragments) (f : WhereFragment)
    (conditionType : Char) (args : Arguments)
    (hexpr : f.IsExpression = false) (hsub : f.SubSelect = none) (hargs : f.Arguments = none)
    (harg : f.Argument.isSet = true)
    (hop : f.Operator = Op.Between ∨ f.Operator = Op.NotBetween) (hlen : f.Argument.len ≠ 2)
    (ho : f.Condition ≠ "(") (hc : f.Condition ≠ ")")
    (hu : conditionType = 'j' → ∀ g ∈ pre ++ [f], g.Using.length = 0) :
    (WhereFragments.write (pre ++ f :: post) conditionType).err ≠ none
    ∧ (WhereFragments.appendArgs (pre ++ f :: post) args conditionType).err ≠ none := by
  have hlen0 : ¬ (pre ++ f :: post).length = 0 := by simp
  constructor
  · simp only [WhereFragments.write, hlen0, if_false]
    exact writeLoop_fails_at conditionType f post
      (writeCondition_between_fails f hexpr hsub hargs harg hop hlen) ho hc
      (fun h => hu h f (by simp)) pre 0 (fun h g hg => hu h g (by simp [hg]))
  · simp only [WhereFragments.appendArgs, hlen0, if_false]
    exact appendArgsLoop_between_fails conditionType f post hexpr harg hop hlen ho hc
      (fun h => hu h f (by simp)) pre args [] args.length (fun h g hg => hu h g (by simp [hg]))

/-! ## Deferred values behind a sub-select (C2) -/

/-- C2. The list `SubSelect("entity_id", In, sel)`, `Column("store_id").PlaceHolder()`
with a sub-select of two arguments and an assembler that appends the value `v`
for the one placeholder condition: the WHERE text has three placeholders, the
position recorded for the deferred condition is 1, and the returned sequence
is `[234, v, placeholder]`: the assembled value stands in the slot of the
sub-select's second argument, which is lost, and the staging entry is what
binds to the third placeholder. -/
theorem assembled_value_after_subselect_misplaced :
    (WhereFragments.write whereSubThenPlaceHolder 'w').text
      = " WHERE (`entity_id` IN (SELECT `entity_id` FROM `catalog_category_product` WHERE (`category_id` = ?) AND (`position` = ?))) AND (`store_id` = ?)"
    ∧ (WhereFragments.appendArgs whereSubThenPlaceHolder [] 'w').err = none
    ∧ (WhereFragments.appendArgs whereSubThenPlaceHolder [] 'w').args
      = [Argument.int 234, Argument.int 5, Argument.placeHolder cahensConstant]
    ∧ (WhereFragments.appendArgs whereSubThenPlaceHolder [] 'w').pendingArgPos = [1]
    ∧ appendAssembledArgs (WhereFragments.appendArgs whereSubThenPlaceHolder [] 'w').pendingArgPos
        (some assemblerV) (WhereFragments.appendArgs whereSubThenPlaceHolder [] 'w').args
        StmtType.updateWhere (WhereFragments.Conditions whereSubThenPlaceHolder)
      = .ok [Argument.int 234, Argument.str "v", Argument.placeHolder cahensConstant] := by
  refine ⟨by rfl, by rfl, by rfl, by rfl, by rfl⟩

/-! ## More than one argument source on a column (C9) -/

/-- A non-expression fragment without a sub-select that has a direct argument
and a non-nil `Arguments` slice ends the text pass with the not-supported
panic, wherever it stands in the list. -/
theorem write_argument_and_arguments_not_supported (pre post : WhereFragments)
    (f : WhereFragment) (l : Arguments) (conditionType : Char)
    (hexpr : f.IsExpression = false) (hsub : f.SubSelect = none) (hargs : f.Arguments = some l)
    (ho : f.Condition ≠ "(") (hc : f.Condition ≠ ")")
    (hu : conditionType = 'j' → ∀ g ∈ pre ++ [f], g.Using.length = 0) :
    (WhereFragments.write (pre ++ f :: post) conditionType).err ≠ none
    ∧ (WhereFragments.write [f] conditionType).err.map Error.kind
      = some (Error.notSupported "[dbr] Multiple arguments for a column are not supported") := by
  have hf : f.writeCondition = ⟨"", f, some (Error.panic
      (Error.notSupported "[dbr] Multiple arguments for a column are not supported"))⟩ := by
    simp [WhereFragment.writeCondition, hexpr, hsub, hargs]
  have h1 : ¬ (conditionType = 'j' ∧ f.Using.length > 0) := fun h => by
    have := hu h.1 f (by simp); omega
  constructor
  · have hlen0 : ¬ (pre ++ f :: post).length = 0 := by simp
    simp only [WhereFragments.write, hlen0, if_false]
    exact writeLoop_fails_at conditionType f post (by simp [hf]) ho hc
      (fun h => hu h f (by simp)) pre 0 (fun h g hg => hu h g (by simp [hg]))
  · simp [WhereFragments.write, writeLoop, h1, ho, hc, hf, Error.kind]

/-- C9. The fragment `SubSelect("entity_id", In, sel).Int(3)` carries a direct
argument together with a sub-select: the text pass returns no error and writes
the sub-select with its two placeholders, and the argument pass returns no
error and appends the direct argument `3` instead of the two arguments of the
sub-select. -/
theorem subselect_with_argument_is_built :
    (WhereFragments.write [fragmentSubAndArgument] 'w').err = none
    ∧ (WhereFragments.write [fragmentSubAndArgument] 'w').text
      = " WHERE (`entity_id` IN (SELECT `entity_id` FROM `catalog_category_product` WHERE (`category_id` = ?) AND (`position` = ?)))"
    ∧ (WhereFragments.appendArgs (WhereFragments.write [fragmentSubAndArgument] 'w').state [] 'w').err
      = none
    ∧ (WhereFragments.appendArgs (WhereFragments.write [fragmentSubAndArgument] 'w').state [] 'w').args
      = [Argument.int 3] := by
  refine ⟨by rfl, by rfl, by rfl, by rfl⟩

/-! ## Grouping and connectors (C7, C8) -/

theorem connector_eq_namedConnector (c : Char) : connector c = namedConnector c := by
  unfold connector logicalAnd logicalOr logicalXor logicalNot
  by_cases ha : c = 'a'
  · subst ha; rfl
  · by_cases ho : c = 'o'
    · subst ho; rfl
    · by_cases hx : c = 'x'
      · subst hx; rfl
      · by_cases hn : c = 'n'
        · subst hn; rfl
        · simp only [ha, ho, hx, hn, if_false]
          unfold namedConnector
          split <;> first | rfl | contradiction

theorem clauseKeyword_where_having (ct : Char) (h : ct = 'w' ∨ ct = 'h') : ct ≠ 'j' := by
  rcases h with h | h <;> subst h <;> decide

theorem writeLoop_grouped (ct : Char) (hct : ct ≠ 'j') :
    ∀ (wfs : WhereFragments) (i : Nat), (writeLoop ct i wfs).err = none →
      (writeLoop ct i wfs).text = groupedConditions (decide (i = 0)) wfs
  | [], i, _ => by simp [writeLoop, groupedConditions]
  | f :: rest, i, hok => by
      have h1 : ¬ (ct = 'j' ∧ f.Using.length > 0) := fun h => hct h.1
      simp only [writeLoop, h1, hct, false_and, if_false] at hok ⊢
      simp only [groupedConditions]
      by_cases hc : f.Condition = ")"
      · simp only [hc, if_true, Written.push] at hok ⊢
        rw [writeLoop_grouped ct hct rest i hok]
        simp
      · simp only [hc, if_false] at hok ⊢
        have hconn : (if i > 0 then connector f.Logical else "")
            = (if decide (i = 0) = true then "" else namedConnector f.Logical) := by
          rw [connector_eq_namedConnector]
          by_cases hi : i = 0
          · simp [hi]
          · have : i > 0 := Nat.pos_of_ne_zero hi
            simp [hi, this]
        by_cases ho : f.Condition = "("
        · simp only [ho, if_true, Written.push] at hok ⊢
          rw [writeLoop_grouped ct hct rest 0 hok, hconn]
          simp [String.append_assoc]
        · simp only [ho, if_false] at hok ⊢
          cases hfe : f.writeCondition.err with
          | some e => simp [hfe] at hok
          | none =>
            simp only [hfe, Written.push] at hok ⊢
            rw [writeLoop_grouped ct hct rest (i + 1) hok, hconn]
            simp [String.append_assoc]

/-- C7. In WHERE and HAVING mode the text that `WhereFragments.write` writes
for a list that it writes without error is the clause keyword followed by the
grouped conditions: the markers `(` and `)` verbatim, every other condition in
its own pair of parentheses, no connector in front of the first fragment of
the list, of the first fragment after an opening marker, and of a closing
marker. -/
theorem write_groups_conditions (wfs : WhereFragments) (conditionType : Char)
    (hct : conditionType = 'w' ∨ conditionType = 'h') (hne : wfs ≠ [])
    (hok : (WhereFragments.write wfs conditionType).err = none) :
    (WhereFragments.write wfs conditionType).text
      = clauseKeyword conditionType ++ groupedConditions true wfs := by
  have hl : ¬ wfs.length = 0 := by simpa using hne
  simp only [WhereFragments.write, hl, if_false] at hok ⊢
  rw [writeLoop_grouped conditionType (clauseKeyword_where_having _ hct) wfs 0 hok]
  simp

/-- C7 at the WHERE list of `ExampleParenthesisOpen`, with the text of its
expected output. -/
theorem write_groups_conditions_witness :
    (WhereFragments.write whereParenthesisOpen 'w').text
        = clauseKeyword 'w' ++ groupedConditions true whereParenthesisOpen
    ∧ (WhereFragments.write whereParenthesisOpen 'w').text
        = " WHERE ((`d` = ?) OR (`e` = ?)) AND (`f` = ?)" :=
  ⟨write_groups_conditions whereParenthesisOpen 'w' (Or.inl rfl) (List.cons_ne_nil _ _) (by rfl), by rfl⟩

theorem writeLoop_append (ct : Char) (hct : ct ≠ 'j') (rest : WhereFragments) :
    ∀ (pre : WhereFragments) (i : Nat), (writeLoop ct i (pre ++ rest)).err = none →
      (writeLoop ct i pre).err = none
      ∧ (writeLoop ct (counterAfter i pre) rest).err = none
      ∧ (writeLoop ct i (pre ++ rest)).text
          = (writeLoop ct i pre).text ++ (writeLoop ct (counterAfter i pre) rest).text
  | [], i, hok => by
      refine ⟨by simp [writeLoop], by simpa [counterAfter] using hok, ?_⟩
      simp [writeLoop, counterAfter]
  | g :: pre, i, hok => by
      have h1 : ¬ (ct = 'j' ∧ g.Using.length > 0) := fun h => hct h.1
      rw [List.cons_append] at hok ⊢
      simp only [writeLoop, h1, hct, false_and, if_false] at hok ⊢
      simp only [counterAfter]
      by_cases hc : g.Condition = ")"
      · simp only [hc, if_true, Written.push] at hok ⊢
        obtain ⟨a, b, c⟩ := writeLoop_append ct hct rest pre i hok
        exact ⟨a, b, by rw [c]; simp [String.append_assoc]⟩
      · simp only [hc, if_false] at hok ⊢
        by_cases ho : g.Condition = "("
        · simp only [ho, if_true, Written.push] at hok ⊢
          obtain ⟨a, b, c⟩ := writeLoop_append ct hct rest pre 0 hok
          exact ⟨a, b, by rw [c]; simp [String.append_assoc]⟩
        · simp only [ho, if_false] at hok ⊢
          cases hge : g.writeCondition.err with
          | some e => simp [hge] at hok
          | none =>
            simp only [hge, Written.push] at hok ⊢
            obtain ⟨a, b, c⟩ := writeLoop_append ct hct rest pre (i + 1) hok
            exact ⟨a, b, by rw [c]; simp [String.append_assoc]⟩

theorem counterAfter_pos_iff : ∀ (pre : WhereFragments) (i : Nat),
    0 < counterAfter i pre ↔ hasGroupPredecessor (decide (0 < i)) pre = true
  | [], i => by simp [counterAfter, hasGroupPredecessor]
  | g :: pre, i => by
      simp only [counterAfter, hasGroupPredecessor]
      by_cases hc : g.Condition = ")"
      · simp only [hc, if_true]; exact counterAfter_pos_iff pre i
      · by_cases ho : g.Condition = "("
        · simp only [hc, ho, if_true, if_false]
          simpa using counterAfter_pos_iff pre 0
        · simp only [hc, ho, if_false]
          simpa using counterAfter_pos_iff pre (i + 1)

theorem writeLoop_ends_closed (ct : Char) (hct : ct ≠ 'j') :
    ∀ (pre : WhereFragments) (i : Nat), pre ≠ [] → (writeLoop ct i pre).err = none →
      0 < counterAfter i pre → ∃ before, (writeLoop ct i pre).text = before ++ ")"
  | [], _, hne, _, _ => absurd rfl hne
  | g :: pre, i, _, hok, hpos => by
      have h1 : ¬ (ct = 'j' ∧ g.Using.length > 0) := fun h => hct h.1
      simp only [writeLoop, h1, hct, false_and, if_false] at hok ⊢
      simp only [counterAfter] at hpos
      have tail : ∀ (j : Nat) (lead : String), (writeLoop ct j pre).err = none →
          0 < counterAfter j pre → pre ≠ [] →
          ∃ before, lead ++ (writeLoop ct j pre).text = before ++ ")" := by
        intro j lead hj hp hn
        obtain ⟨b, hb⟩ := writeLoop_ends_closed ct hct pre j hn hj hp
        exact ⟨lead ++ b, by rw [hb]; simp [String.append_assoc]⟩
      by_cases hc : g.Condition = ")"
      · simp only [hc, if_true, Written.push] at hok hpos ⊢
        by_cases hn : pre = []
        · subst hn; exact ⟨"", by simp [writeLoop]⟩
        · exact tail i _ hok hpos hn
      · simp only [hc, if_false] at hok hpos ⊢
        by_cases ho : g.Condition = "("
        · simp only [ho, if_true, Written.push] at hok hpos ⊢
          by_cases hn : pre = []
          · subst hn; simp [counterAfter] at hpos
          · exact tail 0 _ hok hpos hn
        · simp only [ho, if_false] at hok hpos ⊢
          cases hge : g.writeCondition.err with
          | some e => simp [hge] at hok
          | none =>
            simp only [hge, Written.push] at hok ⊢
            by_cases hn : pre = []
            · subst hn
              exact ⟨(if i > 0 then connector g.Logical else "") ++ "(" ++ g.writeCondition.text,
                by simp [writeLoop, String.append_assoc]⟩
            · exact tail (i + 1) _ hok hpos hn

/-- C8. In WHERE and HAVING mode, in a list written without error, a fragment
that is not a closing marker and is not the first of its group is preceded by
exactly one connector: the text written for the fragments before it ends with
a closing parenthesis, and between that parenthesis and the opening
parenthesis of the fragment stands the connector that the fragment's own
`Logical` field names (`a` AND, `o` OR, `x` XOR, `n` NOT, else AND). -/
theorem later_fragment_takes_named_connector (pre post : WhereFragments) (f : WhereFragment)
    (conditionType : Char) (hct : conditionType = 'w' ∨ conditionType = 'h')
    (hok : (WhereFragments.write (pre ++ f :: post) conditionType).err = none)
    (hc : f.Condition ≠ ")") (hp : hasGroupPredecessor false pre = true) :
    ∃ before rest,
      (WhereFragments.write pre conditionType).text = clauseKeyword conditionType ++ before ++ ")"
      ∧ (WhereFragments.write (pre ++ f :: post) conditionType).text
          = clauseKeyword conditionType ++ before ++ ")" ++ namedConnector f.Logical ++ "("
            ++ rest := by
  have hj := clauseKeyword_where_having _ hct
  have hne : pre ≠ [] := by
    intro h; subst h; simp [hasGroupPredecessor] at hp
  have hl1 : ¬ pre.length = 0 := by simpa using hne
  have hl2 : ¬ (pre ++ f :: post).length = 0 := by simp
  simp only [WhereFragments.write, hl1, hl2, if_false] at hok ⊢
  obtain ⟨hpre, hrest, htext⟩ := writeLoop_append conditionType hj (f :: post) pre 0 hok
  have hpos : 0 < counterAfter 0 pre := (counterAfter_pos_iff pre 0).mpr (by simpa using hp)
  obtain ⟨before, hb⟩ := writeLoop_ends_closed conditionType hj pre 0 hne hpre hpos
  have h1 : ¬ (conditionType = 'j' ∧ f.Using.length > 0) := fun h => hj h.1
  simp only [writeLoop, h1, hj, false_and, if_false, hc, hpos, if_true] at hrest
  rw [htext, hb]
  simp only [writeLoop, h1, hj, false_and, if_false, hc, hpos, if_true,
    connector_eq_namedConnector]
  by_cases ho : f.Condition = "("
  · refine ⟨before, (writeLoop conditionType 0 post).text, by simp [String.append_assoc], ?_⟩
    simp [ho, Written.push, String.append_assoc]
  · simp only [ho, if_false] at hrest ⊢
    cases hfe : f.writeCondition.err with
    | some e => simp [hfe] at hrest
    | none =>
      refine ⟨before, f.writeCondition.text ++ ")"
        ++ (writeLoop conditionType (counterAfter 0 pre + 1) post).text,
        by simp [String.append_assoc], ?_⟩
      simp [hfe, Written.push, String.append_assoc]

/-- C8 at the fragment `Column("e").String("wat").Or()` of the WHERE list of
`ExampleParenthesisOpen`. -/
theorem later_fragment_takes_named_connector_witness :
    ∃ before rest,
      (WhereFragments.write [ParenthesisOpen, (Column "d").arg (Argument.int 1)] 'w').text
        = clauseKeyword 'w' ++ before ++ ")"
      ∧ (WhereFragments.write ([ParenthesisOpen, (Column "d").arg (Argument.int 1)]
            ++ ((Column "e").arg (Argument.str "wat")).Or
              :: [ParenthesisClose, (Column "f").arg (Argument.int 2)]) 'w').text
          = clauseKeyword 'w' ++ before ++ ")"
            ++ namedConnector (((Column "e").arg (Argument.str "wat")).Or).Logical ++ "(" ++ rest :=
  later_fragment_takes_named_connector [ParenthesisOpen, (Column "d").arg (Argument.int 1)]
    [ParenthesisClose, (Column "f").arg (Argument.int 2)]
    ((Column "e").arg (Argument.str "wat")).Or 'w' (Or.inl rfl) (by rfl) (by decide) (by rfl)

/-! ## Order of the arguments of an UPDATE (C5) -/

theorem appendArgsLoop_where (ct : Char) (hct : ct ≠ 'j') :
    ∀ (wfs : WhereFragments) (args : Arguments) (pap : List Nat) (cnt : Nat),
      (appendArgsLoop ct wfs args pap cnt).err = none →
      (appendArgsLoop ct wfs args pap cnt).args = args ++ whereArguments wfs
  | [], args, pap, cnt, _ => by simp [appendArgsLoop, whereArguments]
  | f :: rest, args, pap, cnt, hok => by
      have h1 : ¬ (ct = 'j' ∧ f.Using.length > 0) := fun h => hct h.1
      have ih := fun a p c h => appendArgsLoop_where ct hct rest a p c h
      simp only [appendArgsLoop, h1, if_false] at hok ⊢
      simp only [whereArguments]
      by_cases hc : f.Condition = ")"
      · simp only [hc, if_true] at hok ⊢
        rw [ih _ _ _ hok]; simp [fragmentArguments, hc]
      · by_cases ho : f.Condition = "("
        · simp only [if_neg hc, if_pos ho] at hok ⊢
          rw [ih _ _ _ hok]; simp [fragmentArguments, ho]
        · simp only [if_neg hc, if_neg ho] at hok ⊢
          cases he : f.IsExpression with
          | true =>
            simp only [he, if_true] at hok ⊢
            rw [ih _ _ _ hok]
            cases hs : f.Argument.isSet <;> simp [fragmentArguments, hc, ho, he, hs]
          | false =>
            simp only [he, Bool.false_eq_true, if_false] at hok ⊢
            cases hp : f.IsPlaceHolder with
            | true =>
              simp only [hp, if_true] at hok ⊢
              cases hw : writeOperator 1 f.Operator with
              | error e => simp [hw] at hok
              | ok r =>
                simp only [hw] at hok ⊢
                rw [ih _ _ _ hok]
                cases hr : r.2 <;> cases hs : f.Argument.isSet <;>
                  simp [fragmentArguments, hc, ho, he, hp, hs, addsArgument, hw, hr]
            | false =>
              simp only [hp, Bool.false_eq_true, if_false] at hok ⊢
              cases hs : f.Argument.isSet with
              | true =>
                simp only [hs, if_true] at hok ⊢
                cases hw : writeOperator f.Argument.len f.Operator with
                | error e => simp [hw] at hok
                | ok r =>
                  simp only [hw] at hok ⊢
                  rw [ih _ _ _ hok]
                  cases hr : r.2 <;>
                    simp [fragmentArguments, hc, ho, he, hp, hs, addsArgument, hw, hr]
              | false =>
                simp only [hs, Bool.false_eq_true, if_false] at hok ⊢
                cases hsub : f.SubSelect with
                | none =>
                  simp only [hsub] at hok ⊢
                  rw [ih _ _ _ hok]; simp [fragmentArguments, hc, ho, he, hp, hs, hsub]
                | some s =>
                  simp only [hsub] at hok ⊢
                  cases hse : s.err with
                  | some e => simp [hse] at hok
                  | none =>
                    simp only [hse] at hok ⊢
                    rw [ih _ _ _ hok]; simp [fragmentArguments, hc, ho, he, hp, hs, hsub]

theorem appendArgs_where (wfs : WhereFragments) (args : Arguments)
    (hok : (WhereFragments.appendArgs wfs args 'w').err = none) :
    (WhereFragments.appendArgs wfs args 'w').args = args ++ whereArguments wfs := by
  unfold WhereFragments.appendArgs at hok ⊢
  split
  · rename_i h
    have : wfs = [] := List.length_eq_zero.mp h
    simp [this, whereArguments]
  · rename_i h
    simp only [h, if_false] at hok
    exact appendArgsLoop_where 'w' (by decide) wfs args [] args.length hok

/-- C5. For an Update without a record (built, that is without raw SQL and
recorded error) whose WHERE pass returns no error, `Update.appendArgs` returns
the arguments passed in, then the SET arguments in column order, an
expression contributing its own arguments in place, then the WHERE arguments
in fragment order. -/
theorem update_appendArgs_set_then_where (b : Update) (args : Arguments)
    (hrec : b.SetClauses.Record = none) (herr : b.previousError = none)
    (hraw : b.RawFullSQL = "")
    (hok : (WhereFragments.appendArgs b.WhereFragments
      (args ++ setArguments b.SetClauses.Arguments) 'w').err = none) :
    b.appendArgs args
      = .ok (args ++ setArguments b.SetClauses.Arguments ++ whereArguments b.WhereFragments) := by
  have hw := appendArgs_where b.WhereFragments _ hok
  simp only [Update.appendArgs, herr, hraw, hrec, assembleSet, ne_eq, not_true_eq_false,
    if_false, hok, appendAssembledArgs, hw]

/-- C5 at the statement of `ExampleSQLCase_update`, whose arguments hold the
values 3 4 5, 345 567 897 and 6 in this order. -/
theorem update_appendArgs_set_then_where_witness :
    updateSQLCase.appendArgs []
        = .ok ([] ++ setArguments updateSQLCase.SetClauses.Arguments
            ++ whereArguments updateSQLCase.WhereFragments)
    ∧ updateSQLCase.appendArgs []
        = .ok [Argument.ints [3, 4, 5], Argument.ints [345, 567, 897], Argument.int 6] :=
  ⟨update_appendArgs_set_then_where updateSQLCase [] rfl rfl rfl (by rfl), by rfl⟩

/-! ## Idempotence of the build (C6) -/

theorem writeCondition_state (f : WhereFragment) :
    f.writeCondition.state = f ∨ (f.writeCondition.state = { f with Operator := Op.In }
      ∧ f.IsExpression = false ∧ f.SubSelect = none ∧ f.Arguments = none
      ∧ f.Argument.isSet = true
      ∧ ((if f.IsPlaceHolder = true then 1 else f.Argument.len) > 1
          && f.Operator == Op.unset) = true) := by
  rcases Bool.eq_false_or_eq_true f.IsExpression with he | he
  · left
    simp only [WhereFragment.writeCondition, he, if_true]
    repeat' split
    all_goals rfl
  · rcases Option.eq_none_or_eq_some f.SubSelect with hsub | ⟨s, hsub⟩
    · rcases Option.eq_none_or_eq_some f.Arguments with hargs | ⟨l, hargs⟩
      · rcases Bool.eq_false_or_eq_true f.Argument.isSet with hset | hset
        · by_cases hin : ((if f.IsPlaceHolder = true then 1 else f.Argument.len) > 1
              && f.Operator == Op.unset) = true
          · right
            refine ⟨?_, he, hsub, hargs, hset, hin⟩
            simp only [WhereFragment.writeCondition, he, hsub, hargs, hset, hin,
              Bool.false_eq_true, if_false, if_true]
          · left
            simp only [WhereFragment.writeCondition, he, hsub, hargs, hset, hin,
              Bool.false_eq_true, if_false, if_true]
        · left
          simp only [WhereFragment.writeCondition, he, hsub, hargs, hset,
            Bool.false_eq_true, if_false]
      · left
        simp only [WhereFragment.writeCondition, he, hsub, hargs, Bool.false_eq_true, if_false]
    · left
      simp only [WhereFragment.writeCondition, he, hsub, Bool.false_eq_true, if_false]
      repeat' split
      all_goals rfl

theorem writeCondition_state_fields (f : WhereFragment) :
    f.writeCondition.state.Condition = f.Condition
    ∧ f.writeCondition.state.Using = f.Using
    ∧ f.writeCondition.state.Logical = f.Logical := by
  rcases writeCondition_state f with h | h
  · rw [h]; exact ⟨rfl, rfl, rfl⟩
  · rw [h.1]; exact ⟨rfl, rfl, rfl⟩

theorem writeCondition_idem (f : WhereFragment) :
    f.writeCondition.state.writeCondition = f.writeCondition := by
  rcases writeCondition_state f with h | ⟨h, he, hsub, hargs, hset, hin⟩
  · rw [h]
  · rw [h]
    have hin2 : ((if f.IsPlaceHolder = true then 1 else f.Argument.len) > 1
        && Op.In == Op.unset) = false := by simp
    simp only [WhereFragment.writeCondition, he, hsub, hargs, hset, hin, hin2,
      Bool.false_eq_true, if_false, if_true]

theorem writeLoop_idem (ct : Char) : ∀ (wfs : WhereFragments) (i : Nat),
    writeLoop ct i (writeLoop ct i wfs).state = writeLoop ct i wfs
  | [], i => by simp [writeLoop]
  | f :: rest, i => by
      by_cases h1 : ct = 'j' ∧ f.Using.length > 0
      · simp [writeLoop, h1]
      · by_cases hc : f.Condition = ")"
        · have e : writeLoop ct i (f :: rest)
              = (writeLoop ct i rest).push ((if ct = 'j' ∧ i = 0 then " ON " else "") ++ ")") f := by
            simp [writeLoop, h1, hc]
          rw [e]
          simp only [Written.push]
          rw [show writeLoop ct i (f :: (writeLoop ct i rest).state)
              = (writeLoop ct i (writeLoop ct i rest).state).push
                ((if ct = 'j' ∧ i = 0 then " ON " else "") ++ ")") f by simp [writeLoop, h1, hc]]
          rw [writeLoop_idem ct rest i]
          rfl
        · by_cases ho : f.Condition = "("
          · have e : ∀ r : WhereFragments, writeLoop ct i (f :: r)
                = (writeLoop ct 0 r).push ((if ct = 'j' ∧ i = 0 then " ON " else "")
                    ++ (if i > 0 then connector f.Logical else "") ++ "(") f := by
              intro r; simp [writeLoop, h1, hc, ho]
            rw [e rest]
            simp only [Written.push]
            rw [e, writeLoop_idem ct rest 0]
            rfl
          · obtain ⟨hcond, husing, hl⟩ := writeCondition_state_fields f
            have h1s : ¬ (ct = 'j' ∧ f.writeCondition.state.Using.length > 0) := by rw [husing]; exact h1
            have hcs : ¬ f.writeCondition.state.Condition = ")" := by rw [hcond]; exact hc
            have hos : ¬ f.writeCondition.state.Condition = "(" := by rw [hcond]; exact ho
            cases hfe : f.writeCondition.err with
            | some e =>
              have e1 : writeLoop ct i (f :: rest) = ⟨(if ct = 'j' ∧ i = 0 then " ON " else "")
                  ++ (if i > 0 then connector f.Logical else "") ++ "(" ++ f.writeCondition.text,
                  f.writeCondition.state :: rest, some e⟩ := by
                simp [writeLoop, h1, hc, ho, hfe]
              rw [e1]
              simp [writeLoop, h1s, hcs, hos, writeCondition_idem, hfe, hl]
            | none =>
              have e1 : writeLoop ct i (f :: rest) = (writeLoop ct (i + 1) rest).push
                  ((if ct = 'j' ∧ i = 0 then " ON " else "")
                    ++ (if i > 0 then connector f.Logical else "") ++ "("
                    ++ f.writeCondition.text ++ ")") f.writeCondition.state := by
                simp [writeLoop, h1, hc, ho, hfe]
              rw [e1]
              simp only [Written.push]
              have e2 : writeLoop ct i (f.writeCondition.state :: (writeLoop ct (i + 1) rest).state)
                  = (writeLoop ct (i + 1) (writeLoop ct (i + 1) rest).state).push
                    ((if ct = 'j' ∧ i = 0 then " ON " else "")
                      ++ (if i > 0 then connector f.Logical else "") ++ "("
                      ++ f.writeCondition.text ++ ")") f.writeCondition.state := by
                simp [writeLoop, h1s, hcs, hos, writeCondition_idem, hfe, hl]
              rw [e2, writeLoop_idem ct rest (i + 1)]
              rfl

theorem writeLoop_state_length (ct : Char) : ∀ (wfs : WhereFragments) (i : Nat),
    (writeLoop ct i wfs).state.length = wfs.length
  | [], i => by simp [writeLoop]
  | f :: rest, i => by
      unfold writeLoop
      split
      · rfl
      · simp only []
        split
        · simp [Written.push, writeLoop_state_length ct rest]
        · split
          · simp [Written.push, writeLoop_state_length ct rest]
          · split
            · simp
            · simp [Written.push, writeLoop_state_length ct rest]

theorem write_idem (wfs : WhereFragments) (ct : Char) :
    WhereFragments.write (WhereFragments.write wfs ct).state ct = WhereFragments.write wfs ct := by
  by_cases h : wfs.length = 0
  · simp [WhereFragments.write, h]
  · have hs : (writeLoop ct 0 wfs).state.length ≠ 0 := by
      rw [writeLoop_state_length]; exact h
    simp only [WhereFragments.write, h, hs, if_false]
    rw [writeLoop_idem]

theorem toSQL_idem (b : Update) : b.toSQL.state.toSQL = b.toSQL := by
  unfold Update.toSQL
  cases hp : b.previousError with
  | some e => simp [hp]
  | none =>
    simp only []
    by_cases hraw : b.RawFullSQL ≠ ""
    · simp [hraw, hp]
    · by_cases ht : b.Table.Name.length = 0
      · simp [hraw, ht, hp]
      · by_cases hcol : b.SetClauses.Columns.length = 0
        · simp [hraw, ht, hcol, hp]
        · simp only [hraw, ht, hcol, if_false]
          cases hw : (WhereFragments.write b.WhereFragments 'w').err with
          | some e => simp [hw, hp, hraw, ht, hcol, write_idem]
          | none => simp [hw, hp, hraw, ht, hcol, write_idem]

/-- C6. Running `toSQL` and `appendArgs` a second time on the statement as the
first run left it writes the same text, returns the same error, and returns
the same argument sequence, for every Update and every argument sequence
passed in. -/
theorem update_build_idempotent (b : Update) (args : Arguments) :
    b.toSQL.state.toSQL.text = b.toSQL.text
    ∧ b.toSQL.state.toSQL.err = b.toSQL.err
    ∧ b.toSQL.state.toSQL.state.appendArgs args = b.toSQL.state.appendArgs args := by
  rw [toSQL_idem]
  exact ⟨rfl, rfl, rfl⟩

/-- The first text pass over `Column("a").Ints(1, 2, 3)` stores the operator IN
in the fragment; the second build writes the same text and returns the same
arguments all the same. -/
theorem first_pass_stores_in_operator :
    updateMultiValue.WhereFragments.map (fun f => f.Operator) = [Op.unset]
    ∧ updateMultiValue.toSQL.state.WhereFragments.map (fun f => f.Operator) = [Op.In]
    ∧ updateMultiValue.toSQL.text = "UPDATE `t` SET `x`=? WHERE (`a` IN (?,?,?))"
    ∧ updateMultiValue.toSQL.state.toSQL.text = "UPDATE `t` SET `x`=? WHERE (`a` IN (?,?,?))"
    ∧ updateMultiValue.toSQL.state.appendArgs [] = .ok [Argument.int 1, Argument.ints [1, 2, 3]]
    ∧ updateMultiValue.toSQL.state.toSQL.state.appendArgs []
        = .ok [Argument.int 1, Argument.ints [1, 2, 3]] := by
  refine ⟨by rfl, by rfl, by rfl, by rfl, by rfl, by rfl⟩

/-! ## SET columns of explicit values and of a record (C4) -/

/-- C4. The statement `NewUpdate("t").Set("b", ArgInt(1)).SetRecord([]string{"a"}, rec)`
with a record that appends the value `va` for its column `a`: the SET clause
is `b`=?, `a`=? and the arguments are `[va, 1]`, so the first `?` belongs to
column `b` and the first argument to column `a`. -/
theorem set_before_record_misaligned :
    updateSetThenRecord.SetClauses.Columns = ["b", "a"]
    ∧ updateSetThenRecord.toSQL.err = none
    ∧ updateSetThenRecord.toSQL.text = "UPDATE `t` SET `b`=?, `a`=?"
    ∧ updateSetThenRecord.toSQL.state.appendArgs [] = .ok [Argument.str "va", Argument.int 1] := by
  refine ⟨by rfl, by rfl, by rfl, by rfl⟩

/-! ## Placeholders and argument slots of an UPDATE (C1) -/

/-- C1, as stated, fails on the template `NewUpdate("t").AddColumns("a")`: its
text has one `?` and its argument sequence is empty. -/
theorem template_update_has_free_placeholder :
    updateTemplate.RawFullSQL = "" ∧ updateTemplate.previousError = none
    ∧ updateTemplate.toSQL.err = none
    ∧ updateTemplate.toSQL.text = "UPDATE `t` SET `a`=?"
    ∧ countPlaceHolders updateTemplate.toSQL.text = 1
    ∧ updateTemplate.toSQL.state.appendArgs [] = .ok []
    ∧ slots [] = 0 := by
  refine ⟨by rfl, by rfl, by rfl, by rfl, by rfl, by rfl, by rfl⟩

@[simp] theorem countPlaceHolders_append (a b : String) :
    countPlaceHolders (a ++ b) = countPlaceHolders a + countPlaceHolders b := by
  simp [countPlaceHolders, String.data_append]

@[simp] theorem slots_append (a b : Arguments) : slots (a ++ b) = slots a + slots b := by
  induction a with
  | nil => simp [slots]
  | cons x xs ih => simp [slots, ih]; omega

theorem countPlaceHolders_of_noPlaceHolder (s : String) (h : noPlaceHolder s = true) :
    countPlaceHolders s = 0 := by
  simp only [noPlaceHolder, Bool.not_eq_true', List.contains_eq_any_beq] at h
  simp only [countPlaceHolders]
  rw [List.count_eq_zero]
  intro hm
  have : (s.data.any fun x => '?' == x) = true := List.any_eq_true.mpr ⟨'?', hm, by simp⟩
  rw [h] at this
  exact absurd this (by simp)

theorem count_quoteChars (cs : List Char) : (quoteChars cs).count '?' = cs.count '?' := by
  induction cs with
  | nil => decide
  | cons c cs ih =>
    unfold quoteChars
    by_cases h : c = '.'
    · subst h
      have h1 : (backtick == '?') = false := by decide
      have h2 : ('.' == '?') = false := by decide
      simp [List.count_cons, ih, h1, h2]
    · simp [h, List.count_cons, ih]

theorem countPlaceHolders_writeName (n : String) :
    countPlaceHolders (Quoter.writeName n) = countPlaceHolders n := by
  have h1 : (backtick == '?') = false := by decide
  simp [countPlaceHolders, Quoter.writeName, List.count_cons, count_quoteChars, h1]

theorem countPlaceHolders_quote (n : String) :
    countPlaceHolders (Quoter.quote n) = countPlaceHolders n := by
  have h : countPlaceHolders "`" = 0 := by decide
  simp [Quoter.quote, h]

theorem countPlaceHolders_WriteNameAlias (n a : String) :
    countPlaceHolders (Quoter.WriteNameAlias n a) = countPlaceHolders n + countPlaceHolders a := by
  unfold Quoter.WriteNameAlias
  split
  · rename_i h; subst h
    have : countPlaceHolders "" = 0 := by decide
    simp [countPlaceHolders_writeName, this]
  · have : countPlaceHolders " AS " = 0 := by decide
    simp [countPlaceHolders_writeName, countPlaceHolders_quote, this]

theorem countPlaceHolders_placeHolders : ∀ n : Nat, countPlaceHolders (placeHolders n) = n
  | 0 => by decide
  | 1 => by decide
  | n + 2 => by
      have h : countPlaceHolders "?," = 1 := by decide
      simp [placeHolders, h, countPlaceHolders_placeHolders (n + 1)]; omega

theorem count_decDigits : ∀ (fuel n : Nat), (decDigits fuel n).count '?' = 0
  | 0, _ => by simp [decDigits]
  | fuel + 1, n => by
      have hd : ∀ d : Nat, d < 10 → (Char.ofNat (48 + d) == '?') = false := by
        intro d hd
        interval_cases d <;> decide
      unfold decDigits
      split
      · rename_i h
        simp [List.count_cons, hd n h]
      · simp [List.count_append, count_decDigits fuel (n / 10), List.count_cons,
          hd (n % 10) (Nat.mod_lt _ (by decide))]

theorem countPlaceHolders_writeUint64 (n : Nat) : countPlaceHolders (writeUint64 n) = 0 := by
  simp [countPlaceHolders, writeUint64, count_decDigits]

theorem countPlaceHolders_sqlWriteLimitOffset (lv : Bool) (lc : Nat) (ov : Bool) (oc : Nat) :
    countPlaceHolders (sqlWriteLimitOffset lv lc ov oc) = 0 := by
  have h0 : countPlaceHolders "" = 0 := by decide
  have h1 : countPlaceHolders " LIMIT " = 0 := by decide
  have h2 : countPlaceHolders " OFFSET " = 0 := by decide
  unfold sqlWriteLimitOffset
  cases lv <;> cases ov <;> simp [h0, h1, h2, countPlaceHolders_writeUint64]

theorem countPlaceHolders_orderByEntries : ∀ (as : List NameAlias),
    (∀ a ∈ as, noPlaceHolder a.Name = true) → countPlaceHolders (orderByEntries as) = 0
  | [], _ => by decide
  | [a], h => by
      have hn := countPlaceHolders_of_noPlaceHolder _ (h a (by simp))
      have h0 : countPlaceHolders "" = 0 := by decide
      have h1 : countPlaceHolders " DESC" = 0 := by decide
      simp only [orderByEntries, orderByEntry]
      cases a.IsExpression <;> cases a.Descending <;>
        simp [h0, h1, hn, countPlaceHolders_writeName]
  | a :: b :: as, h => by
      have hn := countPlaceHolders_of_noPlaceHolder _ (h a (by simp))
      have ih := countPlaceHolders_orderByEntries (b :: as) (fun x hx => h x (by simp [hx]))
      have h0 : countPlaceHolders "" = 0 := by decide
      have h1 : countPlaceHolders " DESC" = 0 := by decide
      have h2 : countPlaceHolders ", " = 0 := by decide
      simp only [orderByEntries, orderByEntry]
      cases a.IsExpression <;> cases a.Descending <;>
        simp [h0, h1, h2, hn, ih, countPlaceHolders_writeName]

theorem countPlaceHolders_sqlWriteOrderBy (as : List NameAlias)
    (h : ∀ a ∈ as, noPlaceHolder a.Name = true) : countPlaceHolders (sqlWriteOrderBy as) = 0 := by
  have h0 : countPlaceHolders "" = 0 := by decide
  have h1 : countPlaceHolders " ORDER BY " = 0 := by decide
  unfold sqlWriteOrderBy
  split <;> simp [h0, h1, countPlaceHolders_orderByEntries as h]

theorem countPlaceHolders_FquoteAs (a : NameAlias) (hn : noPlaceHolder a.Name = true)
    (ha : noPlaceHolder a.Alias = true) : countPlaceHolders a.FquoteAs = 0 := by
  have h1 := countPlaceHolders_of_noPlaceHolder _ hn
  have h2 := countPlaceHolders_of_noPlaceHolder _ ha
  have h3 : countPlaceHolders " AS " = 0 := by decide
  unfold NameAlias.FquoteAs
  split
  · split <;> simp [h1, h2, h3, countPlaceHolders_quote]
  · simp [countPlaceHolders_WriteNameAlias, h1, h2]

theorem slots_setArguments_cons (a : Argument) (as : Arguments)
    (h : a.coversOwnPlaceHolders = true) :
    slots (setArguments (a :: as))
      = countPlaceHolders (match some a with
          | some (Argument.expr sql _) => sql
          | _ => "?") + slots (setArguments as) := by
  have hq : countPlaceHolders "?" = 1 := by decide
  cases a <;>
    simp_all [setArguments, Argument.coversOwnPlaceHolders, slots, Argument.len]

theorem countPlaceHolders_writeSetClauses : ∀ (cols : List String) (before as : Arguments),
    as.length = cols.length → (∀ c ∈ cols, noPlaceHolder c = true) →
    (∀ a ∈ as, Argument.coversOwnPlaceHolders a = true) →
    countPlaceHolders (writeSetClauses (before ++ as) before.length cols)
      = slots (setArguments as)
  | [], before, as, hl, _, _ => by
      have : as = [] := List.length_eq_zero.mp (by simpa using hl)
      subst this
      have h0 : countPlaceHolders "" = 0 := by decide
      simp [writeSetClauses, setArguments, slots, h0]
  | c :: cols, before, as, hl, hc, ha => by
      cases as with
      | nil => simp at hl
      | cons a as =>
        have hget : (before ++ a :: as)[before.length]? = some a := by
          rw [List.getElem?_append_right (le_refl _)]; simp
        have hih := countPlaceHolders_writeSetClauses cols (before ++ [a]) as
          (by simpa using hl) (fun x hx => hc x (by simp [hx]))
          (fun x hx => ha x (by simp [hx]))
        have hcn := countPlaceHolders_of_noPlaceHolder _ (hc c (by simp))
        have h0 : countPlaceHolders "" = 0 := by decide
        have h1 : countPlaceHolders ", " = 0 := by decide
        have h2 : countPlaceHolders "=" = 0 := by decide
        have hlead : countPlaceHolders (if before.length > 0 then ", " else "") = 0 := by
          split <;> assumption
        have hq : countPlaceHolders (Quoter.FquoteAs c) = 0 := by
          simp [Quoter.FquoteAs, countPlaceHolders_WriteNameAlias, hcn, h0]
        rw [slots_setArguments_cons a as (ha a (by simp))]
        simp only [writeSetClauses, hget, countPlaceHolders_append, hlead, hq, h2]
        simp only [List.append_assoc, List.singleton_append, List.length_append,
          List.length_singleton] at hih
        rw [hih]
        omega

theorem writeOperatorList_balanced (kw : String) (n : Nat) (hk : countPlaceHolders kw = 0) :
    countPlaceHolders (writeOperatorList kw n).1 = if (writeOperatorList kw n).2 = true then n else 0 := by
  have h1 : countPlaceHolders "(" = 0 := by decide
  have h2 : countPlaceHolders ")" = 0 := by decide
  unfold writeOperatorList
  split <;> simp [hk, h1, h2, countPlaceHolders_placeHolders]

theorem writeOperatorBinary_balanced (kw : String) (n : Nat) (hk : countPlaceHolders kw = 0)
    (hn : n ≤ 1) :
    countPlaceHolders (writeOperatorBinary kw n).1
      = if (writeOperatorBinary kw n).2 = true then n else 0 := by
  have h1 : countPlaceHolders "?" = 1 := by decide
  unfold writeOperatorBinary
  split
  · simp [hk, h1]; omega
  · simp [hk]

theorem writeOperator_balanced (n : Nat) (o : Op) (hb : o.isBetween = true → n = 2)
    (hc : o.isComparison = true → n ≤ 1) (hu : o = Op.unset → n ≤ 1) :
    ∃ r, writeOperator n o = .ok r ∧ countPlaceHolders r.1 = if r.2 = true then n else 0 := by
  cases o
  case Between =>
    have := hb rfl
    subst this
    exact ⟨(" BETWEEN ? AND ?", true), by simp [writeOperator], by decide⟩
  case NotBetween =>
    have := hb rfl
    subst this
    exact ⟨(" NOT BETWEEN ? AND ?", true), by simp [writeOperator], by decide⟩
  case unset => exact ⟨_, rfl, writeOperatorBinary_balanced _ _ (by decide) (hu rfl)⟩
  case Null => exact ⟨_, rfl, by simp only [Bool.false_eq_true, if_false]; decide⟩
  case NotNull => exact ⟨_, rfl, by simp only [Bool.false_eq_true, if_false]; decide⟩
  case Exists => exact ⟨_, rfl, by simp only [Bool.false_eq_true, if_false]; decide⟩
  case NotExists => exact ⟨_, rfl, by simp only [Bool.false_eq_true, if_false]; decide⟩
  case In => exact ⟨_, rfl, writeOperatorList_balanced _ _ (by decide)⟩
  case NotIn => exact ⟨_, rfl, writeOperatorList_balanced _ _ (by decide)⟩
  case Greatest => exact ⟨_, rfl, writeOperatorList_balanced _ _ (by decide)⟩
  case Least => exact ⟨_, rfl, writeOperatorList_balanced _ _ (by decide)⟩
  all_goals exact ⟨_, rfl, writeOperatorBinary_balanced _ _ (by decide) (hc rfl)⟩

theorem writeOperator_zero (o : Op) (hb : o.isBetween = false) :
    ∃ r, writeOperator 0 o = .ok r ∧ countPlaceHolders r.1 = 0 := by
  cases o <;> first
    | (simp [Op.isBetween] at hb; done)
    | exact ⟨_, rfl, by decide⟩


theorem appendArgsLoop_step (f : WhereFragment) (ho : f.Condition ≠ "(") (hc : f.Condition ≠ ")")
    (rest : WhereFragments) (args : Arguments) (pap : List Nat) (cnt : Nat)
    (h : f.IsExpression = true ∨ (f.IsPlaceHolder = false
      ∧ (f.Argument.isSet = true → ∃ r, writeOperator f.Argument.len f.Operator = .ok r)
      ∧ (f.Argument.isSet = false → ∀ s, f.SubSelect = some s → s.err = none))) :
    appendArgsLoop 'w' (f :: rest) args pap cnt
      = appendArgsLoop 'w' rest (args ++ fragmentArguments f) pap (cnt + 1) := by
  have hj : ¬ ('w' = 'j' ∧ f.Using.length > 0) := fun h => absurd h.1 (by decide)
  rcases h with he | ⟨hp, hs1, hs2⟩
  · rcases Bool.eq_false_or_eq_true f.Argument.isSet with hs | hs <;>
      simp [appendArgsLoop, fragmentArguments, ho, hc, he, hs]
  · rcases Bool.eq_false_or_eq_true f.IsExpression with he | he
    · rcases Bool.eq_false_or_eq_true f.Argument.isSet with hs | hs <;>
        simp [appendArgsLoop, fragmentArguments, ho, hc, he, hs]
    · rcases Bool.eq_false_or_eq_true f.Argument.isSet with hs | hs
      · obtain ⟨r, hr⟩ := hs1 hs
        rcases Bool.eq_false_or_eq_true r.2 with hr2 | hr2 <;>
          simp [appendArgsLoop, fragmentArguments, ho, hc, he, hs, hp, hr, hr2, addsArgument]
      · rcases Option.eq_none_or_eq_some f.SubSelect with hsub | ⟨s, hsub⟩
        · simp [appendArgsLoop, fragmentArguments, ho, hc, he, hs, hp, hsub]
        · have := hs2 hs s hsub
          simp [appendArgsLoop, fragmentArguments, ho, hc, he, hs, hp, hsub, this]

theorem writeOperator_noValue (o : Op) (h : o.takesNoValue = true) :
    ∃ r, writeOperator 1 (if o = Op.unset then Op.Null else o) = .ok r
      ∧ countPlaceHolders r.1 = 0 := by
  cases o <;> first
    | (simp [Op.takesNoValue] at h; done)
    | exact ⟨_, rfl, by decide⟩

theorem boundStep_of_directlyBound (f : WhereFragment) (hb : f.directlyBound = true)
    (ho : f.Condition ≠ "(") (hc : f.Condition ≠ ")") : BoundStep f := by
  have hm : ¬ (f.Condition = ")" ∨ f.Condition = "(") := by simp [ho, hc]
  rcases Bool.eq_false_or_eq_true f.IsExpression with he | he
  · -- an expression without operator
    simp only [WhereFragment.directlyBound, he, if_true, Bool.or_eq_true, beq_iff_eq, ho, hc,
      false_or, Bool.and_eq_true] at hb
    obtain ⟨hop, hcount⟩ := hb
    have hw : f.writeCondition = ⟨f.Condition, f, none⟩ := by
      simp [WhereFragment.writeCondition, he, hop]
    refine ⟨by rw [hw], ?_, ?_⟩
    · rw [hw]
      simp only [fragmentArguments, if_neg hm, he, if_true]
      exact hcount
    · intro rest args pap cnt
      rw [hw]
      exact appendArgsLoop_step f ho hc rest args pap cnt (Or.inl he)
  · simp only [WhereFragment.directlyBound, he, Bool.false_eq_true, if_false, Bool.or_eq_true,
      beq_iff_eq, ho, hc, false_or, Bool.and_eq_true, Bool.not_eq_true', Option.isNone_iff_eq_none]
      at hb
    obtain ⟨⟨⟨hp, hcond⟩, hargs⟩, hrest⟩ := hb
    have hq : countPlaceHolders (Quoter.WriteNameAlias f.Condition "") = 0 := by
      have h0 : countPlaceHolders "" = 0 := by decide
      simp [countPlaceHolders_WriteNameAlias, countPlaceHolders_of_noPlaceHolder _ hcond, h0]
    rcases Option.eq_none_or_eq_some f.SubSelect with hsub | ⟨s, hsub⟩
    · rcases Bool.eq_false_or_eq_true f.Argument.isSet with hs | hs
      · -- a column condition with a value
        simp only [hsub, hs, if_true, Bool.and_eq_true, Bool.or_eq_true, Bool.not_eq_true',
          beq_iff_eq, decide_eq_true_eq] at hrest
        obtain ⟨hbt, hcmp⟩ := hrest
        by_cases hin : ((if f.IsPlaceHolder = true then 1 else f.Argument.len) > 1
            && f.Operator == Op.unset) = true
        · have hin1 := hin
          simp only [hp, Bool.false_eq_true, if_false, Bool.and_eq_true, decide_eq_true_eq,
            beq_iff_eq] at hin1
          obtain ⟨r, hr, hr0⟩ := writeOperator_balanced f.Argument.len Op.In
            (fun h => by simp [Op.isBetween] at h) (fun h => by simp [Op.isComparison] at h)
            (fun h => by cases h)
          have hw : f.writeCondition = ⟨Quoter.WriteNameAlias f.Condition "" ++ r.1,
              { f with Operator := Op.In }, none⟩ := by
            simp only [WhereFragment.writeCondition, he, hsub, hargs, hs, hin,
              Bool.false_eq_true, if_false, if_true]
            simp [writeOperatorAfter, hp, hr]
          have hadd : addsArgument f.Argument.len Op.In = r.2 := by simp [addsArgument, hr]
          refine ⟨by rw [hw], ?_, ?_⟩
          · rw [hw]
            rcases Bool.eq_false_or_eq_true r.2 with hr2 | hr2 <;>
              simp [fragmentArguments, hm, he, hp, hs, hadd, hr2, hq, hr0, slots,
                WhereFragment.argumentsList, hargs]
          · intro rest args pap cnt
            rw [hw]
            exact appendArgsLoop_step { f with Operator := Op.In } ho hc rest args pap cnt
              (Or.inr ⟨hp, fun _ => ⟨r, hr⟩, fun h => by
                have : f.Argument.isSet = false := h
                rw [hs] at this; exact absurd this (by decide)⟩)
        · have hin1 := hin
          simp only [hp, Bool.false_eq_true, if_false, Bool.and_eq_true, decide_eq_true_eq,
            beq_iff_eq, not_and] at hin1
          obtain ⟨r, hr, hr0⟩ := writeOperator_balanced f.Argument.len f.Operator
            (fun h => by rcases hbt with h1 | h1 <;> simp_all)
            (fun h => by rcases hcmp with h1 | h1 <;> simp_all)
            (fun h => by by_contra hgt; exact hin1 (by omega) h)
          have hw : f.writeCondition
              = ⟨Quoter.WriteNameAlias f.Condition "" ++ r.1, f, none⟩ := by
            simp only [WhereFragment.writeCondition, he, hsub, hargs, hs, hin,
              Bool.false_eq_true, if_false, if_true]
            simp [writeOperatorAfter, hp, hr]
          have hadd : addsArgument f.Argument.len f.Operator = r.2 := by simp [addsArgument, hr]
          refine ⟨by rw [hw], ?_, ?_⟩
          · rw [hw]
            rcases Bool.eq_false_or_eq_true r.2 with hr2 | hr2 <;>
              simp [fragmentArguments, hm, he, hp, hs, hadd, hr2, hq, hr0, slots,
                WhereFragment.argumentsList, hargs]
          · intro rest args pap cnt
            rw [hw]
            exact appendArgsLoop_step _ ho hc rest args pap cnt
              (Or.inr ⟨hp, fun _ => ⟨r, hr⟩, fun h => by
                rw [hs] at h; exact absurd h (by decide)⟩)
      · -- a column condition without a value
        simp only [hsub, hs, Bool.false_eq_true, if_false] at hrest
        obtain ⟨r, hr, hr0⟩ := writeOperator_noValue f.Operator hrest
        have hw : f.writeCondition
            = ⟨Quoter.WriteNameAlias f.Condition "" ++ r.1, f, none⟩ := by
          simp only [WhereFragment.writeCondition, he, hsub, hargs, hs,
            Bool.false_eq_true, if_false]
          simp [writeOperatorAfter, hr]
        refine ⟨by rw [hw], ?_, ?_⟩
        · rw [hw]
          simp [fragmentArguments, hm, he, hp, hs, hsub, hq, hr0, slots]
        · intro rest args pap cnt
          rw [hw]
          exact appendArgsLoop_step _ ho hc rest args pap cnt
            (Or.inr ⟨hp, fun h => by rw [hs] at h; exact absurd h (by decide),
              fun _ s1 h1 => by rw [hsub] at h1; cases h1⟩)
    · -- a sub-select
      simp only [hsub, Bool.and_eq_true, Bool.not_eq_true', Option.isNone_iff_eq_none,
        beq_iff_eq] at hrest
      obtain ⟨⟨⟨hs, hse⟩, hbt⟩, hcount⟩ := hrest
      obtain ⟨r, hr, hr0⟩ := writeOperator_zero f.SubOperator hbt
      have h1 : countPlaceHolders "(" = 0 := by decide
      have h2 : countPlaceHolders ")" = 0 := by decide
      have hw : f.writeCondition
          = ⟨Quoter.WriteNameAlias f.Condition "" ++ r.1 ++ "(" ++ s.text ++ ")", f, none⟩ := by
        simp [WhereFragment.writeCondition, he, hsub, writeOperatorAfter, hr, hse]
      refine ⟨by rw [hw], ?_, ?_⟩
      · rw [hw]
        simp [fragmentArguments, hm, he, hp, hs, hsub, hq, hr0, h1, h2, hcount]
      · intro rest args pap cnt
        rw [hw]
        exact appendArgsLoop_step f ho hc rest args pap cnt
          (Or.inr ⟨hp, fun h => by rw [hs] at h; exact absurd h (by decide),
            fun _ s1 h1 => by rw [hsub] at h1; cases h1; exact hse⟩)

theorem countPlaceHolders_connector (l : Char) : countPlaceHolders (connector l) = 0 := by
  unfold connector
  repeat' split
  all_goals decide

theorem boundLoop : ∀ (wfs : WhereFragments) (i : Nat),
    (∀ f ∈ wfs, f.directlyBound = true) →
    (writeLoop 'w' i wfs).err = none
    ∧ countPlaceHolders (writeLoop 'w' i wfs).text
        = slots (whereArguments (writeLoop 'w' i wfs).state)
    ∧ ∀ (args : Arguments) (pap : List Nat) (cnt : Nat),
        appendArgsLoop 'w' (writeLoop 'w' i wfs).state args pap cnt
          = ⟨args ++ whereArguments (writeLoop 'w' i wfs).state, pap, none⟩
  | [], i, _ => by
      refine ⟨by simp [writeLoop], by simp [writeLoop, whereArguments, slots]; decide, ?_⟩
      intro args pap cnt
      simp [writeLoop, appendArgsLoop, whereArguments]
  | f :: rest, i, hb => by
      have hj : ¬ ('w' = 'j' ∧ f.Using.length > 0) := fun h => absurd h.1 (by decide)
      have hj2 : ¬ ('w' = 'j' ∧ i = 0) := fun h => absurd h.1 (by decide)
      have h0 : countPlaceHolders "" = 0 := by decide
      have h1 : countPlaceHolders "(" = 0 := by decide
      have h2 : countPlaceHolders ")" = 0 := by decide
      have hlead : countPlaceHolders (if i > 0 then connector f.Logical else "") = 0 := by
        split
        · exact countPlaceHolders_connector _
        · exact h0
      have ih := fun j => boundLoop rest j (fun g hg => hb g (by simp [hg]))
      by_cases hc : f.Condition = ")"
      · obtain ⟨e, c, a⟩ := ih i
        have hw : writeLoop 'w' i (f :: rest) = (writeLoop 'w' i rest).push ("" ++ ")") f := by
          simp [writeLoop, hc]
        have hfa : fragmentArguments f = [] := by simp [fragmentArguments, hc]
        rw [hw]
        refine ⟨e, ?_, ?_⟩
        · simp [Written.push, whereArguments, hfa, h0, h2, c]
        · intro args pap cnt
          simp [Written.push, whereArguments, hfa, appendArgsLoop, hc, a]
      · by_cases ho : f.Condition = "("
        · obtain ⟨e, c, a⟩ := ih 0
          have hw : writeLoop 'w' i (f :: rest) = (writeLoop 'w' 0 rest).push
              ("" ++ (if i > 0 then connector f.Logical else "") ++ "(") f := by
            simp [writeLoop, hc, ho]
          have hfa : fragmentArguments f = [] := by simp [fragmentArguments, ho]
          rw [hw]
          refine ⟨e, ?_, ?_⟩
          · simp [Written.push, whereArguments, hfa, h0, h1, hlead, c]
          · intro args pap cnt
            simp [Written.push, whereArguments, hfa, appendArgsLoop, ho, a]
        · obtain ⟨e, c, a⟩ := ih (i + 1)
          obtain ⟨hne, hbal, hstep⟩ := boundStep_of_directlyBound f (hb f (by simp)) ho hc
          have hw : writeLoop 'w' i (f :: rest) = (writeLoop 'w' (i + 1) rest).push
              ("" ++ (if i > 0 then connector f.Logical else "") ++ "("
                ++ f.writeCondition.text ++ ")") f.writeCondition.state := by
            simp [writeLoop, hc, ho, hne]
          rw [hw]
          refine ⟨e, ?_, ?_⟩
          · simp [Written.push, whereArguments, h0, h1, h2, hlead, c, hbal]
          · intro args pap cnt
            simp only [Written.push, whereArguments]
            rw [hstep, a]
            simp

theorem boundWhere (wfs : WhereFragments) (hb : ∀ f ∈ wfs, f.directlyBound = true) :
    (WhereFragments.write wfs 'w').err = none
    ∧ ∀ (args : Arguments),
        (WhereFragments.appendArgs (WhereFragments.write wfs 'w').state args 'w').err = none
        ∧ (WhereFragments.appendArgs (WhereFragments.write wfs 'w').state args 'w').pendingArgPos = []
        ∧ countPlaceHolders (WhereFragments.write wfs 'w').text + slots args
            = slots (WhereFragments.appendArgs (WhereFragments.write wfs 'w').state args 'w').args := by
  by_cases h : wfs.length = 0
  · have h0 : countPlaceHolders "" = 0 := by decide
    simp [WhereFragments.write, WhereFragments.appendArgs, h, h0]
  · obtain ⟨e, c, a⟩ := boundLoop wfs 0 hb
    have hs : (writeLoop 'w' 0 wfs).state.length ≠ 0 := by
      rw [writeLoop_state_length]; exact h
    have hk : countPlaceHolders (clauseKeyword 'w') = 0 := by decide
    refine ⟨by simp [WhereFragments.write, h, e], ?_⟩
    intro args
    simp only [WhereFragments.write, h, if_false, WhereFragments.appendArgs, hs, a,
      countPlaceHolders_append, hk, c, slots_append]
    refine ⟨trivial, trivial, by omega⟩

/-- C1, amended. For every Update built through the fluent builder (no raw
SQL, no recorded error, a table name and at least one SET column) whose
placeholders all have their value at build time, both passes succeed and the
text written by `toSQL` has as many `?` as the arguments that `appendArgs`
adds to the sequence passed in cover slots. -/
theorem directly_bound_update_balanced (b : Update) (args : Arguments)
    (hraw : b.RawFullSQL = "") (herr : b.previousError = none)
    (htable : b.Table.Name.length ≠ 0) (hcols : b.SetClauses.Columns.length ≠ 0)
    (hbound : b.directlyBound = true) :
    b.toSQL.err = none
    ∧ ∃ r, b.toSQL.state.appendArgs args = .ok r
      ∧ countPlaceHolders b.toSQL.text + slots args = slots r := by
  simp only [Update.directlyBound, Bool.and_eq_true, Option.isNone_iff_eq_none, beq_iff_eq,
    List.all_eq_true] at hbound
  obtain ⟨⟨⟨⟨⟨⟨⟨hrec, hlen⟩, hargs⟩, hcn⟩, htn⟩, hta⟩, hob⟩, hwf⟩ := hbound
  obtain ⟨hwe, hwa⟩ := boundWhere b.WhereFragments hwf
  obtain ⟨ha1, ha2, ha3⟩ := hwa (args ++ setArguments b.SetClauses.Arguments)
  have hset := countPlaceHolders_writeSetClauses b.SetClauses.Columns [] b.SetClauses.Arguments
    hlen hcn hargs
  simp only [List.nil_append, List.length_nil] at hset
  have hk1 : countPlaceHolders "UPDATE " = 0 := by decide
  have hk2 : countPlaceHolders " SET " = 0 := by decide
  have hsql : b.toSQL = ⟨"UPDATE " ++ b.Table.FquoteAs ++ " SET "
        ++ writeSetClauses b.SetClauses.Arguments 0 b.SetClauses.Columns
        ++ (WhereFragments.write b.WhereFragments 'w').text ++ sqlWriteOrderBy b.OrderBys
        ++ sqlWriteLimitOffset b.LimitValid b.LimitCount b.OffsetValid b.OffsetCount,
      { b with WhereFragments := (WhereFragments.write b.WhereFragments 'w').state }, none⟩ := by
    simp [Update.toSQL, herr, hraw, htable, hcols, hwe]
  rw [hsql]
  refine ⟨rfl, (WhereFragments.appendArgs (WhereFragments.write b.WhereFragments 'w').state
    (args ++ setArguments b.SetClauses.Arguments) 'w').args, ?_, ?_⟩
  · simp only [Update.appendArgs, herr, hraw, hrec, assembleSet, ne_eq, not_true_eq_false,
      if_false, ha1, ha2, appendAssembledArgs]
  · simp only [countPlaceHolders_append, hk1, hk2, hset,
      countPlaceHolders_FquoteAs b.Table htn hta, countPlaceHolders_sqlWriteOrderBy b.OrderBys hob,
      countPlaceHolders_sqlWriteLimitOffset]
    rw [slots_append] at ha3
    omega

/-- The amended C1 at the statement of `ExampleSQLCase_update`. -/
theorem directly_bound_update_balanced_witness :
    updateSQLCase.toSQL.err = none
    ∧ ∃ r, updateSQLCase.toSQL.state.appendArgs [] = .ok r
      ∧ countPlaceHolders updateSQLCase.toSQL.text + slots [] = slots r :=
  directly_bound_update_balanced updateSQLCase [] rfl rfl (by decide) (by decide) (by rfl)

/-! ## IS NULL and IS NOT NULL (C11) -/

/-- C11, as stated, fails on an expression and on a sub-select condition:
`Expression("d", ArgInt(3)).Null()` is written as `(d IS NULL)` while the
argument pass appends `3`, and a sub-select condition with the operator IS
NULL is written with the two placeholders of its sub-select, whose two
arguments are appended. -/
theorem null_operator_on_expression_and_subselect :
    fragmentExpressionNull.Operator = Op.Null
    ∧ (WhereFragments.write [fragmentExpressionNull] 'w').text = " WHERE (d IS NULL)"
    ∧ (WhereFragments.appendArgs [fragmentExpressionNull] [] 'w').args = [Argument.int 3]
    ∧ fragmentSubNull.Operator = Op.Null ∧ fragmentSubNull.SubOperator = Op.Null
    ∧ (WhereFragments.write [fragmentSubNull] 'w').text
        = " WHERE (`entity_id` IS NULL(SELECT `entity_id` FROM `catalog_category_product` WHERE (`category_id` = ?) AND (`position` = ?)))"
    ∧ (WhereFragments.appendArgs [fragmentSubNull] [] 'w').args
        = [Argument.int 234, Argument.int 5] := by
  refine ⟨by rfl, by rfl, by rfl, by rfl, by rfl, by rfl, by rfl⟩

/-- C11, amended. For every fragment that is a column condition (no expression,
no sub-select, no `Arguments` slice, no parenthesis marker) with the operator
IS NULL or IS NOT NULL, whether an argument value was set on it or not, the
text pass writes the quoted column followed by ` IS NULL` or ` IS NOT NULL`
and no placeholder, and the argument pass moves on to the next fragment with
the argument sequence unchanged. -/
theorem null_condition_binds_nothing (f : WhereFragment) (rest : WhereFragments)
    (args : Arguments) (pap : List Nat) (cnt : Nat) (conditionType : Char)
    (hexpr : f.IsExpression = false) (hsub : f.SubSelect = none) (hargs : f.Arguments = none)
    (hop : f.Operator = Op.Null ∨ f.Operator = Op.NotNull)
    (ho : f.Condition ≠ "(") (hc : f.Condition ≠ ")")
    (hu : conditionType = 'j' → f.Using.length = 0) :
    f.writeCondition.err = none
    ∧ f.writeCondition.text = Quoter.WriteNameAlias f.Condition ""
        ++ (if f.Operator = Op.Null then " IS NULL" else " IS NOT NULL")
    ∧ appendArgsLoop conditionType (f :: rest) args pap cnt
        = appendArgsLoop conditionType rest args
            (if f.IsPlaceHolder = true then pap ++ [cnt] else pap) (cnt + 1) := by
  have hj : ¬ (conditionType = 'j' ∧ f.Using.length > 0) := fun h => by
    have := hu h.1; omega
  have hw : ∀ n, writeOperator n f.Operator
      = .ok (if f.Operator = Op.Null then " IS NULL" else " IS NOT NULL", false) := by
    intro n; rcases hop with h | h <;> rw [h] <;> rfl
  have hun : (f.Operator == Op.unset) = false := by
    rcases hop with h | h <;> rw [h] <;> rfl
  have hun2 : ¬ f.Operator = Op.unset := by
    rcases hop with h | h <;> rw [h] <;> decide
  rcases Bool.eq_false_or_eq_true f.Argument.isSet with hs | hs
  · refine ⟨?_, ?_, ?_⟩
    · simp [WhereFragment.writeCondition, hexpr, hsub, hargs, hs, hun, writeOperatorAfter, hw]
    · simp [WhereFragment.writeCondition, hexpr, hsub, hargs, hs, hun, writeOperatorAfter, hw]
    · rcases Bool.eq_false_or_eq_true f.IsPlaceHolder with hp | hp <;>
        simp [appendArgsLoop, hj, ho, hc, hexpr, hp, hs, hw]
  · refine ⟨?_, ?_, ?_⟩
    · simp [WhereFragment.writeCondition, hexpr, hsub, hargs, hs, hun2, writeOperatorAfter, hw]
    · simp [WhereFragment.writeCondition, hexpr, hsub, hargs, hs, hun2, writeOperatorAfter, hw]
    · rcases Bool.eq_false_or_eq_true f.IsPlaceHolder with hp | hp <;>
        simp [appendArgsLoop, hj, ho, hc, hexpr, hp, hs, hw, hsub]

/-- The amended C11 at `Column("d").Int(3).Null()`, with the text and the empty
argument sequence of `ExampleArguments`. -/
theorem null_condition_binds_nothing_witness :
    (fragmentIntNull.writeCondition.err = none
      ∧ fragmentIntNull.writeCondition.text = Quoter.WriteNameAlias fragmentIntNull.Condition ""
          ++ (if fragmentIntNull.Operator = Op.Null then " IS NULL" else " IS NOT NULL")
      ∧ appendArgsLoop 'w' (fragmentIntNull :: []) [] [] 0
          = appendArgsLoop 'w' [] []
              (if fragmentIntNull.IsPlaceHolder = true then [] ++ [0] else []) (0 + 1))
    ∧ (WhereFragments.write [fragmentIntNull] 'w').text = " WHERE (`d` IS NULL)"
    ∧ (WhereFragments.appendArgs [fragmentIntNull] [] 'w').args = [] :=
  ⟨null_condition_binds_nothing fragmentIntNull [] [] [] 0 'w' rfl rfl rfl (Or.inl rfl)
    (by decide) (by decide) (by decide), by rfl, by rfl⟩

/-! ## The IN default of a multi-value argument (C12) -/

/-- C12. A column condition `f` with a direct argument of more than one value,
no `Arguments` slice and no operator is written with the operator IN and as
many placeholders as the argument has values, and keeps IN as its operator; a
deferred column condition `g` is written by `writeOperator` with the count one
and keeps its operator. -/
theorem multi_value_defaults_to_in (f g : WhereFragment)
    (hexpr : f.IsExpression = false) (hsub : f.SubSelect = none) (hargs : f.Arguments = none)
    (hset : f.Argument.isSet = true) (hph : f.IsPlaceHolder = false)
    (hlen : 1 < f.Argument.len) (hop : f.Operator = Op.unset)
    (gexpr : g.IsExpression = false) (gsub : g.SubSelect = none) (gargs : g.Arguments = none)
    (gset : g.Argument.isSet = true) (gph : g.IsPlaceHolder = true) :
    f.writeCondition
        = ⟨Quoter.WriteNameAlias f.Condition "" ++ " IN (" ++ placeHolders f.Argument.len ++ ")",
            { f with Operator := Op.In }, none⟩
    ∧ g.writeCondition
        = ⟨(writeOperatorAfter (Quoter.WriteNameAlias g.Condition "") 1 g.Operator).1, g,
            (writeOperatorAfter (Quoter.WriteNameAlias g.Condition "") 1 g.Operator).2⟩ := by
  constructor
  · have hpos : f.Argument.len > 0 := by omega
    simp [WhereFragment.writeCondition, hexpr, hsub, hargs, hset, hph, hlen, hop,
      writeOperatorAfter, writeOperator, writeOperatorList, hpos, String.append_assoc]
  · simp [WhereFragment.writeCondition, gexpr, gsub, gargs, gset, gph]

/-- C12 at `Column("a").Ints(1, 2, 3)` and `Column("b").PlaceHolder()`, with the
texts written for them. -/
theorem multi_value_defaults_to_in_witness :
    (fragmentThreeValues.writeCondition
        = ⟨Quoter.WriteNameAlias fragmentThreeValues.Condition "" ++ " IN ("
              ++ placeHolders fragmentThreeValues.Argument.len ++ ")",
            { fragmentThreeValues with Operator := Op.In }, none⟩
      ∧ fragmentPlaceHolder.writeCondition
        = ⟨(writeOperatorAfter (Quoter.WriteNameAlias fragmentPlaceHolder.Condition "") 1
              fragmentPlaceHolder.Operator).1, fragmentPlaceHolder,
            (writeOperatorAfter (Quoter.WriteNameAlias fragmentPlaceHolder.Condition "") 1
              fragmentPlaceHolder.Operator).2⟩)
    ∧ (WhereFragments.write [fragmentThreeValues, fragmentPlaceHolder] 'w').text
        = " WHERE (`a` IN (?,?,?)) AND (`b` = ?)" :=
  ⟨multi_value_defaults_to_in fragmentThreeValues fragmentPlaceHolder rfl rfl rfl rfl rfl
    (by decide) rfl rfl rfl rfl rfl rfl, by rfl⟩

/-! ## Sub-select conditions (C13) -/

/-- C13. For a fragment that carries only a sub-select: when the sub-select is
built without error, the text pass writes the quoted column, the text of the
sub-select's operator and the sub-select's SQL in parentheses, and the
argument pass appends exactly the sub-select's arguments before it moves on,
so that in a WHERE list they stand after the arguments of the earlier
fragments and before those of the later ones; when the sub-select returns an
error, both passes return it wrapped. -/
theorem subselect_condition_passes (f : WhereFragment) (s : Select) (pre post : WhereFragments)
    (args : Arguments) (pap : List Nat) (cnt : Nat) (conditionType : Char)
    (hsub : f.SubSelect = some s) (hexpr : f.IsExpression = false)
    (hph : f.IsPlaceHolder = false) (hset : f.Argument.isSet = false)
    (ho : f.Condition ≠ "(") (hc : f.Condition ≠ ")")
    (hu : conditionType = 'j' → f.Using.length = 0) :
    (∀ r, writeOperator 0 f.SubOperator = .ok r → s.err = none →
        f.writeCondition
          = ⟨Quoter.WriteNameAlias f.Condition "" ++ r.1 ++ "(" ++ s.text ++ ")", f, none⟩)
    ∧ (s.err = none →
        appendArgsLoop conditionType (f :: post) args pap cnt
          = appendArgsLoop conditionType post (args ++ s.args) pap (cnt + 1))
    ∧ ((WhereFragments.appendArgs (pre ++ f :: post) args 'w').err = none →
        (WhereFragments.appendArgs (pre ++ f :: post) args 'w').args
          = args ++ whereArguments pre ++ s.args ++ whereArguments post)
    ∧ (∀ e, s.err = some e →
        (∀ r, writeOperator 0 f.SubOperator = .ok r →
          f.writeCondition.err = some (Error.Wrap (subSelectMsg s) e))
        ∧ (appendArgsLoop conditionType (f :: post) args pap cnt).err
            = some (Error.Wrap (subSelectMsg s) e)) := by
  have hj : ¬ (conditionType = 'j' ∧ f.Using.length > 0) := fun h => by
    have := hu h.1; omega
  have hfa : fragmentArguments f = s.args := by
    simp [fragmentArguments, ho, hc, hexpr, hph, hset, hsub]
  refine ⟨?_, ?_, ?_, ?_⟩
  · intro r hr hs
    simp [WhereFragment.writeCondition, hexpr, hsub, writeOperatorAfter, hr, hs]
  · intro hs
    simp [appendArgsLoop, hj, ho, hc, hexpr, hph, hset, hsub, hs]
  · intro hok
    rw [appendArgs_where _ _ hok]
    have hwa : ∀ (a b : WhereFragments), whereArguments (a ++ b)
        = whereArguments a ++ whereArguments b := by
      intro a b
      induction a with
      | nil => simp [whereArguments]
      | cons x xs ih => simp [whereArguments, ih]
    simp [hwa, whereArguments, hfa]
  · intro e hs
    refine ⟨?_, ?_⟩
    · intro r hr
      simp [WhereFragment.writeCondition, hexpr, hsub, writeOperatorAfter, hr, hs]
    · simp [appendArgsLoop, hj, ho, hc, hexpr, hph, hset, hsub, hs]

/-- C13 at the condition of `ExampleCondition_Sub`, with the text and the
argument of its expected output. -/
theorem subselect_condition_passes_witness :
    ((∀ r, writeOperator 0 fragmentSubCategory.SubOperator = .ok r → selectCategory.err = none →
        fragmentSubCategory.writeCondition
          = ⟨Quoter.WriteNameAlias fragmentSubCategory.Condition "" ++ r.1 ++ "("
              ++ selectCategory.text ++ ")", fragmentSubCategory, none⟩)
      ∧ (selectCategory.err = none →
        appendArgsLoop 'w' (fragmentSubCategory :: []) [] [] 0
          = appendArgsLoop 'w' [] ([] ++ selectCategory.args) [] (0 + 1))
      ∧ ((WhereFragments.appendArgs ([] ++ fragmentSubCategory :: []) [] 'w').err = none →
        (WhereFragments.appendArgs ([] ++ fragmentSubCategory :: []) [] 'w').args
          = [] ++ whereArguments [] ++ selectCategory.args ++ whereArguments [])
      ∧ (∀ e, selectCategory.err = some e →
        (∀ r, writeOperator 0 fragmentSubCategory.SubOperator = .ok r →
          fragmentSubCategory.writeCondition.err = some (Error.Wrap (subSelectMsg selectCategory) e))
        ∧ (appendArgsLoop 'w' (fragmentSubCategory :: []) [] [] 0).err
            = some (Error.Wrap (subSelectMsg selectCategory) e)))
    ∧ (WhereFragments.write [fragmentSubCategory] 'w').text
        = " WHERE (`entity_id` IN (SELECT `entity_id` FROM `catalog_category_product` WHERE (`category_id` = ?)))"
    ∧ (WhereFragments.appendArgs [fragmentSubCategory] [] 'w').args = [Argument.int 234] :=
  ⟨subselect_condition_passes fragmentSubCategory selectCategory [] [] [] [] 0 'w' rfl rfl rfl rfl
    (by decide) (by decide) (by decide), by rfl, by rfl⟩

/-! ## USING ends a join condition list (C14, C15) -/

theorem writeLoop_until_using (f : WhereFragment) (post : WhereFragments)
    (hf : 0 < f.Using.length) :
    ∀ (pre : WhereFragments) (i : Nat), (∀ g ∈ pre, g.Using.length = 0) →
      (writeLoop 'j' i (pre ++ f :: post)).err = (writeLoop 'j' i pre).err
      ∧ (writeLoop 'j' i (pre ++ f :: post)).text
          = (writeLoop 'j' i pre).text
            ++ (if (writeLoop 'j' i pre).err = none then " USING (" ++ usingColumns f.Using ++ ")"
                else "")
  | [], i, _ => by simp [writeLoop, hf]
  | g :: pre, i, hpre => by
      have hg : ¬ (0 < g.Using.length) := fun h => by
        have := hpre g (by simp); omega
      have ih := fun j => writeLoop_until_using f post hf pre j (fun q hq => hpre q (by simp [hq]))
      rw [List.cons_append]
      simp only [writeLoop, true_and, gt_iff_lt, hg, if_false]
      by_cases hc : g.Condition = ")"
      · simp only [hc, if_true, Written.push]
        exact ⟨(ih i).1, by rw [(ih i).2]; simp [String.append_assoc]⟩
      · simp only [hc, if_false]
        by_cases ho : g.Condition = "("
        · simp only [ho, if_true, Written.push]
          exact ⟨(ih 0).1, by rw [(ih 0).2]; simp [String.append_assoc]⟩
        · simp only [ho, if_false]
          cases hge : g.writeCondition.err with
          | some e => simp
          | none =>
            simp only [Written.push]
            exact ⟨(ih (i + 1)).1, by rw [(ih (i + 1)).2]; simp [String.append_assoc]⟩

theorem appendArgsLoop_until_using (f : WhereFragment) (post : WhereFragments)
    (hf : 0 < f.Using.length) :
    ∀ (pre : WhereFragments) (args : Arguments) (pap : List Nat) (cnt : Nat),
      (∀ g ∈ pre, g.Using.length = 0) →
      appendArgsLoop 'j' (pre ++ f :: post) args pap cnt = appendArgsLoop 'j' pre args pap cnt
  | [], args, pap, cnt, _ => by simp [appendArgsLoop, hf]
  | g :: pre, args, pap, cnt, hpre => by
      have hg : ¬ (0 < g.Using.length) := fun h => by
        have := hpre g (by simp); omega
      have ih := fun a p c => appendArgsLoop_until_using f post hf pre a p c
        (fun q hq => hpre q (by simp [hq]))
      rw [List.cons_append]
      simp only [appendArgsLoop, true_and, gt_iff_lt, hg, if_false, ih]

theorem writeCondition_withoutUsing (g : WhereFragment) :
    ({ g with Using := [] } : WhereFragment).writeCondition.text = g.writeCondition.text
    ∧ ({ g with Using := [] } : WhereFragment).writeCondition.err = g.writeCondition.err := by
  obtain ⟨c, o, a, as, ss, so, l, ie, ip, u⟩ := g
  cases ie <;> cases ss <;> cases as <;>
    simp only [WhereFragment.writeCondition, WhereFragment.argumentsLen,
      WhereFragment.argumentsList, Bool.false_eq_true, if_false, if_true] <;>
    (repeat' split) <;> first | exact ⟨rfl, rfl⟩ | trivial

theorem writeLoop_withoutUsing (ct : Char) (hct : ct ≠ 'j') :
    ∀ (wfs : WhereFragments) (i : Nat),
      (writeLoop ct i (withoutUsing wfs)).text = (writeLoop ct i wfs).text
      ∧ (writeLoop ct i (withoutUsing wfs)).err = (writeLoop ct i wfs).err
  | [], i => by simp [withoutUsing, writeLoop]
  | g :: rest, i => by
      have ih := fun j => writeLoop_withoutUsing ct hct rest j
      obtain ⟨ht, he⟩ := writeCondition_withoutUsing g
      simp only [withoutUsing, List.map_cons] at ih ⊢
      simp only [writeLoop, hct, false_and, if_false]
      by_cases hc : g.Condition = ")"
      · simp only [hc, if_true, Written.push]
        exact ⟨by rw [(ih i).1], (ih i).2⟩
      · simp only [hc, if_false]
        by_cases ho : g.Condition = "("
        · simp only [ho, if_true, Written.push]
          exact ⟨by rw [(ih 0).1], (ih 0).2⟩
        · simp only [ho, if_false, ht, he]
          cases hge : g.writeCondition.err with
          | some e => simp
          | none =>
            simp only [Written.push]
            exact ⟨by rw [(ih (i + 1)).1], (ih (i + 1)).2⟩

theorem appendArgsLoop_withoutUsing (ct : Char) (hct : ct ≠ 'j') :
    ∀ (wfs : WhereFragments) (args : Arguments) (pap : List Nat) (cnt : Nat),
      appendArgsLoop ct (withoutUsing wfs) args pap cnt = appendArgsLoop ct wfs args pap cnt
  | [], args, pap, cnt => by simp [withoutUsing, appendArgsLoop]
  | g :: rest, args, pap, cnt => by
      have ih := fun a p c => appendArgsLoop_withoutUsing ct hct rest a p c
      simp only [withoutUsing, List.map_cons] at ih ⊢
      simp only [appendArgsLoop, hct, false_and, if_false, ih, WhereFragment.argumentsList]

/-- C14. In join mode, when the list reaches its first fragment with a
non-empty `Using` list (the fragments before it are written without error),
`WhereFragments.write` ends its text with ` USING (`, the quoted columns
joined by commas and `)` and returns no error, and `WhereFragments.appendArgs`
returns what it returns for the fragments before that fragment: neither it nor
a later fragment contributes text or arguments. In WHERE and HAVING mode both
passes yield what they yield for the list without the `Using` lists. -/
theorem using_ends_join_conditions (pre post wfs : WhereFragments) (f : WhereFragment)
    (args : Arguments) (conditionType : Char)
    (hf : 0 < f.Using.length) (hpre : ∀ g ∈ pre, g.Using.length = 0)
    (hok : (WhereFragments.write pre 'j').err = none)
    (hct : conditionType = 'w' ∨ conditionType = 'h') :
    (WhereFragments.write (pre ++ f :: post) 'j').text
        = (WhereFragments.write pre 'j').text ++ " USING (" ++ usingColumns f.Using ++ ")"
    ∧ (WhereFragments.write (pre ++ f :: post) 'j').err = none
    ∧ WhereFragments.appendArgs (pre ++ f :: post) args 'j' = WhereFragments.appendArgs pre args 'j'
    ∧ (WhereFragments.write wfs conditionType).text
        = (WhereFragments.write (withoutUsing wfs) conditionType).text
    ∧ (WhereFragments.write wfs conditionType).err
        = (WhereFragments.write (withoutUsing wfs) conditionType).err
    ∧ WhereFragments.appendArgs wfs args conditionType
        = WhereFragments.appendArgs (withoutUsing wfs) args conditionType := by
  have hl : ¬ (pre ++ f :: post).length = 0 := by simp
  have hk : clauseKeyword 'j' = "" := by decide
  have hj := clauseKeyword_where_having _ hct
  obtain ⟨he, ht⟩ := writeLoop_until_using f post hf pre 0 hpre
  have hpre0 : (writeLoop 'j' 0 pre).err = none := by
    by_cases h : pre.length = 0
    · have : pre = [] := List.length_eq_zero.mp h
      subst this; simp [writeLoop]
    · simpa [WhereFragments.write, h] using hok
  have hwpre : (WhereFragments.write pre 'j').text = (writeLoop 'j' 0 pre).text := by
    by_cases h : pre.length = 0
    · have : pre = [] := List.length_eq_zero.mp h
      subst this; simp [WhereFragments.write, writeLoop]
    · simp [WhereFragments.write, h, hk]
  have hlw : (withoutUsing wfs).length = wfs.length := by simp [withoutUsing]
  refine ⟨?_, ?_, ?_, ?_, ?_, ?_⟩
  · rw [hwpre]
    simp [WhereFragments.write, hk, ht, hpre0, String.append_assoc]
  · simp [WhereFragments.write, he, hpre0]
  · by_cases h : pre.length = 0
    · have : pre = [] := List.length_eq_zero.mp h
      subst this
      simp [WhereFragments.appendArgs, appendArgsLoop, hf]
    · simp only [WhereFragments.appendArgs, hl, h, if_false]
      exact appendArgsLoop_until_using f post hf pre args [] args.length hpre
  · simp only [WhereFragments.write, hlw]
    split
    · rfl
    · simp [(writeLoop_withoutUsing conditionType hj wfs 0).1]
  · simp only [WhereFragments.write, hlw]
    split
    · rfl
    · simp [(writeLoop_withoutUsing conditionType hj wfs 0).2]
  · simp only [WhereFragments.appendArgs, hlw]
    split
    · rfl
    · rw [appendArgsLoop_withoutUsing conditionType hj]

/-- C14 at the join list `Column("a").Int(1)`, `Using("b", "c")`,
`Column("d").Int(2)` and, in WHERE mode, at the same list. -/
theorem using_ends_join_conditions_witness :
    ((WhereFragments.write ([(Column "a").arg (Argument.int 1)] ++ Using ["b", "c"]
          :: [(Column "d").arg (Argument.int 2)]) 'j').text
        = (WhereFragments.write [(Column "a").arg (Argument.int 1)] 'j').text
          ++ " USING (" ++ usingColumns (Using ["b", "c"]).Using ++ ")"
      ∧ (WhereFragments.write ([(Column "a").arg (Argument.int 1)] ++ Using ["b", "c"]
          :: [(Column "d").arg (Argument.int 2)]) 'j').err = none
      ∧ WhereFragments.appendArgs ([(Column "a").arg (Argument.int 1)] ++ Using ["b", "c"]
          :: [(Column "d").arg (Argument.int 2)]) [] 'j'
        = WhereFragments.appendArgs [(Column "a").arg (Argument.int 1)] [] 'j'
      ∧ (WhereFragments.write joinOnThenUsing 'w').text
        = (WhereFragments.write (withoutUsing joinOnThenUsing) 'w').text
      ∧ (WhereFragments.write joinOnThenUsing 'w').err
        = (WhereFragments.write (withoutUsing joinOnThenUsing) 'w').err
      ∧ WhereFragments.appendArgs joinOnThenUsing [] 'w'
        = WhereFragments.appendArgs (withoutUsing joinOnThenUsing) [] 'w')
    ∧ (WhereFragments.write joinOnThenUsing 'j').text = " ON (`a` = ?) USING (`b`,`c`)"
    ∧ (WhereFragments.appendArgs joinOnThenUsing [] 'j').args = [Argument.int 1]
    ∧ (WhereFragments.write joinOnThenUsing 'w').text
        = " WHERE (`a` = ?) AND (`` IS NULL) AND (`d` = ?)" :=
  ⟨using_ends_join_conditions [(Column "a").arg (Argument.int 1)]
      [(Column "d").arg (Argument.int 2)] joinOnThenUsing (Using ["b", "c"]) [] 'w'
      (by decide) (by decide) (by rfl) (Or.inl rfl),
    by rfl, by rfl, by rfl⟩

/-- C15, as stated, fails on the join list `Column("a").Int(1)`,
`Using("b", "c")`: the text holds an ON clause and the USING clause. -/
theorem on_and_using_written_together :
    (WhereFragments.write [(Column "a").arg (Argument.int 1), Using ["b", "c"]] 'j').err = none
    ∧ (WhereFragments.write [(Column "a").arg (Argument.int 1), Using ["b", "c"]] 'j').text
        = " ON (`a` = ?) USING (`b`,`c`)" := by
  refine ⟨by rfl, by rfl⟩

theorem write_join_starts_with_on (g : WhereFragment) (rest : WhereFragments)
    (hg : g.Using.length = 0) :
    ∃ tail, (WhereFragments.write (g :: rest) 'j').text = " ON " ++ tail := by
  have hk : clauseKeyword 'j' = "" := by decide
  have hg0 : ¬ (0 < g.Using.length) := by omega
  simp only [WhereFragments.write, List.length_cons, Nat.add_one_ne_zero, if_false, hk, writeLoop,
    true_and, gt_iff_lt, hg0, if_true]
  split
  · exact ⟨_, by simp [Written.push, String.append_assoc]; rfl⟩
  · split
    · exact ⟨_, by simp [Written.push, String.append_assoc]; rfl⟩
    · split
      · exact ⟨_, by simp [String.append_assoc]; rfl⟩
      · exact ⟨_, by simp [Written.push, String.append_assoc]; rfl⟩

/-- C15, amended. For a join-condition list with a USING fragment: when the
USING fragment is the first fragment, the text written in join mode is exactly
the USING clause, without an ON clause; when fragments without `Using` list
stand before it and are written without error, the text is the ON clause
of these fragments, which starts with ` ON `, followed by the USING clause,
and nothing after it. -/
theorem using_first_writes_no_on (f g : WhereFragment) (pre post : WhereFragments)
    (hf : 0 < f.Using.length) (hg : g.Using.length = 0)
    (hpre : ∀ q ∈ pre, q.Using.length = 0)
    (hok : (WhereFragments.write (g :: pre) 'j').err = none) :
    (WhereFragments.write (f :: post) 'j').text = " USING (" ++ usingColumns f.Using ++ ")"
    ∧ (WhereFragments.write (f :: post) 'j').err = none
    ∧ ∃ conditions, (WhereFragments.write (g :: pre) 'j').text = " ON " ++ conditions
        ∧ (WhereFragments.write (g :: pre ++ f :: post) 'j').text
            = " ON " ++ conditions ++ " USING (" ++ usingColumns f.Using ++ ")"
        ∧ (WhereFragments.write (g :: pre ++ f :: post) 'j').err = none := by
  have hk : clauseKeyword 'j' = "" := by decide
  refine ⟨by simp [WhereFragments.write, writeLoop, hf, hk],
    by simp [WhereFragments.write, writeLoop, hf], ?_⟩
  obtain ⟨conditions, hc⟩ := write_join_starts_with_on g pre hg
  have hall : ∀ q ∈ g :: pre, q.Using.length = 0 := by
    intro q hq
    simp only [List.mem_cons] at hq
    rcases hq with h | h
    · rw [h]; exact hg
    · exact hpre q h
  obtain ⟨he, ht⟩ := writeLoop_until_using f post hf (g :: pre) 0 hall
  have hok0 : (writeLoop 'j' 0 (g :: pre)).err = none := by
    simpa [WhereFragments.write] using hok
  have hc0 : (writeLoop 'j' 0 (g :: pre)).text = " ON " ++ conditions := by
    simpa [WhereFragments.write, hk] using hc
  refine ⟨conditions, hc, ?_, ?_⟩
  · have hl : ¬ (g :: pre ++ f :: post).length = 0 := by simp
    simp only [WhereFragments.write, hl, if_false, hk, String.empty_append, ht, hok0, if_true,
      hc0, String.append_assoc]
  · have hl : ¬ (g :: pre ++ f :: post).length = 0 := by simp
    simp only [WhereFragments.write, hl, if_false, he, hok0]

/-- The amended C15 at the join lists `Using("b", "c")`, `Column("d").Int(2)` and
`Column("a").Int(1)`, `Column("e").Int(3)`, `Using("b", "c")`, `Column("d").Int(2)`. -/
theorem using_first_writes_no_on_witness :
    ((WhereFragments.write (Using ["b", "c"] :: [(Column "d").arg (Argument.int 2)]) 'j').text
        = " USING (" ++ usingColumns (Using ["b", "c"]).Using ++ ")"
      ∧ (WhereFragments.write (Using ["b", "c"] :: [(Column "d").arg (Argument.int 2)]) 'j').err
        = none
      ∧ ∃ conditions,
          (WhereFragments.write ((Column "a").arg (Argument.int 1)
            :: [(Column "e").arg (Argument.int 3)]) 'j').text = " ON " ++ conditions
          ∧ (WhereFragments.write ((Column "a").arg (Argument.int 1)
              :: [(Column "e").arg (Argument.int 3)] ++ Using ["b", "c"]
              :: [(Column "d").arg (Argument.int 2)]) 'j').text
            = " ON " ++ conditions ++ " USING (" ++ usingColumns (Using ["b", "c"]).Using ++ ")"
          ∧ (WhereFragments.write ((Column "a").arg (Argument.int 1)
              :: [(Column "e").arg (Argument.int 3)] ++ Using ["b", "c"]
              :: [(Column "d").arg (Argument.int 2)]) 'j').err = none)
    ∧ (WhereFragments.write joinUsingFirst 'j').text = " USING (`b`,`c`)"
    ∧ (WhereFragments.write [(Column "a").arg (Argument.int 1), (Column "e").arg (Argument.int 3),
        Using ["b", "c"], (Column "d").arg (Argument.int 2)] 'j').text
      = " ON (`a` = ?) AND (`e` = ?) USING (`b`,`c`)" :=
  ⟨using_first_writes_no_on (Using ["b", "c"]) ((Column "a").arg (Argument.int 1))
    [(Column "e").arg (Argument.int 3)] [(Column "d").arg (Argument.int 2)] (by decide)
    (by decide) (by decide) (by rfl), by rfl, by rfl⟩

/-! ## The sticky error of the builder (C16) -/

/-- Once an error is recorded, `Set`, `AddColumns`, `SetRecord`, `SetMap` and
`Where` return the statement as it is. -/
theorem guarded_builders_keep_statement (b : Update) (e : Error) (h : b.previousError = some e)
    (column : String) (arg : Argument) (columns : List String) (record : ArgumentAssembler)
    (clauses : List (String × Argument)) (conds : WhereFragments) :
    b.Set column arg = b ∧ b.AddColumns columns = b ∧ b.SetRecord columns record = b
    ∧ b.SetMap clauses = b ∧ b.Where conds = b := by
  simp [Update.Set, Update.AddColumns, Update.SetRecord, Update.SetMap, Update.Where, h]

/-- C16. On a statement with a recorded error, `OrderBy`, `OrderByDesc`,
`OrderByExpr`, `Limit`, `Offset` and `Interpolate` change fields of the
statement all the same. -/
theorem unguarded_builders_change_statement :
    updateWithError.previousError = some (Error.other "[dbr] previous")
    ∧ updateWithError.OrderBys = []
    ∧ (updateWithError.OrderBy ["a"]).OrderBys = [{ Name := "a" }]
    ∧ (updateWithError.OrderByDesc ["a"]).OrderBys = [{ Name := "a", Descending := true }]
    ∧ (updateWithError.OrderByExpr ["a+1"]).OrderBys = [{ Name := "a+1", IsExpression := true }]
    ∧ updateWithError.LimitValid = false ∧ updateWithError.LimitCount = 0
    ∧ (updateWithError.Limit 5).LimitValid = true ∧ (updateWithError.Limit 5).LimitCount = 5
    ∧ updateWithError.OffsetValid = false
    ∧ (updateWithError.Offset 5).OffsetValid = true ∧ (updateWithError.Offset 5).OffsetCount = 5
    ∧ updateWithError.IsInterpolate = false
    ∧ updateWithError.Interpolate.IsInterpolate = true := by
  refine ⟨by rfl, by rfl, by rfl, by rfl, by rfl, by rfl, by rfl, by rfl, by rfl, by rfl, by rfl,
    by rfl, by rfl, by rfl⟩

/-! ## The build cache (C17) -/

/-- C17, as stated, fails on a statement whose build has been cached: after
`Set("b", ArgInt(2))` the cached text returned by `readBuildCache` is still
the text of the build before the call. -/
theorem build_cache_survives_mutation :
    updateCached.readBuildCache = ("UPDATE `t` SET `a`=?", [Argument.int 1])
    ∧ (updateCached.Set "b" (Argument.int 2)).SetClauses.Columns = ["a", "b"]
    ∧ (updateCached.Set "b" (Argument.int 2)).readBuildCache
        = ("UPDATE `t` SET `a`=?", [Argument.int 1])
    ∧ (updateCached.Set "b" (Argument.int 2)).readBuildCache.1 ≠ "" := by
  refine ⟨by rfl, by rfl, by rfl, by decide⟩

theorem SetMap_readBuildCache (clauses : List (String × Argument)) : ∀ (b : Update),
    b.previousError = none →
    (clauses.foldl (fun u p => u.Set p.1 p.2) b).readBuildCache = b.readBuildCache := by
  induction clauses with
  | nil => intro b _; rfl
  | cons p ps ih =>
    intro b h
    simp only [List.foldl_cons]
    have h1 : (b.Set p.1 p.2).previousError = none := by simp [Update.Set, h]
    rw [ih _ h1]
    simp [Update.Set, h, Update.readBuildCache]

/-- C17, amended. No builder method of Update touches the build cache: after
`Set`, `AddColumns`, `SetRecord`, `SetMap`, `Where`, `OrderBy`, `OrderByDesc`,
`OrderByExpr`, `Limit` or `Offset`, `readBuildCache` returns the text and the
arguments that it returned before the call. -/
theorem builders_keep_build_cache (b : Update) (column : String) (arg : Argument)
    (columns : List String) (record : ArgumentAssembler) (clauses : List (String × Argument))
    (conds : WhereFragments) (n : Nat) :
    (b.Set column arg).readBuildCache = b.readBuildCache
    ∧ (b.AddColumns columns).readBuildCache = b.readBuildCache
    ∧ (b.SetRecord columns record).readBuildCache = b.readBuildCache
    ∧ (b.SetMap clauses).readBuildCache = b.readBuildCache
    ∧ (b.Where conds).readBuildCache = b.readBuildCache
    ∧ (b.OrderBy columns).readBuildCache = b.readBuildCache
    ∧ (b.OrderByDesc columns).readBuildCache = b.readBuildCache
    ∧ (b.OrderByExpr columns).readBuildCache = b.readBuildCache
    ∧ (b.Limit n).readBuildCache = b.readBuildCache
    ∧ (b.Offset n).readBuildCache = b.readBuildCache := by
  refine ⟨?_, ?_, ?_, ?_, ?_, rfl, rfl, rfl, rfl, rfl⟩
  · unfold Update.Set; split <;> rfl
  · unfold Update.AddColumns; split <;> rfl
  · unfold Update.SetRecord; split <;> rfl
  · unfold Update.SetMap
    split
    · rfl
    · rename_i h; exact SetMap_readBuildCache clauses b h
  · unfold Update.Where; split <;> rfl

/-! ## The errors that `Update.toSQL` returns (C18) -/

theorem writeOperator_error_isPanic (n : Nat) (o : Op) (e : Error)
    (h : writeOperator n o = .error e) : e.isPanic = true := by
  cases o <;> simp [writeOperator] at h
  all_goals
    split at h
    · cases h
    · cases h; rfl

theorem writeOperatorAfter_error_isPanic (before : String) (n : Nat) (o : Op) (e : Error)
    (h : (writeOperatorAfter before n o).2 = some e) : e.isPanic = true := by
  unfold writeOperatorAfter at h
  cases hw : writeOperator n o with
  | ok r => simp [hw] at h
  | error e1 =>
    simp [hw] at h
    subst h
    exact writeOperator_error_isPanic n o e1 hw

theorem writeCondition_error_isPanic (f : WhereFragment) (hsub : f.SubSelect = none) (e : Error)
    (h : f.writeCondition.err = some e) : e.isPanic = true := by
  unfold WhereFragment.writeCondition at h
  simp only [hsub] at h
  repeat' split at h
  all_goals first
    | exact writeOperatorAfter_error_isPanic _ _ _ _ h
    | (simp at h; subst h; rfl)
    | (simp at h)

theorem writeLoop_error_isPanic (ct : Char) : ∀ (wfs : WhereFragments) (i : Nat),
    (∀ f ∈ wfs, f.SubSelect = none) → ∀ e, (writeLoop ct i wfs).err = some e → e.isPanic = true
  | [], i, _, e, h => by simp [writeLoop] at h
  | f :: rest, i, hsub, e, h => by
      have ih := fun j => writeLoop_error_isPanic ct rest j (fun g hg => hsub g (by simp [hg])) e
      unfold writeLoop at h
      split at h
      · simp at h
      · simp only [] at h
        split at h
        · exact ih i (by simpa [Written.push] using h)
        · split at h
          · exact ih 0 (by simpa [Written.push] using h)
          · split at h
            · rename_i e1 he1
              simp at h; subst h
              exact writeCondition_error_isPanic f (hsub f (by simp)) _ he1
            · exact ih (i + 1) (by simpa [Written.push] using h)

theorem write_error_isPanic (wfs : WhereFragments) (ct : Char)
    (hsub : ∀ f ∈ wfs, f.SubSelect = none) (e : Error)
    (h : (WhereFragments.write wfs ct).err = some e) : e.isPanic = true := by
  unfold WhereFragments.write at h
  split at h
  · simp at h
  · exact writeLoop_error_isPanic ct wfs 0 hsub e h

theorem Wrap_isPanic (msg : String) (e : Error) : (Error.Wrap msg e).isPanic = e.isPanic := by
  cases e <;> rfl

/-- C18. For every Update without sub-selects, `Update.toSQL` returns an error
(a panic is not a returned error) if and only if an error is recorded, or no
raw SQL is set and the table name or the list of SET columns is empty; in
these cases it writes nothing, and the error for a missing table or for
missing columns is of the empty kind. -/
theorem toSQL_returns_error_iff (b : Update)
    (hsub : ∀ f ∈ b.WhereFragments, f.SubSelect = none) :
    ((∃ e, b.toSQL.err = some e ∧ e.isPanic = false)
      ↔ (b.previousError ≠ none
        ∨ (b.RawFullSQL = "" ∧ (b.Table.Name.length = 0 ∨ b.SetClauses.Columns.length = 0))))
    ∧ ((b.previousError ≠ none
        ∨ (b.RawFullSQL = "" ∧ (b.Table.Name.length = 0 ∨ b.SetClauses.Columns.length = 0)))
      → b.toSQL.text = "")
    ∧ (b.previousError = none → b.RawFullSQL = ""
      → (b.Table.Name.length = 0 ∨ b.SetClauses.Columns.length = 0)
      → ∃ msg, b.toSQL.err = some (Error.empty msg)) := by
  cases hp : b.previousError with
  | some e0 =>
    refine ⟨?_, ?_, ?_⟩
    · simp [Update.toSQL, hp, Error.isPanic]
    · intro _; simp [Update.toSQL, hp]
    · intro h; cases h
  | none =>
    by_cases hraw : b.RawFullSQL = ""
    · by_cases ht : b.Table.Name.length = 0
      · refine ⟨?_, ?_, ?_⟩
        · simp [Update.toSQL, hp, hraw, ht, Error.isPanic]
        · intro _; simp [Update.toSQL, hp, hraw, ht]
        · intro _ _ _
          exact ⟨"[dbr] Update: Table at empty", by simp [Update.toSQL, hp, hraw, ht]⟩
      · by_cases hcol : b.SetClauses.Columns.length = 0
        · refine ⟨?_, ?_, ?_⟩
          · simp [Update.toSQL, hp, hraw, ht, hcol, Error.isPanic]
          · intro _; simp [Update.toSQL, hp, hraw, ht, hcol]
          · intro _ _ _
            exact ⟨"[dbr] Update: SetClauses are empty",
              by simp [Update.toSQL, hp, hraw, ht, hcol]⟩
        · refine ⟨?_, ?_, ?_⟩
          · simp only [ne_eq, not_true_eq_false, hraw, ht, hcol, or_self, and_false, or_false,
              iff_false, not_exists, not_and]
            intro e he
            simp only [Update.toSQL, hp, hraw, ht, hcol, ne_eq, not_true_eq_false, if_false] at he
            cases hw : (WhereFragments.write b.WhereFragments 'w').err with
            | none => simp [hw] at he
            | some e1 =>
              simp [hw] at he
              subst he
              rw [Wrap_isPanic, write_error_isPanic _ _ hsub e1 hw]
              decide
          · intro h
            rcases h with h | ⟨_, h | h⟩
            · exact absurd rfl h
            · exact absurd h ht
            · exact absurd h hcol
          · intro _ _ h
            rcases h with h | h
            · exact absurd h ht
            · exact absurd h hcol
    · refine ⟨?_, ?_, ?_⟩
      · simp [Update.toSQL, hp, hraw]
      · intro h
        rcases h with h | ⟨h, _⟩
        · exact absurd rfl h
        · exact absurd h hraw
      · intro _ h; exact absurd h hraw

/-- C18 at the statement of `ExampleSQLCase_update` and at a statement without
table. -/
theorem toSQL_returns_error_iff_witness :
    (((∃ e, updateSQLCase.toSQL.err = some e ∧ e.isPanic = false)
        ↔ (updateSQLCase.previousError ≠ none
          ∨ (updateSQLCase.RawFullSQL = ""
            ∧ (updateSQLCase.Table.Name.length = 0
              ∨ updateSQLCase.SetClauses.Columns.length = 0))))
      ∧ ((updateSQLCase.previousError ≠ none
          ∨ (updateSQLCase.RawFullSQL = ""
            ∧ (updateSQLCase.Table.Name.length = 0
              ∨ updateSQLCase.SetClauses.Columns.length = 0)))
        → updateSQLCase.toSQL.text = "")
      ∧ (updateSQLCase.previousError = none → updateSQLCase.RawFullSQL = ""
        → (updateSQLCase.Table.Name.length = 0 ∨ updateSQLCase.SetClauses.Columns.length = 0)
        → ∃ msg, updateSQLCase.toSQL.err = some (Error.empty msg)))
    ∧ ((NewUpdate []).Set "a" (Argument.int 1)).toSQL.err
        = some (Error.empty "[dbr] Update: Table at empty")
    ∧ ((NewUpdate []).Set "a" (Argument.int 1)).toSQL.text = ""
    ∧ (NewUpdate ["t"]).toSQL.err = some (Error.empty "[dbr] Update: SetClauses are empty") :=
  ⟨toSQL_returns_error_iff updateSQLCase (fun f hf => by
      simp only [updateSQLCase, Update.Where, Update.Set, NewUpdate, List.nil_append,
        List.mem_cons, List.mem_singleton, List.not_mem_nil, or_false] at hf
      rcases hf with h | h <;> subst h <;> rfl), by rfl, by rfl, by rfl⟩

/-! ## Raw SQL statements (C19) -/

/-- C19. For an Update with a non-empty raw SQL string and no recorded error,
`toSQL` writes exactly that string, returns no error and leaves the statement
as it is, and `appendArgs` returns exactly the raw arguments, whatever the
other fields hold and whatever argument sequence is passed in. -/
theorem raw_update_passes (b : Update) (args : Arguments) (hraw : b.RawFullSQL ≠ "")
    (herr : b.previousError = none) :
    b.toSQL = ⟨b.RawFullSQL, b, none⟩ ∧ b.appendArgs args = .ok b.RawArguments := by
  simp [Update.toSQL, Update.appendArgs, herr, hraw]

/-- C19 at a raw statement to which a table, a SET column, a condition, an
order and a limit have been added. -/
theorem raw_update_passes_witness :
    (updateRaw.toSQL = ⟨updateRaw.RawFullSQL, updateRaw, none⟩
      ∧ updateRaw.appendArgs [Argument.int 9] = .ok updateRaw.RawArguments)
    ∧ updateRaw.toSQL.text = "UPDATE `x` SET `y`=? WHERE 1"
    ∧ updateRaw.appendArgs [Argument.int 9] = .ok [Argument.int 7]
    ∧ updateRaw.SetClauses.Columns = ["a"] ∧ updateRaw.LimitValid = true :=
  ⟨raw_update_passes updateRaw [Argument.int 9] (by decide) rfl, by rfl, by rfl, by rfl, by rfl⟩

/-! ## Results of a failing bulk update (C20) -/

/-- C20, as stated, fails on a bulk update of two records without a
transaction whose second execution fails: the first record is executed and
has a result, and `Exec` returns the nil slice together with the error that
names index 1. -/
theorem exec_failure_drops_earlier_results :
    multiTwoRecords.IsTransaction = false
    ∧ driverFailsSecond.execStmt 0 [Argument.str "va"] = .ok ⟨0, 1⟩
    ∧ (multiTwoRecords.Exec driverFailsSecond).results = none
    ∧ (multiTwoRecords.Exec driverFailsSecond).err
        = some (Error.wrap "[dbr] UpdateMulti.Exec.Stmt.Exec. Index 1 with Query: \"UPDATE `t` SET `a`=?\""
            (Error.other "driver: bad connection")) := by
  refine ⟨by rfl, by rfl, by rfl, by rfl⟩

theorem execFails_results (tx : Txer) (isTx : Bool) (e : Error) (msg : String)
    (events : List Event) (u : Update) : (execFails tx isTx e msg events u).results = none := by
  unfold execFails txUpdateMultiRollback
  split <;> rfl

theorem execRecords_error_no_results (d : Driver) (tx : Txer) (isTx isInterpolate : Bool)
    (sql : String) : ∀ (records : List ArgumentAssembler) (i : Nat) (u : Update)
    (results : List SqlResult) (events : List Event),
    (execRecords d tx isTx isInterpolate sql i records u results events).err ≠ none →
    (execRecords d tx isTx isInterpolate sql i records u results events).results = none
  | [], i, u, results, events => by
      unfold execRecords
      split
      · intro _; rfl
      · intro h; exact absurd rfl h
  | record :: records, i, u, results, events => by
      have ih := execRecords_error_no_results d tx isTx isInterpolate sql records
      unfold execRecords
      simp only []
      repeat' split
      all_goals first
        | exact ih _ _ _ _
        | (intro _; exact execFails_results _ _ _ _ _ _)
        | (intro _; rfl)

/-- C20, amended. Whenever `UpdateMulti.Exec` returns an error, with or without
a transaction, it returns the nil slice with it: when the assembly or the
execution for the record at index `i` fails, the results obtained for the
records before it are not returned. -/
theorem exec_error_returns_no_results (b : UpdateMulti) (d : Driver)
    (h : (b.Exec d).err ≠ none) : (b.Exec d).results = none := by
  unfold UpdateMulti.Exec at h ⊢
  simp only [] at h ⊢
  repeat' split
  all_goals first
    | rfl
    | exact execFails_results _ _ _ _ _ _
    | (apply execRecords_error_no_results; simp_all)

/-- The amended C20 at the bulk update of two records whose second execution
fails. -/
theorem exec_error_returns_no_results_witness :
    (multiTwoRecords.Exec driverFailsSecond).results = none :=
  exec_error_returns_no_results multiTwoRecords driverFailsSecond (by
    have : (multiTwoRecords.Exec driverFailsSecond).err
        = some (Error.wrap "[dbr] UpdateMulti.Exec.Stmt.Exec. Index 1 with Query: \"UPDATE `t` SET `a`=?\""
            (Error.other "driver: bad connection")) := by rfl
    rw [this]; exact Option.some_ne_none _)

/-! ## The rollback of a bulk update (C22) -/

/-- C22. For every non-nil previous error `txUpdateMultiRollback` returns the
nil slice and a non-nil error. When `Rollback` fails, the error wraps the
rollback error under a message that contains the text of the previous error;
when `Rollback` succeeds, the error wraps the previous error under the message
handed in. -/
theorem rollback_reports_both_errors (tx : Txer) (previousErr : Error) (msg : String) :
    (txUpdateMultiRollback tx (some previousErr) msg).1 = none
    ∧ (txUpdateMultiRollback tx (some previousErr) msg).2 ≠ none
    ∧ (∀ rollbackErr : Error, tx.rollback = some rollbackErr →
        (txUpdateMultiRollback tx (some previousErr) msg).2
          = some (Error.wrap ("[dbr] UpdateMulti.Tx.Rollback. Previous Error: "
              ++ previousErr.message ++ ". " ++ msg) rollbackErr)
        ∧ ∀ e, (txUpdateMultiRollback tx (some previousErr) msg).2 = some e →
            e.causes.head? = some rollbackErr
            ∧ e.message = "[dbr] UpdateMulti.Tx.Rollback. Previous Error: "
                ++ previousErr.message ++ (". " ++ msg ++ ": " ++ rollbackErr.message))
    ∧ (tx.rollback = none →
        (txUpdateMultiRollback tx (some previousErr) msg).2
          = some (Error.wrap msg previousErr)) := by
  unfold txUpdateMultiRollback
  rcases h : tx.rollback with _ | re
  · refine ⟨rfl, ?_, ?_, ?_⟩
    · simp [Error.Wrapf]
    · intro r hr; cases hr
    · intro _; rfl
  · refine ⟨rfl, ?_, ?_, ?_⟩
    · simp [Error.Wrapf]
    · intro r hr
      cases hr
      refine ⟨rfl, ?_⟩
      intro e he
      simp only [Error.Wrapf, errorText, Option.some.injEq] at he
      subst he
      refine ⟨rfl, ?_⟩
      simp only [Error.message, String.append_assoc]
    · intro hn; cases hn

/-! ## The checks before a bulk update runs (C24) -/

/-- C24. `UpdateMulti.validate` returns nil exactly when the template has a SET
column, the alias list is empty or as long as the column list, and there is a
record or a record channel. Otherwise it returns an empty-kind error for the
missing columns, else a mismatch-kind error for the alias list, else an
empty-kind error for the missing records. -/
theorem validate_nil_iff_and_priority (b : UpdateMulti) :
    (b.validate = none ↔
      (b.Update.SetClauses.Columns ≠ []
        ∧ (b.Alias = [] ∨ b.Alias.length = b.Update.SetClauses.Columns.length)
        ∧ (b.Records ≠ [] ∨ b.RecordChan = true)))
    ∧ (b.Update.SetClauses.Columns = [] →
        b.validate = some (Error.empty "[dbr] UpdateMulti: Columns are empty"))
    ∧ (b.Update.SetClauses.Columns ≠ [] →
        ¬ (b.Alias = [] ∨ b.Alias.length = b.Update.SetClauses.Columns.length) →
        b.validate = some (Error.mismatch
          "[dbr] UpdateMulti: Alias slice and Columns slice must have the same length"))
    ∧ (b.Update.SetClauses.Columns ≠ [] →
        (b.Alias = [] ∨ b.Alias.length = b.Update.SetClauses.Columns.length) →
        ¬ (b.Records ≠ [] ∨ b.RecordChan = true) →
        b.validate = some (Error.empty "[dbr] UpdateMulti: Records empty or RecordChan is nil")) := by
  have hc0 : b.Update.SetClauses.Columns ≠ [] ↔ ¬ b.Update.SetClauses.Columns.length = 0 :=
    not_congr List.length_eq_zero.symm
  have hc1 : b.Update.SetClauses.Columns = [] ↔ b.Update.SetClauses.Columns.length = 0 :=
    List.length_eq_zero.symm
  have ha0 : b.Alias = [] ↔ ¬ b.Alias.length > 0 := by
    rw [← List.length_eq_zero]; omega
  have hr0 : b.Records ≠ [] ↔ ¬ b.Records.length = 0 := not_congr List.length_eq_zero.symm
  rw [hc0, hc1, ha0, hr0]
  unfold UpdateMulti.validate
  generalize b.Update.SetClauses.Columns.length = nc
  generalize b.Alias.length = na
  generalize b.Records.length = nr
  generalize b.RecordChan = rc
  by_cases hc : nc = 0
  · simp [hc]
  · by_cases hg : na > 0
    · by_cases ha : na = nc
      · by_cases hr : nr = 0
        · cases rc <;> simp [hc, hg, ha, hr]
        · simp [hc, hg, ha, hr]
      · simp [hc, hg, ha]
    · by_cases hr : nr = 0
      · cases rc <;> simp [hc, hg, hr]
      · simp [hc, hg, hr]

/-! ## The loop of a bulk update (C21, C23) -/

theorem withRecord_withRecord (u : Update) (r1 r2 : ArgumentAssembler) :
    (u.withRecord r1).withRecord r2 = u.withRecord r2 := rfl

theorem execRecord_withRecord (d : Driver) (isI : Bool) (sql : String) (u : Update) (i : Nat)
    (r0 record : ArgumentAssembler) :
    execRecord d isI sql (u.withRecord r0) i record = execRecord d isI sql u i record := rfl

theorem recordCall_withRecord (d : Driver) (isI : Bool) (sql : String) (u : Update)
    (r0 record : ArgumentAssembler) :
    recordCall d isI sql (u.withRecord r0) record = recordCall d isI sql u record := rfl

/-- A record whose loop body succeeds: the loop goes on with the next record,
the result and the call appended. -/
theorem execRecords_step_ok (d : Driver) (tx : Txer) (isTx isI : Bool) (sql : String) (i : Nat)
    (record : ArgumentAssembler) (records : List ArgumentAssembler) (u : Update)
    (results : List SqlResult) (events : List Event) (r : SqlResult)
    (h : execRecord d isI sql u i record = .ok r) :
    ∃ ev, recordCall d isI sql u record = some ev ∧ ev.isExecution = true
      ∧ execRecords d tx isTx isI sql i (record :: records) u results events
        = execRecords d tx isTx isI sql (i + 1) records (u.withRecord record) (results ++ [r])
            (events ++ [ev]) := by
  unfold execRecord at h
  unfold recordCall
  rw [execRecords]
  simp only [Update.withRecord] at h ⊢
  rcases ha : ({ u with SetClauses := { u.SetClauses with Record := some record } } :
      Update).appendArgs [] with e | args
  · rw [ha] at h; cases h
  · rw [ha] at h
    simp only [] at h ⊢
    cases isI
    · simp only [Bool.false_eq_true, if_false] at h ⊢
      rw [h]
      exact ⟨_, rfl, rfl, rfl⟩
    · simp only [if_true] at h ⊢
      rcases hi : d.interpolate sql args with e | full
      · rw [hi] at h; cases h
      · rw [hi] at h
        simp only [] at h ⊢
        rw [h]
        exact ⟨_, rfl, rfl, rfl⟩

theorem execFails_err (tx : Txer) (isTx : Bool) (e : Error) (msg : String)
    (events : List Event) (u : Update) :
    (execFails tx isTx e msg events u).err
      = some (match tx.rollback with
          | some rollbackErr =>
            Error.wrap ("[dbr] UpdateMulti.Tx.Rollback. Previous Error: " ++ e.message ++ ". "
              ++ msg) rollbackErr
          | none => Error.wrap msg e) := by
  unfold execFails txUpdateMultiRollback
  cases tx.rollback <;> rfl

/-- A record whose loop body fails with an error value: the loop ends in
`txUpdateMultiRollback`, after at most the one execution that failed, whatever
records follow. -/
theorem execRecords_step_error (d : Driver) (tx : Txer) (isTx isI : Bool) (sql : String) (i : Nat)
    (record : ArgumentAssembler) (records : List ArgumentAssembler) (u : Update)
    (results : List SqlResult) (events : List Event) (e : Error)
    (h : execRecord d isI sql u i record = .error e) (hp : e.isPanic = false) :
    ∃ (step : String) (attempt : List Event), attempt.length ≤ 1
      ∧ (∀ ev ∈ attempt, ev.isExecution = true)
      ∧ execRecords d tx isTx isI sql i (record :: records) u results events
        = execFails tx isTx e (indexMsg step i sql) (events ++ attempt) (u.withRecord record) := by
  unfold execRecord at h
  rw [execRecords]
  simp only [Update.withRecord] at h ⊢
  rcases ha : ({ u with SetClauses := { u.SetClauses with Record := some record } } :
      Update).appendArgs [] with e1 | args
  · rw [ha] at h
    simp only [Except.error.injEq] at h
    subst h
    simp only [hp, Bool.false_eq_true, if_false]
    exact ⟨"Interpolate", [], by simp, by simp, by simp⟩
  · rw [ha] at h
    simp only [] at h ⊢
    cases isI
    · simp only [Bool.false_eq_true, if_false] at h ⊢
      rw [h]
      exact ⟨"Stmt.Exec", [Event.execStmt args], by simp, by simp [Event.isExecution], rfl⟩
    · simp only [if_true] at h ⊢
      rcases hi : d.interpolate sql args with e1 | full
      · rw [hi] at h
        simp only [Except.error.injEq] at h
        subst h
        exact ⟨"Interpolate", [], by simp, by simp, by simp⟩
      · rw [hi] at h
        simp only [] at h ⊢
        rw [h]
        exact ⟨"Exec", [Event.execSQL full], by simp, by simp [Event.isExecution], rfl⟩

/-- A record whose loop body fails, by an error value or by a panic, makes
the loop end with an error. -/
theorem execRecords_step_fails (d : Driver) (tx : Txer) (isTx isI : Bool) (sql : String) (i : Nat)
    (record : ArgumentAssembler) (records : List ArgumentAssembler) (u : Update)
    (results : List SqlResult) (events : List Event) (e : Error)
    (h : execRecord d isI sql u i record = .error e) :
    (execRecords d tx isTx isI sql i (record :: records) u results events).err ≠ none := by
  rcases hp : e.isPanic with _ | _
  · obtain ⟨step, attempt, _, _, heq⟩ :=
      execRecords_step_error d tx isTx isI sql i record records u results events e h hp
    rw [heq, execFails_err]
    exact Option.some_ne_none _
  · unfold execRecord at h
    rw [execRecords]
    simp only [Update.withRecord] at h ⊢
    rcases ha : ({ u with SetClauses := { u.SetClauses with Record := some record } } :
        Update).appendArgs [] with e1 | args
    · rw [ha] at h
      simp only [Except.error.injEq] at h
      subst h
      simp only [hp, if_true]
      exact Option.some_ne_none _
    · rw [ha] at h
      simp only [] at h ⊢
      cases isI
      · simp only [Bool.false_eq_true, if_false] at h ⊢
        rw [h]
        simp only [execFails_err]
        exact Option.some_ne_none _
      · simp only [if_true] at h ⊢
        rcases hi : d.interpolate sql args with e1 | full
        · simp only [execFails_err]
          exact Option.some_ne_none _
        · rw [hi] at h
          simp only [] at h ⊢
          rw [h]
          simp only [execFails_err]
          exact Option.some_ne_none _

/-- A loop that ends without an error has executed every record once, in
order, and returns the results in the order of the records. -/
theorem execRecords_success (d : Driver) (tx : Txer) (isTx isI : Bool) (sql : String) :
    ∀ (records : List ArgumentAssembler) (i : Nat) (u : Update) (results : List SqlResult)
      (events : List Event),
    (execRecords d tx isTx isI sql i records u results events).err = none →
    ∃ (rs : List SqlResult) (execs : List Event),
      (execRecords d tx isTx isI sql i records u results events).results = some (results ++ rs)
      ∧ (execRecords d tx isTx isI sql i records u results events).events
          = events ++ execs ++ (if isTx then [Event.commit] else [])
      ∧ rs.length = records.length
      ∧ execs.map some = records.map (recordCall d isI sql u)
      ∧ ∀ (j : Nat) (record : ArgumentAssembler), records[j]? = some record →
          ∃ r, rs[j]? = some r ∧ execRecord d isI sql u (i + j) record = .ok r
  | [], i, u, results, events => by
      intro h
      unfold execRecords at h ⊢
      rcases hc : tx.commit with _ | e
      · refine ⟨[], [], by simp, by simp, rfl, rfl, ?_⟩
        intro j record hj
        simp at hj
      · rw [hc] at h
        simp at h
  | record :: records, i, u, results, events => by
      intro h
      rcases hr : execRecord d isI sql u i record with e | r
      · exact absurd h (execRecords_step_fails d tx isTx isI sql i record records u results events e hr)
      · obtain ⟨ev, hev, _, heq⟩ :=
          execRecords_step_ok d tx isTx isI sql i record records u results events r hr
        rw [heq] at h ⊢
        obtain ⟨rs, execs, h1, h2, h3, h4, h5⟩ :=
          execRecords_success d tx isTx isI sql records (i + 1) (u.withRecord record)
            (results ++ [r]) (events ++ [ev]) h
        refine ⟨r :: rs, ev :: execs, ?_, ?_, ?_, ?_, ?_⟩
        · rw [h1]; simp
        · rw [h2]; simp
        · simp [h3]
        · simp only [List.map_cons, hev, h4]
          rfl
        · intro j rec2 hj
          cases j with
          | zero =>
            simp only [List.getElem?_cons_zero, Option.some.injEq] at hj
            subst hj
            exact ⟨r, List.getElem?_cons_zero, hr⟩
          | succ j =>
            simp only [List.getElem?_cons_succ] at hj
            obtain ⟨r2, hr2, he2⟩ := h5 j rec2 hj
            refine ⟨r2, by simpa using hr2, ?_⟩
            rw [execRecord_withRecord] at he2
            rw [← he2]
            congr 1
            omega

/-- C23. When `UpdateMulti.Exec` succeeds, it returns as many results as there
are records, the result at index `i` is the one the execution for `Records[i]`
gave, and the calls that reached the database are, between the opening
(`BeginTx`, `Prepare`) and the `Commit`, one execution per record in the order
of the records. -/
theorem exec_success_once_per_record (b : UpdateMulti) (d : Driver)
    (h : (b.Exec d).err = none) :
    ∃ (results : List SqlResult) (execs : List Event),
      (b.Exec d).results = some results
      ∧ results.length = b.Records.length
      ∧ (∀ (i : Nat) (record : ArgumentAssembler), b.Records[i]? = some record →
          ∃ r, results[i]? = some r
            ∧ execRecord d b.Update.IsInterpolate b.templatePass.text b.templatePass.state i
                record = .ok r)
      ∧ execs.map some
          = b.Records.map (recordCall d b.Update.IsInterpolate b.templatePass.text
              b.templatePass.state)
      ∧ (b.Exec d).events
          = (if b.IsTransaction then [Event.beginTx] else [])
            ++ (if b.Update.IsInterpolate then [] else [Event.prepare b.templatePass.text])
            ++ execs ++ (if b.IsTransaction then [Event.commit] else []) := by
  unfold UpdateMulti.Exec at h ⊢
  unfold UpdateMulti.templatePass
  simp only [] at h ⊢
  rcases hv : b.validate with _ | e
  · rw [hv] at h
    simp only [] at h ⊢
    rcases hs : ({ b.Update with IsInterpolate := false } : Dbr.Update).toSQL.err with _ | e
    · rw [hs] at h
      simp only [] at h ⊢
      rcases hb : (if b.IsTransaction then d.beginTx else Except.ok txMock) with e | tx
      · rw [hb] at h
        simp at h
      · rw [hb] at h
        simp only [] at h ⊢
        rcases hi : b.Update.IsInterpolate with _ | _
        · rw [hi] at h
          simp only [Bool.false_eq_true, if_false] at h ⊢
          rcases hp : d.prepare ({ b.Update with IsInterpolate := false } : Dbr.Update).toSQL.text
            with _ | e
          · rw [hp] at h
            simp only [] at h ⊢
            obtain ⟨rs, execs, h1, h2, h3, h4, h5⟩ := execRecords_success d tx _ _ _ _ _ _ _ _ h
            refine ⟨rs, execs, by simpa using h1, h3, ?_, h4, by simpa using h2⟩
            intro i record hrec
            simpa using h5 i record hrec
          · rw [hp] at h
            simp only [execFails_err] at h
            cases h
        · rw [hi] at h
          simp only [if_true] at h ⊢
          obtain ⟨rs, execs, h1, h2, h3, h4, h5⟩ := execRecords_success d tx _ _ _ _ _ _ _ _ h
          refine ⟨rs, execs, by simpa using h1, h3, ?_, h4, by simpa using h2⟩
          intro i record hrec
          simpa using h5 i record hrec
    · rw [hs] at h
      simp at h
  · rw [hv] at h
    simp at h

theorem recordCall_isExecution (d : Driver) (isI : Bool) (sql : String) (u : Update)
    (record : ArgumentAssembler) (ev : Event) (h : recordCall d isI sql u record = some ev) :
    ev.isExecution = true := by
  unfold recordCall at h
  split at h
  · cases h
  · split at h
    · split at h
      · cases h
      · cases h; rfl
    · cases h; rfl

theorem recordCalls_isExecution (d : Driver) (isI : Bool) (sql : String) (u : Update) :
    ∀ (records : List ArgumentAssembler) (execs : List Event),
    execs.map some = records.map (recordCall d isI sql u) → ∀ ev ∈ execs, ev.isExecution = true
  | [], [], _ => by simp
  | [], _ :: _, h => by simp at h
  | _ :: _, [], h => by simp at h
  | r :: rs, x :: xs, h => by
      simp only [List.map_cons, List.cons.injEq] at h
      intro ev hev
      simp only [List.mem_cons] at hev
      rcases hev with hev | hev
      · subst hev
        exact recordCall_isExecution d isI sql u r ev h.1.symm
      · exact recordCalls_isExecution d isI sql u rs xs h.2 ev hev

/-- A loop whose records before index `i + pre.length` succeed and whose
record at that index fails with an error value ends in
`txUpdateMultiRollback` after the executions of these records. -/
theorem execRecords_fails_at (d : Driver) (tx : Txer) (isTx isI : Bool) (sql : String) :
    ∀ (pre : List ArgumentAssembler) (record : ArgumentAssembler)
      (post : List ArgumentAssembler) (i : Nat) (u : Update) (results : List SqlResult)
      (events : List Event) (e : Error),
    (∀ (j : Nat) (r0 : ArgumentAssembler), pre[j]? = some r0 →
      ∃ r, execRecord d isI sql u (i + j) r0 = .ok r) →
    execRecord d isI sql u (i + pre.length) record = .error e → e.isPanic = false →
    ∃ (step : String) (execs attempt : List Event),
      execs.map some = pre.map (recordCall d isI sql u)
      ∧ attempt.length ≤ 1 ∧ (∀ ev ∈ attempt, ev.isExecution = true)
      ∧ execRecords d tx isTx isI sql i (pre ++ record :: post) u results events
        = execFails tx isTx e (indexMsg step (i + pre.length) sql) (events ++ execs ++ attempt)
            (u.withRecord record)
  | [], record, post, i, u, results, events, e => by
      intro _ hfail hp
      obtain ⟨step, attempt, h1, h2, h3⟩ :=
        execRecords_step_error d tx isTx isI sql i record post u results events e hfail hp
      exact ⟨step, [], attempt, rfl, h1, h2, by simpa using h3⟩
  | r0 :: pre, record, post, i, u, results, events, e => by
      intro hpre hfail hp
      obtain ⟨r, hr⟩ := hpre 0 r0 List.getElem?_cons_zero
      obtain ⟨ev, hev, _, heq⟩ :=
        execRecords_step_ok d tx isTx isI sql i r0 (pre ++ record :: post) u results events r hr
      have hpre2 : ∀ (j : Nat) (r1 : ArgumentAssembler), pre[j]? = some r1 →
          ∃ r, execRecord d isI sql (u.withRecord r0) (i + 1 + j) r1 = .ok r := by
        intro j r1 hj
        obtain ⟨r2, h2⟩ := hpre (j + 1) r1 (by simpa using hj)
        refine ⟨r2, ?_⟩
        rw [execRecord_withRecord, ← h2]
        congr 1
        omega
      have hfail2 : execRecord d isI sql (u.withRecord r0) (i + 1 + pre.length) record
          = .error e := by
        rw [execRecord_withRecord, ← hfail]
        congr 1
        simp only [List.length_cons]
        omega
      obtain ⟨step, execs, attempt, h1, h2, h3, h4⟩ :=
        execRecords_fails_at d tx isTx isI sql pre record post (i + 1) (u.withRecord r0)
          (results ++ [r]) (events ++ [ev]) e hpre2 hfail2 hp
      refine ⟨step, ev :: execs, attempt, ?_, h2, h3, ?_⟩
      · simp only [List.map_cons, hev, h1]
        rfl
      · rw [List.cons_append, heq, h4, withRecord_withRecord]
        have hi : i + 1 + pre.length = i + (r0 :: pre).length := by
          simp only [List.length_cons]; omega
        rw [hi]
        simp only [List.append_assoc, List.singleton_append]

/-- C21, as stated, fails when the rollback fails as well: the error that
`Exec` returns then wraps the rollback error, and the error of the failing
execution is not among the errors it wraps; only its text is in the message. -/
theorem rollback_failure_hides_original_error :
    multiTwoRecordsTx.IsTransaction = true
    ∧ execRecord driverRollbackFails false multiTwoRecordsTx.templatePass.text
        multiTwoRecordsTx.templatePass.state 1 assemblerA
        = .error (Error.other "driver: bad connection")
    ∧ (multiTwoRecordsTx.Exec driverRollbackFails).err
        = some (Error.wrap ("[dbr] UpdateMulti.Tx.Rollback. Previous Error: driver: bad connection. "
            ++ "[dbr] UpdateMulti.Exec.Stmt.Exec. Index 1 with Query: \"UPDATE `t` SET `a`=?\"")
            (Error.other "driver: rollback failed"))
    ∧ (Error.wrap ("[dbr] UpdateMulti.Tx.Rollback. Previous Error: driver: bad connection. "
            ++ "[dbr] UpdateMulti.Exec.Stmt.Exec. Index 1 with Query: \"UPDATE `t` SET `a`=?\"")
            (Error.other "driver: rollback failed")).causes
        = [Error.other "driver: rollback failed"] := by
  refine ⟨by rfl, by rfl, by rfl, by rfl⟩

/-- C21, amended. Let `UpdateMulti.Exec` run inside a transaction and reach its
loop, let the records before index `i` succeed and let the assembler, the
interpolation or the execution for the record at index `i` return the error
`e`. Then `Exec` returns the nil slice; the calls that reach the database are
`BeginTx`, `Prepare` unless interpolating, one execution for each record
before index `i`, at most the one failed execution for the record at index
`i`, and `Rollback`, so nothing is executed for a later record and `Commit` is
never called; the message of the returned error names the index `i`. The
error wraps `e` when `Rollback` succeeds; when `Rollback` fails it wraps the
rollback error, with the text of `e` in its message. -/
theorem exec_failure_in_transaction (b : UpdateMulti) (d : Driver) (tx : Txer)
    (pre post : List ArgumentAssembler) (record : ArgumentAssembler) (e : Error)
    (htx : b.IsTransaction = true) (hv : b.validate = none) (hs : b.templatePass.err = none)
    (hb : d.beginTx = .ok tx)
    (hprep : b.Update.IsInterpolate = false → d.prepare b.templatePass.text = none)
    (hrec : b.Records = pre ++ record :: post)
    (hpre : ∀ (j : Nat) (r0 : ArgumentAssembler), pre[j]? = some r0 →
      ∃ r, execRecord d b.Update.IsInterpolate b.templatePass.text b.templatePass.state j r0
        = .ok r)
    (hfail : execRecord d b.Update.IsInterpolate b.templatePass.text b.templatePass.state
      pre.length record = .error e)
    (hval : e.isPanic = false) :
    ∃ (step : String) (execs attempt : List Event),
      (b.Exec d).results = none
      ∧ (b.Exec d).err
          = some (match tx.rollback with
              | some rollbackErr =>
                Error.wrap ("[dbr] UpdateMulti.Tx.Rollback. Previous Error: " ++ e.message ++ ". "
                  ++ indexMsg step pre.length b.templatePass.text) rollbackErr
              | none => Error.wrap (indexMsg step pre.length b.templatePass.text) e)
      ∧ (b.Exec d).events
          = [Event.beginTx]
            ++ (if b.Update.IsInterpolate then [] else [Event.prepare b.templatePass.text])
            ++ execs ++ attempt ++ [Event.rollback]
      ∧ execs.map some
          = pre.map (recordCall d b.Update.IsInterpolate b.templatePass.text b.templatePass.state)
      ∧ attempt.length ≤ 1
      ∧ (∀ ev ∈ execs ++ attempt, ev.isExecution = true) := by
  have key : ∀ (events : List Event),
      ∃ (step : String) (execs attempt : List Event),
        execs.map some
          = pre.map (recordCall d b.Update.IsInterpolate b.templatePass.text b.templatePass.state)
        ∧ attempt.length ≤ 1 ∧ (∀ ev ∈ attempt, ev.isExecution = true)
        ∧ execRecords d tx true b.Update.IsInterpolate b.templatePass.text 0 b.Records
            b.templatePass.state [] events
          = execFails tx true e (indexMsg step pre.length b.templatePass.text)
              (events ++ execs ++ attempt) (b.templatePass.state.withRecord record) := by
    intro events
    rw [hrec]
    have h := execRecords_fails_at d tx true b.Update.IsInterpolate b.templatePass.text pre record
      post 0 b.templatePass.state [] events e
      (by intro j r0 hj; simpa using hpre j r0 hj) (by simpa using hfail) hval
    simpa using h
  unfold UpdateMulti.Exec
  unfold UpdateMulti.templatePass at hs hprep key ⊢
  simp only [hv, hs, htx, if_true, hb]
  rcases hi : b.Update.IsInterpolate with _ | _
  · simp only [hi, Bool.false_eq_true, if_false] at key ⊢
    rw [hprep hi]
    simp only []
    obtain ⟨step, execs, attempt, h1, h2, h3, h4⟩ := key ([Event.beginTx] ++ [Event.prepare _])
    refine ⟨step, execs, attempt, ?_, ?_, ?_, h1, h2, ?_⟩
    · rw [h4]; exact execFails_results _ _ _ _ _ _
    · rw [h4, execFails_err]
    · rw [h4]; simp [execFails]
    · intro ev hev
      rcases List.mem_append.mp hev with hev | hev
      · exact recordCalls_isExecution d _ _ _ pre execs h1 ev hev
      · exact h3 ev hev
  · simp only [hi, if_true] at key ⊢
    obtain ⟨step, execs, attempt, h1, h2, h3, h4⟩ := key [Event.beginTx]
    refine ⟨step, execs, attempt, ?_, ?_, ?_, h1, h2, ?_⟩
    · rw [h4]; exact execFails_results _ _ _ _ _ _
    · rw [h4, execFails_err]
    · rw [h4]; simp [execFails]
    · intro ev hev
      rcases List.mem_append.mp hev with hev | hev
      · exact recordCalls_isExecution d _ _ _ pre execs h1 ev hev
      · exact h3 ev hev

/-- The amended C21 at the bulk update of two records inside a transaction
whose second execution fails and whose rollback succeeds. -/
theorem exec_failure_in_transaction_witness :
    multiTwoRecordsTx.Records = [assemblerA] ++ assemblerA :: []
    ∧ ∃ (step : String) (execs attempt : List Event),
      (multiTwoRecordsTx.Exec driverFailsSecond).results = none
      ∧ (multiTwoRecordsTx.Exec driverFailsSecond).err
          = some (Error.wrap (indexMsg step 1 "UPDATE `t` SET `a`=?")
              (Error.other "driver: bad connection"))
      ∧ (multiTwoRecordsTx.Exec driverFailsSecond).events
          = [Event.beginTx] ++ [Event.prepare "UPDATE `t` SET `a`=?"] ++ execs ++ attempt
            ++ [Event.rollback]
      ∧ execs.length = 1 ∧ attempt.length ≤ 1 := by
  refine ⟨by rfl, ?_⟩
  obtain ⟨step, execs, attempt, h1, h2, h3, h4, h5, _⟩ :=
    exec_failure_in_transaction multiTwoRecordsTx driverFailsSecond ⟨none, none⟩ [assemblerA] []
      assemblerA (Error.other "driver: bad connection") (by rfl) (by rfl) (by rfl) (by rfl)
      (fun _ => by rfl) (by rfl)
      (by
        intro j r0 hj
        cases j with
        | zero =>
          simp only [List.getElem?_cons_zero, Option.some.injEq] at hj
          subst hj
          exact ⟨⟨0, 1⟩, by rfl⟩
        | succ j => simp at hj)
      (by rfl) (by rfl)
  refine ⟨step, execs, attempt, h1, ?_, ?_, ?_, h5⟩
  · rw [h2]; rfl
  · rw [h3]; rfl
  · have := congrArg List.length h4
    simpa using this

/-- C23 at the bulk update of two records inside a transaction on a driver
that succeeds: two results, in the order of the records. -/
theorem exec_success_once_per_record_witness :
    (multiTwoRecordsTx.Exec driverSucceeds).err = none
    ∧ (multiTwoRecordsTx.Exec driverSucceeds).results = some [⟨0, 1⟩, ⟨1, 1⟩]
    ∧ ∃ (results : List SqlResult) (execs : List Event),
      (multiTwoRecordsTx.Exec driverSucceeds).results = some results
      ∧ results.length = multiTwoRecordsTx.Records.length
      ∧ execs.length = 2
      ∧ (multiTwoRecordsTx.Exec driverSucceeds).events
          = [Event.beginTx] ++ [Event.prepare "UPDATE `t` SET `a`=?"] ++ execs
            ++ [Event.commit] := by
  refine ⟨by rfl, by rfl, ?_⟩
  obtain ⟨results, execs, h1, h2, _, h4, h5⟩ :=
    exec_success_once_per_record multiTwoRecordsTx driverSucceeds (by rfl)
  refine ⟨results, execs, h1, h2, ?_, ?_⟩
  · have := congrArg List.length h4
    simpa using this
  · rw [h5]; rfl

/-! ## ON DUPLICATE KEY UPDATE (C25) -/

theorem writeOnDuplicateKeyLoop_tail (useArgs : Bool) (arguments : Arguments) :
    ∀ (cols : List String) (i : Nat), 0 < i →
    writeOnDuplicateKeyLoop useArgs arguments i cols
      = joinTail ", " (onDuplicateKeyAssignments useArgs arguments i cols)
  | [], _, _ => rfl
  | c :: cs, i, hi => by
      have ih := writeOnDuplicateKeyLoop_tail useArgs arguments cs (i + 1) (Nat.succ_pos i)
      simp only [writeOnDuplicateKeyLoop, onDuplicateKeyAssignments, joinTail, ih, gt_iff_lt, hi,
        if_true]

theorem writeOnDuplicateKeyLoop_join (useArgs : Bool) (arguments : Arguments)
    (cols : List String) :
    writeOnDuplicateKeyLoop useArgs arguments 0 cols
      = joinWith ", " (onDuplicateKeyAssignments useArgs arguments 0 cols) := by
  cases cols with
  | nil => rfl
  | cons c cs =>
    simp only [writeOnDuplicateKeyLoop, onDuplicateKeyAssignments, joinWith, gt_iff_lt,
      lt_self_iff_false, if_false, String.empty_append,
      writeOnDuplicateKeyLoop_tail useArgs arguments cs 1 Nat.one_pos]

theorem onDuplicateKeyAssignments_length (useArgs : Bool) (arguments : Arguments) :
    ∀ (cols : List String) (i : Nat),
    (onDuplicateKeyAssignments useArgs arguments i cols).length = cols.length
  | [], _ => rfl
  | c :: cs, i => by
      simp only [onDuplicateKeyAssignments, List.length_cons,
        onDuplicateKeyAssignments_length useArgs arguments cs (i + 1)]

theorem onDuplicateKeyAssignments_getElem? (useArgs : Bool) (arguments : Arguments) :
    ∀ (cols : List String) (i k : Nat) (c : String), cols[k]? = some c →
    (onDuplicateKeyAssignments useArgs arguments i cols)[k]?
      = some (writeOnDuplicateKeyColumn useArgs arguments (i + k) c)
  | [], _, _, _, h => by simp at h
  | c0 :: cs, i, 0, c, h => by
      simp only [List.getElem?_cons_zero, Option.some.injEq] at h
      subst h
      simp [onDuplicateKeyAssignments]
  | c0 :: cs, i, k + 1, c, h => by
      simp only [List.getElem?_cons_succ] at h
      have ih := onDuplicateKeyAssignments_getElem? useArgs arguments cs (i + 1) k c h
      simp only [onDuplicateKeyAssignments, List.getElem?_cons_succ, ih]
      congr 2
      omega

/-- C25. For an empty column list `UpdatedColumns.writeOnDuplicateKey` writes
nothing. For a non-empty one it writes ` ON DUPLICATE KEY UPDATE ` and then one
assignment per column, joined by `, `. With one argument per column, the
assignment of column `c` is `c`=VALUES(`c`) for the nil argument, `c`=? for a
non-nil argument that is no expression, and `c`= with the text of the
expression for an expression; without any arguments it is `c`=VALUES(`c`)
for every column. -/
theorem writeOnDuplicateKey_assignments (uc : UpdatedColumns) :
    (uc.Columns = [] → uc.writeOnDuplicateKey = ("", none))
    ∧ (uc.Columns ≠ [] →
        ∃ parts : List String, parts.length = uc.Columns.length
          ∧ uc.writeOnDuplicateKey = (" ON DUPLICATE KEY UPDATE " ++ joinWith ", " parts, none)
          ∧ (uc.Arguments.length = uc.Columns.length →
              ∀ (i : Nat) (c : String) (a : Argument),
                uc.Columns[i]? = some c → uc.Arguments[i]? = some a →
                (a = Argument.nil → parts[i]? = some (Quoter.quote c ++ "=VALUES(" ++ Quoter.quote c ++ ")"))
                ∧ (a ≠ Argument.nil → (∀ sql inner, a ≠ Argument.expr sql inner) →
                    parts[i]? = some (Quoter.quote c ++ "=?"))
                ∧ (∀ sql inner, a = Argument.expr sql inner →
                    parts[i]? = some (Quoter.quote c ++ "=" ++ sql)))
          ∧ (uc.Arguments = [] →
              ∀ (i : Nat) (c : String), uc.Columns[i]? = some c →
                parts[i]? = some (Quoter.quote c ++ "=VALUES(" ++ Quoter.quote c ++ ")"))) := by
  have e1 : ∀ x : String, "=" ++ ("VALUES(" ++ x) = "=VALUES(" ++ x := fun x => by
    rw [← String.append_assoc]; rfl
  have e2 : "=" ++ "?" = "=?" := by decide
  constructor
  · intro h
    simp [UpdatedColumns.writeOnDuplicateKey, h]
  · intro hne
    have hlen : ¬ uc.Columns.length = 0 := fun h => hne (List.length_eq_zero.mp h)
    refine ⟨onDuplicateKeyAssignments (decide (uc.Arguments.length = uc.Columns.length))
      uc.Arguments 0 uc.Columns, onDuplicateKeyAssignments_length _ _ _ _, ?_, ?_, ?_⟩
    · simp only [UpdatedColumns.writeOnDuplicateKey, hlen, if_false, writeOnDuplicateKeyLoop_join]
    · intro heq i c a hc ha
      rw [onDuplicateKeyAssignments_getElem? _ _ _ 0 i c hc]
      simp only [heq, decide_True, Nat.zero_add, writeOnDuplicateKeyColumn, if_true, ha,
        Option.some.injEq]
      refine ⟨?_, ?_, ?_⟩
      · intro h; subst h
        simp only [String.append_assoc, e1]
      · intro h1 h2
        cases a <;> first
          | exact absurd rfl h1
          | exact absurd rfl (h2 _ _)
          | simp only [String.append_assoc, e2]
      · intro sql inner h; subst h
        simp only [String.append_assoc]
    · intro hnil i c hc
      rw [onDuplicateKeyAssignments_getElem? _ _ _ 0 i c hc]
      have hd : decide (uc.Arguments.length = uc.Columns.length) = false := by
        rw [hnil]
        simp only [List.length_nil, decide_eq_false_iff_not]
        exact fun h => hlen h.symm
      simp only [hd, writeOnDuplicateKeyColumn, Bool.false_eq_true, if_false,
        String.append_assoc, e1]

/-- The text of `ExampleInsert_AddOnDuplicateKey`. -/
theorem writeOnDuplicateKey_example :
    onDuplicateKeyNameEmail.writeOnDuplicateKey
      = (" ON DUPLICATE KEY UPDATE `name`=?, `email`=VALUES(`email`)", none)
    ∧ ({ Columns := ["name", "sku"] } : UpdatedColumns).writeOnDuplicateKey
      = (" ON DUPLICATE KEY UPDATE `name`=VALUES(`name`), `sku`=VALUES(`sku`)", none) := by
  refine ⟨by rfl, by rfl⟩

/-! ## SET columns and their arguments (C26) -/

/-- C26 fails on `NewUpdate("t").AddColumns("a").Set("b", ArgExpr("`b`+?", ArgInt(1)))`:
the argument of `Set` is the first of the arguments and `toSQL` pairs it with
the first of the columns, so the column `a` of `AddColumns` is written with the
expression and the column `b` of `Set` with a `?`. -/
theorem set_expression_written_for_added_column :
    updateAddColumnsThenSet.SetClauses.Columns = ["a", "b"]
    ∧ updateAddColumnsThenSet.SetClauses.Arguments = [Argument.expr "`b`+?" [Argument.int 1]]
    ∧ updateAddColumnsThenSet.toSQL.text = "UPDATE `t` SET `a`=`b`+?, `b`=?"
    ∧ updateAddColumnsThenSet.toSQL.err = none
    ∧ updateAddColumnsThenSet.appendArgs [] = .ok [Argument.int 1] := by
  refine ⟨by rfl, by rfl, by rfl, by rfl, by rfl⟩

/-! ## Interpolation and Repeat (C27, C28) -/

theorem not_mem_of_noPlaceHolder (s : String) (h : noPlaceHolder s = true) : '?' ∉ s.data := by
  simpa [noPlaceHolder] using h

theorem interpolateChars_unchanged : ∀ (s rest : List Char) (args : Arguments), '?' ∉ s →
    interpolateChars (s ++ rest) args
      = match interpolateChars rest args with
        | .error e => .error e
        | .ok out => .ok (s ++ out)
  | [], rest, args, _ => by
      simp only [List.nil_append]
      cases interpolateChars rest args <;> rfl
  | c :: s, rest, args, h => by
      have hc : c ≠ '?' := fun hc => h (by simp [hc])
      have hs : '?' ∉ s := fun hs => h (by simp [hs])
      have ih := interpolateChars_unchanged s rest args hs
      cases args with
      | nil =>
        rw [List.cons_append, interpolateChars.eq_3]
        simp only [hc, if_false, ih]
        cases interpolateChars rest [] <;> rfl
      | cons a as =>
        rw [List.cons_append, interpolateChars.eq_4]
        simp only [hc, if_false, ih]
        cases interpolateChars rest (a :: as) <;> rfl

theorem interpolateChars_placeHolder (cs : List Char) (a : Argument) (rest : Arguments)
    (l : String) (h : a.literal = some l) :
    interpolateChars ('?' :: cs) (a :: rest)
      = match interpolateChars cs rest with
        | .error e => .error e
        | .ok out => .ok (l.data ++ out) := by
  rw [interpolateChars.eq_4]
  simp only [if_true, h]

theorem interpolateChars_weave : ∀ (args : Arguments) (segs lits : List String),
    (∀ s ∈ segs, noPlaceHolder s = true) → segs.length = args.length + 1 →
    args.map Argument.literal = lits.map some →
    interpolateChars (weave segs (args.map fun _ => "?")).data args = .ok (weave segs lits).data
  | [], segs, lits, hs, hl, hlit => by
      match segs, hl with
      | [s], _ =>
        have hno := not_mem_of_noPlaceHolder s (hs s (by simp))
        have h := interpolateChars_unchanged s.data [] [] hno
        cases lits with
        | nil =>
          simp only [List.append_nil, interpolateChars] at h
          simp only [List.map_nil, weave, h]
        | cons l ls => simp at hlit
  | a :: as, segs, lits, hs, hl, hlit => by
      match segs, hl, lits, hlit with
      | s :: rest, hl, l :: ls, hlit =>
        simp only [List.map_cons, List.cons.injEq] at hlit
        have hno := not_mem_of_noPlaceHolder s (hs s (by simp))
        have ih := interpolateChars_weave as rest ls (fun x hx => hs x (by simp [hx]))
          (by simpa using hl) hlit.2
        have hq : ("?" : String).data = ['?'] := rfl
        simp only [List.map_cons, weave, String.data_append, List.append_assoc, hq,
          List.singleton_append]
        rw [interpolateChars_unchanged _ _ _ hno, interpolateChars_placeHolder _ _ _ l hlit.1, ih]
      | s :: rest, hl, [], hlit => simp at hlit
      | [], hl, _, _ => simp at hl

/-- C27. Let a SQL text consist of pieces without `?` with one `?` between
each two, and let there be one argument with a literal for each `?`. Then
`interpolate` returns the pieces with the literals of the arguments between
them, in the order of the arguments: the `?` are replaced from left to right.
The literal of a sequence-valued argument is the list of the literals of its
elements joined by commas, and the `?` after it receive the arguments that
follow it. -/
theorem interpolate_replaces_left_to_right (segs lits : List String) (args : Arguments)
    (hseg : ∀ s ∈ segs, noPlaceHolder s = true) (hlen : segs.length = args.length + 1)
    (hlit : args.map Argument.literal = lits.map some) :
    interpolate (weave segs (args.map fun _ => "?")) args = .ok (weave segs lits)
    ∧ (∀ vs : List Int, (Argument.ints vs).literal = some (joinWith "," (vs.map intLiteral)))
    ∧ (∀ ss : List String, (Argument.strs ss).literal = some (joinWith "," (ss.map strLiteral))) := by
  refine ⟨?_, fun _ => rfl, fun _ => rfl⟩
  unfold interpolate
  rw [interpolateChars_weave args segs lits hseg hlen hlit]

/-- C27 at `ExampleInterpolate`. -/
theorem interpolate_replaces_left_to_right_witness :
    interpolate
        "SELECT * FROM x WHERE a IN (?) AND b IN (?) AND c NOT IN (?) AND d BETWEEN ? AND ?"
        interpolateExampleArgs
      = .ok "SELECT * FROM x WHERE a IN (1) AND b IN (1,2,3) AND c NOT IN (5,6,7) AND d BETWEEN 'wat' AND 'ok'" :=
  (interpolate_replaces_left_to_right interpolateExamplePieces
    ["1", "1,2,3", "5,6,7", "'wat'", "'ok'"] interpolateExampleArgs (by decide) (by rfl)
    (by rfl)).1

theorem repeatChars_unchanged : ∀ (s rest : List Char) (args : Arguments), '?' ∉ s →
    repeatChars (s ++ rest) args
      = match repeatChars rest args with
        | .error e => .error e
        | .ok out => .ok (s ++ out)
  | [], rest, args, _ => by
      simp only [List.nil_append]
      cases repeatChars rest args <;> rfl
  | c :: s, rest, args, h => by
      have hc : c ≠ '?' := fun hc => h (by simp [hc])
      have hs : '?' ∉ s := fun hs => h (by simp [hs])
      have ih := repeatChars_unchanged s rest args hs
      cases args with
      | nil =>
        rw [List.cons_append, repeatChars.eq_3]
        simp only [hc, if_false, ih]
        cases repeatChars rest [] <;> rfl
      | cons a as =>
        rw [List.cons_append, repeatChars.eq_4]
        simp only [hc, if_false, ih]
        cases repeatChars rest (a :: as) <;> rfl

theorem repeatChars_weave : ∀ (args : Arguments) (segs : List String),
    (∀ s ∈ segs, noPlaceHolder s = true) → segs.length = args.length + 1 →
    repeatChars (weave segs (args.map fun _ => "?")).data args
      = .ok (weave segs (args.map fun a => placeHolders a.len)).data
  | [], segs, hs, hl => by
      match segs, hl with
      | [s], _ =>
        have hno := not_mem_of_noPlaceHolder s (hs s (by simp))
        have h := repeatChars_unchanged s.data [] [] hno
        simp only [List.append_nil, repeatChars] at h
        simp only [List.map_nil, weave, h]
  | a :: as, segs, hs, hl => by
      match segs, hl with
      | s :: rest, hl =>
        have hno := not_mem_of_noPlaceHolder s (hs s (by simp))
        have ih := repeatChars_weave as rest (fun x hx => hs x (by simp [hx]))
          (by simpa using hl)
        have hq : ("?" : String).data = ['?'] := rfl
        simp only [List.map_cons, weave, String.data_append, List.append_assoc, hq,
          List.singleton_append]
        rw [repeatChars_unchanged _ _ _ hno, repeatChars.eq_4]
        simp only [if_true, ih]
      | [], hl => simp at hl

theorem countPlaceHolders_weave_placeHolders : ∀ (args : Arguments) (segs : List String),
    (∀ s ∈ segs, noPlaceHolder s = true) → segs.length = args.length + 1 →
    countPlaceHolders (weave segs (args.map fun a => placeHolders a.len)) = slots args
  | [], segs, hs, hl => by
      match segs, hl with
      | [s], _ =>
        simp only [List.map_nil, weave, slots]
        exact countPlaceHolders_of_noPlaceHolder s (hs s (by simp))
  | a :: as, segs, hs, hl => by
      match segs, hl with
      | s :: rest, hl =>
        have ih := countPlaceHolders_weave_placeHolders as rest (fun x hx => hs x (by simp [hx]))
          (by simpa using hl)
        simp only [List.map_cons, weave, countPlaceHolders_append, slots, ih,
          countPlaceHolders_placeHolders, countPlaceHolders_of_noPlaceHolder s (hs s (by simp))]
        omega
      | [], hl => simp at hl

/-- C28. Let a template consist of pieces without `?` with one `?` between
each two, and let there be one argument for each `?`. Then `Repeat` returns the
pieces unchanged with, in place of the `?` at index `i`, as many `?` joined by
commas as the argument at index `i` has elements; the result has as many `?` as
the arguments have values. -/
theorem repeat_expands_placeholders (segs : List String) (args : Arguments)
    (hseg : ∀ s ∈ segs, noPlaceHolder s = true) (hlen : segs.length = args.length + 1) :
    Repeat (weave segs (args.map fun _ => "?")) args
      = .ok (weave segs (args.map fun a => placeHolders a.len))
    ∧ countPlaceHolders (weave segs (args.map fun a => placeHolders a.len)) = slots args := by
  refine ⟨?_, countPlaceHolders_weave_placeHolders args segs hseg hlen⟩
  unfold Repeat
  rw [repeatChars_weave args segs hseg hlen]

/-- C28 at `ExampleRepeat`: three integers and five strings. -/
theorem repeat_expands_placeholders_witness :
    Repeat "SELECT * FROM `table` WHERE id IN (?) AND name IN (?)" repeatExampleArgs
      = .ok "SELECT * FROM `table` WHERE id IN (?,?,?) AND name IN (?,?,?,?,?)"
    ∧ countPlaceHolders "SELECT * FROM `table` WHERE id IN (?,?,?) AND name IN (?,?,?,?,?)" = 8
    ∧ slots repeatExampleArgs = 8 :=
  have h := repeat_expands_placeholders repeatExamplePieces repeatExampleArgs (by decide) (by rfl)
  ⟨h.1, h.2, by rfl⟩

/-! ## The steps of the argument pass -/

theorem appendArgsLoop_using (ct : Char) (f : WhereFragment) (rest : WhereFragments)
    (args : Arguments) (pap : List Nat) (cnt : Nat) (h : endsAtUsing ct f = true) :
    appendArgsLoop ct (f :: rest) args pap cnt = ⟨args, pap, none⟩ := by
  simp only [endsAtUsing, Bool.and_eq_true, beq_iff_eq, decide_eq_true_eq] at h
  simp only [appendArgsLoop, h, and_self, if_true]

theorem appendArgsLoop_marker (ct : Char) (f : WhereFragment) (rest : WhereFragments)
    (args : Arguments) (pap : List Nat) (cnt : Nat) (hu : endsAtUsing ct f = false)
    (hm : f.isMarker = true) :
    appendArgsLoop ct (f :: rest) args pap cnt = appendArgsLoop ct rest args pap cnt := by
  have hu2 : ¬ (ct = 'j' ∧ f.Using.length > 0) := by
    simpa [endsAtUsing] using hu
  simp only [WhereFragment.isMarker, Bool.or_eq_true, beq_iff_eq] at hm
  simp only [appendArgsLoop, hu2, if_false]
  rcases hm with hm | hm
  · simp only [hm, if_true]
  · simp only [hm, if_true]
    split <;> rfl

theorem appendArgsLoop_fragment (ct : Char) (f : WhereFragment) (rest : WhereFragments)
    (args : Arguments) (pap : List Nat) (cnt : Nat) (hu : endsAtUsing ct f = false)
    (hm : f.isMarker = false) :
    (∀ e, f.argumentError = some e →
        appendArgsLoop ct (f :: rest) args pap cnt = ⟨[], pap, some e⟩)
    ∧ (f.argumentError = none →
        appendArgsLoop ct (f :: rest) args pap cnt
          = appendArgsLoop ct rest (args ++ fragmentArguments f)
              (if f.isPending then pap ++ [cnt] else pap) (cnt + 1)) := by
  have hu2 : ¬ (ct = 'j' ∧ f.Using.length > 0) := by
    simpa [endsAtUsing] using hu
  simp only [WhereFragment.isMarker, Bool.or_eq_false_iff, beq_eq_false_iff_ne] at hm
  obtain ⟨hc, ho⟩ := hm
  have hco : ¬ (f.Condition = ")" ∨ f.Condition = "(") := by
    rintro (h | h)
    · exact hc h
    · exact ho h
  constructor
  · intro e h
    simp only [appendArgsLoop, hu2, if_false, if_neg hc, if_neg ho]
    simp only [WhereFragment.argumentError] at h
    rcases Bool.eq_false_or_eq_true f.IsExpression with he | he
    · simp [he] at h
    · simp only [he, Bool.false_eq_true, if_false] at h ⊢
      rcases Bool.eq_false_or_eq_true f.IsPlaceHolder with hp | hp
      · simp only [hp, if_true] at h ⊢
        rcases hw : writeOperator 1 f.Operator with e1 | r
        · rw [hw] at h; simpa using h
        · rw [hw] at h; cases h
      · simp only [hp, Bool.false_eq_true, if_false] at h ⊢
        rcases Bool.eq_false_or_eq_true f.Argument.isSet with hs | hs
        · simp only [hs, if_true] at h ⊢
          rcases hw : writeOperator f.Argument.len f.Operator with e1 | r
          · rw [hw] at h; simpa using h
          · rw [hw] at h; cases h
        · simp only [hs, Bool.false_eq_true, if_false] at h ⊢
          rcases hsub : f.SubSelect with _ | s
          · rw [hsub] at h; cases h
          · rw [hsub] at h
            simp only [] at h ⊢
            rcases hse : s.err with _ | e1
            · rw [hse] at h; cases h
            · rw [hse] at h; simpa using h
  · intro h
    simp only [appendArgsLoop, hu2, if_false, if_neg hc, if_neg ho, fragmentArguments, hco,
      WhereFragment.isPending]
    simp only [WhereFragment.argumentError] at h
    rcases Bool.eq_false_or_eq_true f.IsExpression with he | he
    · rcases Bool.eq_false_or_eq_true f.Argument.isSet with hs | hs <;>
        simp [he, hs]
    · simp only [he, Bool.false_eq_true, if_false, Bool.not_false, Bool.true_and] at h ⊢
      rcases Bool.eq_false_or_eq_true f.IsPlaceHolder with hp | hp
      · simp only [hp, if_true] at h ⊢
        rcases hw : writeOperator 1 f.Operator with e1 | r
        · rw [hw] at h; cases h
        · rcases Bool.eq_false_or_eq_true r.2 with hr | hr <;>
            rcases Bool.eq_false_or_eq_true f.Argument.isSet with hs | hs <;>
            simp [addsArgument, hw, hr, hs]
      · simp only [hp, Bool.false_eq_true, if_false] at h ⊢
        rcases Bool.eq_false_or_eq_true f.Argument.isSet with hs | hs
        · simp only [hs, if_true] at h ⊢
          rcases hw : writeOperator f.Argument.len f.Operator with e1 | r
          · rw [hw] at h; cases h
          · rcases Bool.eq_false_or_eq_true r.2 with hr | hr <;>
              simp [addsArgument, hw, hr]
        · simp only [hs, Bool.false_eq_true, if_false] at h ⊢
          rcases hsub : f.SubSelect with _ | s
          · simp
          · rw [hsub] at h
            simp only [] at h ⊢
            rcases hse : s.err with _ | e1
            · simp
            · rw [hse] at h; cases h

theorem fragmentArguments_marker (m : WhereFragment) (hm : m.isMarker = true) :
    fragmentArguments m = [] := by
  simp only [WhereFragment.isMarker, Bool.or_eq_true, beq_iff_eq] at hm
  simp only [fragmentArguments, hm, if_true]

/-- The successful argument pass appends, to the arguments passed in, the
arguments of the fragments it walks, in list order. -/
theorem appendArgsLoop_walked (ct : Char) :
    ∀ (wfs : WhereFragments) (args : Arguments) (pap : List Nat) (cnt : Nat),
      (appendArgsLoop ct wfs args pap cnt).err = none →
      (appendArgsLoop ct wfs args pap cnt).args = args ++ whereArguments (walked ct wfs)
  | [], args, pap, cnt, _ => by simp [appendArgsLoop, whereArguments, walked]
  | f :: rest, args, pap, cnt, hok => by
      rcases Bool.eq_false_or_eq_true (endsAtUsing ct f) with hu | hu
      · rw [appendArgsLoop_using ct f rest args pap cnt hu]
        simp [walked, hu, whereArguments]
      · rcases Bool.eq_false_or_eq_true f.isMarker with hm | hm
        · rw [appendArgsLoop_marker ct f rest args pap cnt hu hm] at hok ⊢
          rw [appendArgsLoop_walked ct rest args pap cnt hok]
          simp [walked, hu, whereArguments, fragmentArguments_marker f hm]
        · obtain ⟨h1, h2⟩ := appendArgsLoop_fragment ct f rest args pap cnt hu hm
          rcases he : f.argumentError with _ | e
          · rw [h2 he] at hok ⊢
            rw [appendArgsLoop_walked ct rest _ _ _ hok]
            simp [walked, hu, whereArguments]
          · rw [h1 e he] at hok
            cases hok

/-- A parenthesis marker can be taken out of a list without a change to the
argument pass. -/
theorem appendArgsLoop_without_marker (ct : Char) (m : WhereFragment) (post : WhereFragments)
    (hm : m.isMarker = true) (hu : endsAtUsing ct m = false) :
    ∀ (pre : WhereFragments) (args : Arguments) (pap : List Nat) (cnt : Nat),
      appendArgsLoop ct (pre ++ m :: post) args pap cnt
        = appendArgsLoop ct (pre ++ post) args pap cnt
  | [], args, pap, cnt => by
      simp only [List.nil_append]
      exact appendArgsLoop_marker ct m post args pap cnt hu hm
  | f :: pre, args, pap, cnt => by
      have ih := appendArgsLoop_without_marker ct m post hm hu pre
      simp only [List.cons_append]
      rcases Bool.eq_false_or_eq_true (endsAtUsing ct f) with hfu | hfu
      · rw [appendArgsLoop_using ct f _ args pap cnt hfu,
          appendArgsLoop_using ct f _ args pap cnt hfu]
      · rcases Bool.eq_false_or_eq_true f.isMarker with hfm | hfm
        · rw [appendArgsLoop_marker ct f _ args pap cnt hfu hfm,
            appendArgsLoop_marker ct f _ args pap cnt hfu hfm, ih]
        · rcases he : f.argumentError with _ | e
          · rw [(appendArgsLoop_fragment ct f _ args pap cnt hfu hfm).2 he,
              (appendArgsLoop_fragment ct f _ args pap cnt hfu hfm).2 he, ih]
          · rw [(appendArgsLoop_fragment ct f _ args pap cnt hfu hfm).1 e he,
              (appendArgsLoop_fragment ct f _ args pap cnt hfu hfm).1 e he]

/-! ## What the argument pass keeps (C37) -/

/-- C37. When `WhereFragments.appendArgs` succeeds, the sequence it returns is
the sequence passed in followed by the arguments of the fragments that the
loop walks, in list order, so the sequence passed in is a prefix of it. A
parenthesis marker contributes no entry whatever its argument fields are:
with the marker taken out of the list the pass returns the same (in join
mode, for a marker that carries no USING list, at which the loop would
end). -/
theorem appendArgs_extends_passed_arguments (wfs : WhereFragments) (args : Arguments) (ct : Char)
    (h : (wfs.appendArgs args ct).err = none) :
    (wfs.appendArgs args ct).args = args ++ whereArguments (walked ct wfs)
    ∧ args <+: (wfs.appendArgs args ct).args
    ∧ (∀ m : WhereFragment, m.isMarker = true → fragmentArguments m = [])
    ∧ (∀ (pre post : WhereFragments) (m : WhereFragment), wfs = pre ++ m :: post →
        m.isMarker = true → endsAtUsing ct m = false →
        WhereFragments.appendArgs (pre ++ post) args ct = wfs.appendArgs args ct) := by
  have hargs : (wfs.appendArgs args ct).args = args ++ whereArguments (walked ct wfs) := by
    unfold WhereFragments.appendArgs at h ⊢
    split
    · rename_i h0
      have : wfs = [] := List.length_eq_zero.mp h0
      simp [this, whereArguments, walked]
    · rename_i h0
      simp only [h0, if_false] at h
      exact appendArgsLoop_walked ct wfs args [] args.length h
  refine ⟨hargs, ⟨_, hargs.symm⟩, fragmentArguments_marker, ?_⟩
  intro pre post m hw hm hu
  subst hw
  unfold WhereFragments.appendArgs
  have hne : ¬ (pre ++ m :: post).length = 0 := by simp
  simp only [hne, if_false, appendArgsLoop_without_marker ct m post hm hu pre]
  split
  · rename_i h0
    have h1 : pre ++ post = [] := List.length_eq_zero.mp h0
    rw [h1]
    simp [appendArgsLoop]
  · rfl

/-- C37 at a list whose opening marker carries an argument, with the argument
7 passed in: the pass returns 7 and the argument of the column. -/
theorem appendArgs_extends_passed_arguments_witness :
    (whereMarkerWithArgument.appendArgs [Argument.int 7] 'w').args
      = [Argument.int 7, Argument.int 1]
    ∧ [Argument.int 7] <+: (whereMarkerWithArgument.appendArgs [Argument.int 7] 'w').args :=
  have h := appendArgs_extends_passed_arguments whereMarkerWithArgument [Argument.int 7] 'w'
    (by rfl)
  ⟨h.1.trans (by rfl), h.2.1⟩

/-! ## The recorded positions (C33) -/

theorem appendArgsLoop_pendingArgPos (ct : Char) :
    ∀ (wfs : WhereFragments) (args : Arguments) (pap : List Nat) (cnt : Nat),
      (appendArgsLoop ct wfs args pap cnt).err = none →
      (appendArgsLoop ct wfs args pap cnt).pendingArgPos
        = pap ++ pendingPositions cnt (walked ct wfs)
  | [], args, pap, cnt, _ => by simp [appendArgsLoop, pendingPositions, walked]
  | f :: rest, args, pap, cnt, hok => by
      rcases Bool.eq_false_or_eq_true (endsAtUsing ct f) with hu | hu
      · rw [appendArgsLoop_using ct f rest args pap cnt hu]
        simp [walked, hu, pendingPositions]
      · rcases Bool.eq_false_or_eq_true f.isMarker with hm | hm
        · rw [appendArgsLoop_marker ct f rest args pap cnt hu hm] at hok ⊢
          rw [appendArgsLoop_pendingArgPos ct rest args pap cnt hok]
          simp [walked, hu, pendingPositions, hm]
        · obtain ⟨h1, h2⟩ := appendArgsLoop_fragment ct f rest args pap cnt hu hm
          rcases he : f.argumentError with _ | e
          · rw [h2 he] at hok ⊢
            rw [appendArgsLoop_pendingArgPos ct rest _ _ _ hok]
            rcases Bool.eq_false_or_eq_true f.isPending with hp | hp <;>
              simp [walked, hu, pendingPositions, hm, hp]
          · rw [h1 e he] at hok
            cases hok

theorem countNonMarkers_cons (f : WhereFragment) (l : WhereFragments) :
    countNonMarkers (f :: l) = (if f.isMarker then 0 else 1) + countNonMarkers l := by
  unfold countNonMarkers
  rcases Bool.eq_false_or_eq_true f.isMarker with hm | hm <;>
    simp [List.countP_cons, hm, Nat.add_comm]

theorem pendingPositions_bounds : ∀ (l : WhereFragments) (cnt p : Nat),
    p ∈ pendingPositions cnt l → cnt ≤ p ∧ p < cnt + countNonMarkers l
  | [], cnt, p, h => by simp [pendingPositions] at h
  | f :: rest, cnt, p, h => by
      rw [countNonMarkers_cons]
      rcases Bool.eq_false_or_eq_true f.isMarker with hm | hm
      · simp only [pendingPositions, hm, if_true] at h ⊢
        have := pendingPositions_bounds rest cnt p h
        omega
      · simp only [pendingPositions, hm, Bool.false_eq_true, if_false, List.mem_append] at h ⊢
        rcases h with h | h
        · have hp : p = cnt := by
            split at h
            · simpa using h
            · simp at h
          omega
        · have := pendingPositions_bounds rest (cnt + 1) p h
          omega

theorem pendingPositions_increasing : ∀ (l : WhereFragments) (cnt : Nat),
    (pendingPositions cnt l).Pairwise (fun a b => a < b)
  | [], cnt => by simp [pendingPositions]
  | f :: rest, cnt => by
      rcases Bool.eq_false_or_eq_true f.isMarker with hm | hm
      · simp only [pendingPositions, hm, if_true]
        exact pendingPositions_increasing rest cnt
      · simp only [pendingPositions, hm, Bool.false_eq_true, if_false]
        rw [List.pairwise_append]
        refine ⟨?_, pendingPositions_increasing rest (cnt + 1), ?_⟩
        · split <;> simp
        · intro a ha b hb
          have hb2 := pendingPositions_bounds rest (cnt + 1) b hb
          have ha2 : a = cnt := by
            split at ha
            · simpa using ha
            · simp at ha
          omega

theorem pendingPositions_length : ∀ (l : WhereFragments) (cnt : Nat),
    (pendingPositions cnt l).length = l.countP (fun f => f.isPending && !f.isMarker)
  | [], cnt => by simp [pendingPositions]
  | f :: rest, cnt => by
      rcases Bool.eq_false_or_eq_true f.isMarker with hm | hm
      · simp [pendingPositions, hm, List.countP_cons, pendingPositions_length rest cnt]
      · rcases Bool.eq_false_or_eq_true f.isPending with hp | hp <;>
          simp [pendingPositions, hm, hp, List.countP_cons,
            pendingPositions_length rest (cnt + 1), Nat.add_comm]

theorem pendingPositions_mem_of_split : ∀ (pre : WhereFragments) (f : WhereFragment)
    (post : WhereFragments) (cnt : Nat), f.isPending = true → f.isMarker = false →
    cnt + countNonMarkers pre ∈ pendingPositions cnt (pre ++ f :: post)
  | [], f, post, cnt, hp, hm => by
      simp [pendingPositions, hm, hp, countNonMarkers]
  | g :: pre, f, post, cnt, hp, hm => by
      rw [List.cons_append, countNonMarkers_cons]
      rcases Bool.eq_false_or_eq_true g.isMarker with hg | hg
      · simp only [pendingPositions, hg, if_true, Nat.zero_add]
        exact pendingPositions_mem_of_split pre f post cnt hp hm
      · simp only [pendingPositions, hg, Bool.false_eq_true, if_false, List.mem_append]
        right
        have := pendingPositions_mem_of_split pre f post (cnt + 1) hp hm
        rw [Nat.add_assoc] at this
        exact this

theorem pendingPositions_split_of_mem : ∀ (l : WhereFragments) (cnt p : Nat),
    p ∈ pendingPositions cnt l →
    ∃ (pre : WhereFragments) (f : WhereFragment) (post : WhereFragments),
      l = pre ++ f :: post ∧ f.isPending = true ∧ f.isMarker = false
        ∧ p = cnt + countNonMarkers pre
  | [], cnt, p, h => by simp [pendingPositions] at h
  | g :: rest, cnt, p, h => by
      rcases Bool.eq_false_or_eq_true g.isMarker with hg | hg
      · simp only [pendingPositions, hg, if_true] at h
        obtain ⟨pre, f, post, h1, h2, h3, h4⟩ := pendingPositions_split_of_mem rest cnt p h
        refine ⟨g :: pre, f, post, by rw [h1]; rfl, h2, h3, ?_⟩
        rw [countNonMarkers_cons, hg, h4]
        simp
      · simp only [pendingPositions, hg, Bool.false_eq_true, if_false, List.mem_append] at h
        rcases h with h | h
        · rcases Bool.eq_false_or_eq_true g.isPending with hp | hp
          · simp only [hp, if_true, List.mem_singleton] at h
            exact ⟨[], g, rest, rfl, hp, hg, by simp [h, countNonMarkers]⟩
          · simp [hp] at h
        · obtain ⟨pre, f, post, h1, h2, h3, h4⟩ :=
            pendingPositions_split_of_mem rest (cnt + 1) p h
          refine ⟨g :: pre, f, post, by rw [h1]; rfl, h2, h3, ?_⟩
          rw [countNonMarkers_cons, hg, h4]
          simp only [Bool.false_eq_true, if_false]
          omega

/-- C33. When `WhereFragments.appendArgs` succeeds, the positions it returns are
those of the fragments it walks (in join mode the fragments before the first
USING fragment) that are placeholders, no expressions and no parenthesis
markers: they are strictly increasing, there are as many as such fragments,
and a number is among them exactly when it is the length of the argument
sequence passed in plus the number of non-marker fragments before such a
fragment. -/
theorem appendArgs_records_placeholder_positions (wfs : WhereFragments) (args : Arguments)
    (ct : Char) (h : (wfs.appendArgs args ct).err = none) :
    (wfs.appendArgs args ct).pendingArgPos = pendingPositions args.length (walked ct wfs)
    ∧ (wfs.appendArgs args ct).pendingArgPos.Pairwise (fun a b => a < b)
    ∧ (wfs.appendArgs args ct).pendingArgPos.length
        = (walked ct wfs).countP (fun f => f.isPending && !f.isMarker)
    ∧ (∀ p : Nat, p ∈ (wfs.appendArgs args ct).pendingArgPos ↔
        ∃ (pre : WhereFragments) (f : WhereFragment) (post : WhereFragments),
          walked ct wfs = pre ++ f :: post ∧ f.isPending = true ∧ f.isMarker = false
            ∧ p = args.length + countNonMarkers pre) := by
  have hpos : (wfs.appendArgs args ct).pendingArgPos
      = pendingPositions args.length (walked ct wfs) := by
    unfold WhereFragments.appendArgs at h ⊢
    split
    · rename_i h0
      have : wfs = [] := List.length_eq_zero.mp h0
      simp [this, pendingPositions, walked]
    · rename_i h0
      simp only [h0, if_false] at h
      simpa using appendArgsLoop_pendingArgPos ct wfs args [] args.length h
  rw [hpos]
  refine ⟨rfl, pendingPositions_increasing _ _, pendingPositions_length _ _, ?_⟩
  intro p
  constructor
  · exact pendingPositions_split_of_mem _ _ _
  · rintro ⟨pre, f, post, h1, h2, h3, h4⟩
    rw [h1, h4]
    exact pendingPositions_mem_of_split pre f post _ h2 h3

/-- C33 at the list `a = 1`, `(`, placeholder `b`, placeholder `c`, `)` with two
arguments passed in: the positions 3 and 4. -/
theorem appendArgs_records_placeholder_positions_witness :
    (whereTwoPlaceHolders.appendArgs [Argument.int 8, Argument.int 9] 'w').pendingArgPos = [3, 4]
    ∧ (whereTwoPlaceHolders.appendArgs [Argument.int 8, Argument.int 9] 'w').pendingArgPos.Pairwise
        (fun a b => a < b) :=
  have h := appendArgs_records_placeholder_positions whereTwoPlaceHolders
    [Argument.int 8, Argument.int 9] 'w' (by rfl)
  ⟨h.1.trans (by rfl), h.2.1⟩

/-! ## Assembled values in the place of the placeholders (C31) -/

theorem walked_where (wfs : WhereFragments) : walked 'w' wfs = wfs := by
  induction wfs with
  | nil => rfl
  | cons f rest ih =>
    have : endsAtUsing 'w' f = false := by simp [endsAtUsing]
    simp [walked, this, ih]

theorem appendArgsLoop_where_ok :
    ∀ (wfs : WhereFragments) (args : Arguments) (pap : List Nat) (cnt : Nat),
      (∀ f ∈ wfs, f.isMarker = false → f.argumentError = none) →
      (appendArgsLoop 'w' wfs args pap cnt).err = none
  | [], args, pap, cnt, _ => by simp [appendArgsLoop]
  | f :: rest, args, pap, cnt, h => by
      have hu : endsAtUsing 'w' f = false := by simp [endsAtUsing]
      have ih := fun a p c => appendArgsLoop_where_ok rest a p c
        (fun g hg => h g (by simp [hg]))
      rcases Bool.eq_false_or_eq_true f.isMarker with hm | hm
      · rw [appendArgsLoop_marker 'w' f rest args pap cnt hu hm]
        exact ih _ _ _
      · rw [(appendArgsLoop_fragment 'w' f rest args pap cnt hu hm).2 (h f (by simp) hm)]
        exact ih _ _ _

theorem whereArguments_length : ∀ (wfs : WhereFragments),
    (∀ f ∈ wfs, f.isMarker = false → (fragmentArguments f).length = 1) →
    (whereArguments wfs).length = countNonMarkers wfs
  | [], _ => by simp [whereArguments, countNonMarkers]
  | f :: rest, h => by
      have ih := whereArguments_length rest (fun g hg => h g (by simp [hg]))
      rw [countNonMarkers_cons]
      simp only [whereArguments, List.length_append, ih]
      rcases Bool.eq_false_or_eq_true f.isMarker with hm | hm
      · simp [fragmentArguments_marker f hm, hm]
      · simp [h f (by simp) hm, hm]

theorem boundEntries_nil : ∀ (wfs : WhereFragments), boundEntries wfs [] = whereArguments wfs
  | [] => rfl
  | f :: rest => by
      rcases Bool.eq_false_or_eq_true f.isMarker with hm | hm
      · simp [boundEntries, whereArguments, hm, fragmentArguments_marker f hm,
          boundEntries_nil rest]
      · rcases Bool.eq_false_or_eq_true f.isPending with hp | hp <;>
          simp [boundEntries, whereArguments, hm, hp, boundEntries_nil rest]

theorem getElem?_append_cons_ne (args : Arguments) (a v : Argument) (w : Arguments) (k : Nat)
    (hk : k ≠ args.length) : (args ++ a :: w)[k]? = (args ++ v :: w)[k]? := by
  rcases Nat.lt_or_ge k args.length with h | h
  · rw [List.getElem?_append_left h, List.getElem?_append_left h]
  · rw [List.getElem?_append_right h, List.getElem?_append_right h]
    have : k - args.length = (k - args.length - 1) + 1 := by omega
    rw [this]
    simp

/-- A sequence that agrees with the staged arguments outside the recorded
positions and holds the assembled values at the recorded positions is the
sequence of the bound entries. -/
theorem eq_boundEntries_of_positions : ∀ (wfs : WhereFragments) (args values res : Arguments),
    (∀ f ∈ wfs, f.isMarker = false → (fragmentArguments f).length = 1) →
    values.length = (pendingPositions args.length wfs).length →
    res.length = args.length + countNonMarkers wfs →
    (∀ j, j < values.length → res[(pendingPositions args.length wfs).getD j 0]? = values[j]?) →
    (∀ k, k < args.length + countNonMarkers wfs → k ∉ pendingPositions args.length wfs →
      res[k]? = (args ++ whereArguments wfs)[k]?) →
    res = args ++ boundEntries wfs values
  | [], args, values, res, _, _, hlen, _, hout => by
      simp only [boundEntries, List.append_nil]
      simp only [countNonMarkers, List.countP_nil, Nat.add_zero, pendingPositions,
        List.not_mem_nil, not_false_eq_true, whereArguments, List.append_nil,
        forall_true_left] at hlen hout
      apply List.ext_getElem?
      intro k
      rcases Nat.lt_or_ge k args.length with h | h
      · exact hout k h
      · rw [List.getElem?_eq_none (by omega), List.getElem?_eq_none h]
  | f :: rest, args, values, res, hone, hvals, hlen, hin, hout => by
      have hone2 : ∀ g ∈ rest, g.isMarker = false → (fragmentArguments g).length = 1 :=
        fun g hg => hone g (by simp [hg])
      rw [countNonMarkers_cons] at hlen hout
      rcases Bool.eq_false_or_eq_true f.isMarker with hm | hm
      · simp only [pendingPositions, hm, if_true, whereArguments, fragmentArguments_marker f hm,
          List.nil_append, Nat.zero_add] at hvals hlen hin hout
        simp only [boundEntries, hm, if_true]
        exact eq_boundEntries_of_positions rest args values res hone2 hvals hlen hin hout
      · obtain ⟨a, ha⟩ : ∃ a, fragmentArguments f = [a] := by
          have h1 := hone f (by simp) hm
          match hfa : fragmentArguments f, h1 with
          | [a], _ => exact ⟨a, rfl⟩
        simp only [hm, Bool.false_eq_true, if_false] at hlen hout
        rcases Bool.eq_false_or_eq_true f.isPending with hp | hp
        · simp only [pendingPositions, hm, hp, Bool.false_eq_true, if_false, if_true,
            List.singleton_append, List.length_cons] at hvals hin hout
          match values, hvals with
          | v :: vs, hvals =>
            simp only [boundEntries, hm, hp, Bool.false_eq_true, if_false, if_true]
            have hv0 : res[args.length]? = some v := by
              have := hin 0 (by simp)
              simpa using this
            have ih := eq_boundEntries_of_positions rest (args ++ [v]) vs res hone2
              (by simpa using hvals)
              (by simp only [List.length_append, List.length_singleton]; omega)
              (by
                intro j hj
                have := hin (j + 1) (by simpa using hj)
                simpa using this)
              (by
                intro k hk hkn
                simp only [List.length_append, List.length_singleton] at hk hkn
                rw [List.append_assoc, List.singleton_append]
                by_cases hkn2 : k = args.length
                · subst hkn2
                  rw [hv0, List.getElem?_append_right (le_refl _)]
                  simp
                · rw [hout k (by omega) (by simpa [hkn2] using hkn)]
                  simp only [whereArguments, ha, List.singleton_append]
                  exact getElem?_append_cons_ne args a v _ k hkn2)
            rw [ih]
            simp
        · simp only [pendingPositions, hm, hp, Bool.false_eq_true, if_false,
            List.nil_append] at hvals hin hout
          simp only [boundEntries, hm, hp, Bool.false_eq_true, if_false, ha]
          have ih := eq_boundEntries_of_positions rest (args ++ [a]) values res hone2
            (by simpa using hvals)
            (by simp only [List.length_append, List.length_singleton]; omega)
            (by simpa using hin)
            (by
              intro k hk hkn
              simp only [List.length_append, List.length_singleton] at hk hkn
              rw [hout k (by omega) hkn]
              simp [whereArguments, ha])
          rw [ih]
          simp

theorem appendArgs_pendingArgPos_where (wfs : WhereFragments) (args : Arguments)
    (h : (wfs.appendArgs args 'w').err = none) :
    (wfs.appendArgs args 'w').pendingArgPos = pendingPositions args.length wfs := by
  unfold WhereFragments.appendArgs at h ⊢
  split
  · rename_i h0
    have : wfs = [] := List.length_eq_zero.mp h0
    simp [this, pendingPositions]
  · rename_i h0
    simp only [h0, if_false] at h
    have := appendArgsLoop_pendingArgPos 'w' wfs args [] args.length h
    rw [walked_where] at this
    simpa using this

theorem appendArgs_where_ok (wfs : WhereFragments) (args : Arguments)
    (h : ∀ f ∈ wfs, f.isMarker = false → f.argumentError = none) :
    (wfs.appendArgs args 'w').err = none := by
  unfold WhereFragments.appendArgs
  split
  · rfl
  · exact appendArgsLoop_where_ok wfs args [] args.length h

/-- C31. Let every fragment of a WHERE list that is no parenthesis marker pass
the argument pass without failure and append exactly one entry, and let the
assembler append one value for each placeholder fragment. Then
`WhereFragments.appendArgs` followed by `appendAssembledArgs` returns the
sequence passed in followed by one entry for each non-marker fragment in list
order: the assembled values, in their order, for the placeholder fragments,
and for every other fragment the entry it appends itself, which for a column
condition with a direct argument is its `Argument`. -/
theorem assembled_values_replace_placeholder_entries (wfs : WhereFragments)
    (args values : Arguments) (record : ArgumentAssembler) (stmtType : StmtType)
    (columns : List String)
    (hone : ∀ f ∈ wfs, f.isMarker = false →
      f.argumentError = none ∧ (fragmentArguments f).length = 1)
    (hvals : values.length = wfs.countP (fun f => f.isPending && !f.isMarker))
    (hrec : record stmtType (wfs.appendArgs args 'w').args columns
      = .ok ((wfs.appendArgs args 'w').args ++ values)) :
    (wfs.appendArgs args 'w').err = none
    ∧ appendAssembledArgs (wfs.appendArgs args 'w').pendingArgPos (some record)
        (wfs.appendArgs args 'w').args stmtType columns
      = .ok (args ++ boundEntries wfs values)
    ∧ (∀ f ∈ wfs, f.isMarker = false → f.IsExpression = false → f.IsPlaceHolder = false →
        f.Argument.isSet = true → fragmentArguments f = [f.Argument]) := by
  have hok := appendArgs_where_ok wfs args (fun f hf hm => (hone f hf hm).1)
  have hone1 : ∀ f ∈ wfs, f.isMarker = false → (fragmentArguments f).length = 1 :=
    fun f hf hm => (hone f hf hm).2
  have hargs := appendArgs_where wfs args hok
  have hpos := appendArgs_pendingArgPos_where wfs args hok
  have hwl := whereArguments_length wfs hone1
  have hpl := pendingPositions_length wfs args.length
  refine ⟨hok, ?_, ?_⟩
  · rw [hargs] at hrec
    rw [hpos, hargs]
    unfold appendAssembledArgs
    simp only [hrec]
    rcases Nat.eq_zero_or_pos values.length with hz | hz
    · have hv : values = [] := List.length_eq_zero.mp hz
      subst hv
      simp only [List.append_nil, gt_iff_lt, lt_self_iff_false, if_false, boundEntries_nil]
    · have hgt : (args ++ whereArguments wfs ++ values).length
          > (args ++ whereArguments wfs).length := by
        simp only [List.length_append]; omega
      have hnew : (((args ++ whereArguments wfs ++ values).length : Nat) : Int)
          - ((pendingPositions args.length wfs).length : Int)
          = (((args ++ whereArguments wfs).length : Nat) : Int) := by
        simp only [List.length_append, hpl, ← hvals]
        push_cast
        omega
      obtain ⟨r, hr1, hrl, hr2, hr3⟩ := swapPending_spec (args ++ whereArguments wfs).length
        (pendingPositions args.length wfs) (args ++ whereArguments wfs).length
        (args ++ whereArguments wfs ++ values)
        ((pendingPositions_increasing wfs args.length).imp (fun h => Nat.ne_of_lt h))
        (fun p hp => by
          have := pendingPositions_bounds wfs args.length p hp
          simp only [List.length_append, hwl]; omega)
        (le_refl _)
        (by simp only [List.length_append, hpl, ← hvals]; omega)
      simp only [hgt, if_true, hnew, hr1, Int.toNat_ofNat]
      congr 1
      apply eq_boundEntries_of_positions wfs args values _ hone1 (by rw [hpl, hvals])
      · simp only [List.length_take, hrl, List.length_append, hwl]
        omega
      · intro j hj
        have hjp : j < (pendingPositions args.length wfs).length := by rw [hpl, ← hvals]; exact hj
        have hmem : (pendingPositions args.length wfs).getD j 0
            ∈ pendingPositions args.length wfs := by
          rw [List.getD_eq_getElem _ _ hjp]
          exact List.getElem_mem _
        have hb := pendingPositions_bounds wfs args.length _ hmem
        rw [List.getElem?_take_of_lt (by simp only [List.length_append, hwl]; omega), hr2 j hjp,
          List.getElem?_append_right (by omega)]
        simp
      · intro k hk hkn
        have hk2 : k < (args ++ whereArguments wfs).length := by
          simp only [List.length_append, hwl]; exact hk
        rw [List.getElem?_take_of_lt hk2, hr3 k hk2 hkn, List.getElem?_append_left hk2]
  · intro f hf hm he hp hs
    have h1 := hone1 f hf hm
    simp only [WhereFragment.isMarker, Bool.or_eq_false_iff, beq_eq_false_iff_ne] at hm
    have hco : ¬ (f.Condition = ")" ∨ f.Condition = "(") := by
      rintro (h | h)
      · exact hm.1 h
      · exact hm.2 h
    simp only [fragmentArguments, hco, if_false, he, hp, Bool.false_eq_true, hs, if_true] at h1 ⊢
    split at h1
    · rename_i ha
      simp only [ha, if_true]
      simp only [List.length_cons] at h1
      have : f.argumentsList = [] := List.length_eq_zero.mp (by omega)
      rw [this]
    · simp at h1

/-- C31 at the list `a = 1`, `(`, placeholder `b`, placeholder `c`, `)` with
the argument 8 passed in and an assembler that appends `vb` and `vc`. -/
theorem assembled_values_replace_placeholder_entries_witness :
    appendAssembledArgs (whereTwoPlaceHolders.appendArgs [Argument.int 8] 'w').pendingArgPos
        (some assemblerBC) (whereTwoPlaceHolders.appendArgs [Argument.int 8] 'w').args
        StmtType.updateWhere ["a", "b", "c"]
      = .ok [Argument.int 8, Argument.int 1, Argument.str "vb", Argument.str "vc"] :=
  (assembled_values_replace_placeholder_entries whereTwoPlaceHolders [Argument.int 8]
    [Argument.str "vb", Argument.str "vc"] assemblerBC StmtType.updateWhere ["a", "b", "c"]
    (by
      intro f hf hm
      simp only [whereTwoPlaceHolders, List.mem_cons, List.mem_singleton, List.not_mem_nil,
        or_false] at hf
      rcases hf with h | h | h | h | h <;> subst h <;> first
        | exact ⟨by rfl, by rfl⟩
        | exact absurd hm (by decide))
    (by rfl) (by rfl)).2.1.trans (by rfl)

/-! ## Recorded positions past the end of the arguments (C32) -/

/-- C32 fails on the WHERE list `a IS NULL`, `b IS NULL`, placeholder `c` with
an assembler that appends the one value for the placeholder: the two
conditions before the placeholder append no entry but advance the position
counter, so the position 2 is recorded for a sequence that has the length 2
after the assembler ran, and `appendAssembledArgs` indexes past its end; the
argument pass of the Update ends in the same runtime panic. -/
theorem recorded_position_out_of_range :
    (whereNullNullPlaceHolder.appendArgs [] 'w').args = [Argument.placeHolder cahensConstant]
    ∧ (whereNullNullPlaceHolder.appendArgs [] 'w').pendingArgPos = [2]
    ∧ (whereNullNullPlaceHolder.appendArgs [] 'w').err = none
    ∧ assemblerC StmtType.updateWhere [Argument.placeHolder cahensConstant] ["a", "b", "c"]
        = .ok [Argument.placeHolder cahensConstant, Argument.str "vc"]
    ∧ appendAssembledArgs [2] (some assemblerC) [Argument.placeHolder cahensConstant]
        StmtType.updateWhere ["a", "b", "c"] = .error (Error.panic Error.indexOutOfRange)
    ∧ updateNullNullPlaceHolder.toSQL.text
        = "UPDATE `t` SET `x`=? WHERE (`a` IS NULL) AND (`b` IS NULL) AND (`c` = ?)"
    ∧ updateNullNullPlaceHolder.appendArgs [] = .error (Error.panic Error.indexOutOfRange) := by
  refine ⟨by rfl, by rfl, by rfl, by rfl, by rfl, by rfl, by rfl⟩

/-! ## Placeholders and arguments of ON DUPLICATE KEY UPDATE (C34) -/

theorem countPlaceHolders_writeOnDuplicateKeyColumn_values (arguments : Arguments) (i : Nat)
    (c : String) (hc : noPlaceHolder c = true) :
    countPlaceHolders (writeOnDuplicateKeyColumn false arguments i c) = 0 := by
  have h0 := countPlaceHolders_of_noPlaceHolder c hc
  have h1 : countPlaceHolders "=" = 0 := by decide
  have h2 : countPlaceHolders "VALUES(" = 0 := by decide
  have h3 : countPlaceHolders ")" = 0 := by decide
  simp [writeOnDuplicateKeyColumn, countPlaceHolders_append, countPlaceHolders_quote, h0, h1, h2,
    h3]

theorem countPlaceHolders_writeOnDuplicateKeyLoop_values (arguments : Arguments) :
    ∀ (cols : List String) (i : Nat), (∀ c ∈ cols, noPlaceHolder c = true) →
    countPlaceHolders (writeOnDuplicateKeyLoop false arguments i cols) = 0
  | [], _, _ => by
      have h0 : countPlaceHolders "" = 0 := by decide
      simpa [writeOnDuplicateKeyLoop] using h0
  | c :: cs, i, h => by
      have h1 : countPlaceHolders ", " = 0 := by decide
      have h0 : countPlaceHolders "" = 0 := by decide
      have hlead : countPlaceHolders (if i > 0 then ", " else "") = 0 := by
        split <;> assumption
      simp only [writeOnDuplicateKeyLoop, countPlaceHolders_append, hlead,
        countPlaceHolders_writeOnDuplicateKeyColumn_values arguments i c (h c (by simp)),
        countPlaceHolders_writeOnDuplicateKeyLoop_values arguments cs (i + 1)
          (fun x hx => h x (by simp [hx]))]

theorem slots_filter_isSet : ∀ (as : Arguments), (∀ a ∈ as, a.isNilOrSingleValue = true) →
    slots (as.filter Argument.isSet) = (as.filter Argument.isSet).length
  | [], _ => rfl
  | a :: as, h => by
      have ih := slots_filter_isSet as (fun x hx => h x (by simp [hx]))
      have ha := h a (by simp)
      cases a <;>
        simp_all [Argument.isSet, Argument.isNilOrSingleValue, slots, Argument.len, List.filter_cons]
      all_goals omega

/-- With one argument per column, the argument pass appends the arguments that
are not nil and the text pass writes one `?` for each of them. -/
theorem writeOnDuplicateKeyLoop_balanced : ∀ (cols : List String) (before as args : Arguments),
    as.length = cols.length → (∀ c ∈ cols, noPlaceHolder c = true) →
    (∀ a ∈ as, a.isNilOrSingleValue = true) →
    appendNonNilArgs (before ++ as) before.length cols args = args ++ as.filter Argument.isSet
    ∧ countPlaceHolders (writeOnDuplicateKeyLoop true (before ++ as) before.length cols)
        = (as.filter Argument.isSet).length
  | [], before, as, args, hl, _, _ => by
      have h0 : countPlaceHolders "" = 0 := by decide
      have : as = [] := List.length_eq_zero.mp (by simpa using hl)
      subst this
      exact ⟨by simp [appendNonNilArgs], by simpa [writeOnDuplicateKeyLoop] using h0⟩
  | c :: cols, before, as, args, hl, hc, ha => by
      cases as with
      | nil => simp at hl
      | cons a as =>
        have hget : (before ++ a :: as)[before.length]? = some a := by
          rw [List.getElem?_append_right (le_refl _)]; simp
        have hcn := countPlaceHolders_of_noPlaceHolder _ (hc c (by simp))
        have h0 : countPlaceHolders "" = 0 := by decide
        have h1 : countPlaceHolders ", " = 0 := by decide
        have h2 : countPlaceHolders "=" = 0 := by decide
        have h3 : countPlaceHolders "VALUES(" = 0 := by decide
        have h4 : countPlaceHolders ")" = 0 := by decide
        have h5 : countPlaceHolders "?" = 1 := by decide
        have hlead : countPlaceHolders (if before.length > 0 then ", " else "") = 0 := by
          split <;> assumption
        have hrest : ∀ args2 : Arguments,
            appendNonNilArgs (before ++ a :: as) (before.length + 1) cols args2
                = args2 ++ as.filter Argument.isSet
              ∧ countPlaceHolders
                  (writeOnDuplicateKeyLoop true (before ++ a :: as) (before.length + 1) cols)
                = (as.filter Argument.isSet).length := by
          intro args2
          have := writeOnDuplicateKeyLoop_balanced cols (before ++ [a]) as args2
            (by simpa using hl) (fun x hx => hc x (by simp [hx]))
            (fun x hx => ha x (by simp [hx]))
          simpa only [List.append_assoc, List.singleton_append, List.length_append,
            List.length_singleton] using this
        have hav := ha a (by simp)
        constructor
        · simp only [appendNonNilArgs, hget]
          cases a <;>
            simp [Argument.isSet, List.filter_cons, (hrest _).1]
        · simp only [writeOnDuplicateKeyLoop, writeOnDuplicateKeyColumn, hget, if_true,
            countPlaceHolders_append, countPlaceHolders_quote, hlead, hcn, h2, (hrest args).2]
          cases a <;>
            simp_all [Argument.isSet, List.filter_cons, Argument.isNilOrSingleValue,
              countPlaceHolders_append, countPlaceHolders_quote]
          all_goals omega

/-- C34. For an UpdatedColumns value whose column names hold no `?` and whose
arguments are nil or values of length one that are no expressions,
`UpdatedColumns.appendArgs` appends as many arguments, each of one value, as
`writeOnDuplicateKey` writes `?`; when the number of arguments differs from
the number of columns it appends nothing and no `?` is written. -/
theorem onDuplicateKey_placeholders_match_arguments (uc : UpdatedColumns) (args : Arguments)
    (hc : ∀ c ∈ uc.Columns, noPlaceHolder c = true)
    (ha : ∀ a ∈ uc.Arguments, a.isNilOrSingleValue = true) :
    ∃ added : Arguments, uc.appendArgs args = .ok (args ++ added)
      ∧ countPlaceHolders uc.writeOnDuplicateKey.1 = added.length
      ∧ slots added = added.length
      ∧ (uc.Arguments.length ≠ uc.Columns.length → added = []) := by
  have h0 : countPlaceHolders "" = 0 := by decide
  have hk : countPlaceHolders " ON DUPLICATE KEY UPDATE " = 0 := by decide
  by_cases hz : uc.Columns.length = 0
  · exact ⟨[], by simp [UpdatedColumns.appendArgs, hz],
      by simp [UpdatedColumns.writeOnDuplicateKey, hz, h0], rfl, fun _ => rfl⟩
  · by_cases hl : uc.Arguments.length = uc.Columns.length
    · obtain ⟨e1, e2⟩ := writeOnDuplicateKeyLoop_balanced uc.Columns [] uc.Arguments args hl hc ha
      simp only [List.nil_append, List.length_nil] at e1 e2
      refine ⟨uc.Arguments.filter Argument.isSet, ?_, ?_, slots_filter_isSet _ ha,
        fun h => absurd hl h⟩
      · simp only [UpdatedColumns.appendArgs, hz, hl, if_false, if_true, e1]
      · simp only [UpdatedColumns.writeOnDuplicateKey, hz, hl, if_false, decide_True,
          countPlaceHolders_append, hk, e2, Nat.zero_add]
    · refine ⟨[], ?_, ?_, rfl, fun _ => rfl⟩
      · simp only [UpdatedColumns.appendArgs, hz, hl, if_false, List.append_nil]
      · simp only [UpdatedColumns.writeOnDuplicateKey, hz, hl, if_false, decide_False,
          countPlaceHolders_append, hk,
          countPlaceHolders_writeOnDuplicateKeyLoop_values uc.Arguments uc.Columns 0 hc,
          List.length_nil]

/-- C34 at the ON DUPLICATE KEY part of `ExampleInsert_AddOnDuplicateKey`, one
`?` and one argument, and at two columns with three arguments, no `?` and no
argument. -/
theorem onDuplicateKey_placeholders_match_arguments_witness :
    (∃ added : Arguments, onDuplicateKeyNameEmail.appendArgs [Argument.int 1] = .ok ([Argument.int 1] ++ added)
      ∧ countPlaceHolders onDuplicateKeyNameEmail.writeOnDuplicateKey.1 = added.length
      ∧ slots added = added.length
      ∧ (onDuplicateKeyNameEmail.Arguments.length ≠ onDuplicateKeyNameEmail.Columns.length →
          added = []))
    ∧ onDuplicateKeyNameEmail.appendArgs [Argument.int 1]
        = .ok [Argument.int 1, Argument.str "Pik3"]
    ∧ onDuplicateKeyMismatch.appendArgs [Argument.int 1] = .ok [Argument.int 1]
    ∧ onDuplicateKeyMismatch.writeOnDuplicateKey.1
        = " ON DUPLICATE KEY UPDATE `name`=VALUES(`name`), `email`=VALUES(`email`)" :=
  ⟨onDuplicateKey_placeholders_match_arguments onDuplicateKeyNameEmail [Argument.int 1]
      (by decide) (by decide), by rfl, by rfl, by rfl⟩

/-! ## The keyword ON in a join condition list with parentheses (C35) -/

/-- C35 fails on join conditions with parenthesis markers: the text pass writes
` ON ` whenever its counter is zero, and the opening marker sets the counter
back to zero, so the first condition of the group gets the keyword again. -/
theorem on_written_again_after_parenthesis :
    (∀ f ∈ joinWithParentheses, f.Using = [])
    ∧ (joinWithParentheses.write 'j').err = none
    ∧ (joinWithParentheses.write 'j').text
        = " ON (`a` = ?) AND ( ON (`b` = ?) OR (`c` = ?))"
    ∧ (joinWithParentheses.write 'w').text
        = " WHERE (`a` = ?) AND ((`b` = ?) OR (`c` = ?))" := by
  refine ⟨by decide, by rfl, by rfl, by rfl⟩

/-! ## What the text pass changes in the fragments (C36) -/

theorem writeLoop_state_getElem? (ct : Char) : ∀ (wfs : WhereFragments) (i k : Nat)
    (f : WhereFragment), wfs[k]? = some f →
    (writeLoop ct i wfs).state[k]? = some f
      ∨ (writeLoop ct i wfs).state[k]? = some f.writeCondition.state
  | [], _, _, _, h => by simp at h
  | g :: rest, i, k, f, h => by
      have ih := fun j k f h => writeLoop_state_getElem? ct rest j k f h
      unfold writeLoop
      split
      · exact Or.inl h
      · simp only []
        split
        · cases k with
          | zero => left; simpa [Written.push] using h
          | succ k =>
            simp only [List.getElem?_cons_succ] at h
            simpa [Written.push] using ih _ k f h
        · split
          · cases k with
            | zero => left; simpa [Written.push] using h
            | succ k =>
              simp only [List.getElem?_cons_succ] at h
              simpa [Written.push] using ih _ k f h
          · split
            · cases k with
              | zero =>
                right
                simp only [List.getElem?_cons_zero, Option.some.injEq] at h
                subst h
                simp
              | succ k =>
                left
                simp only [List.getElem?_cons_succ] at h
                simpa using h
            · cases k with
              | zero =>
                right
                simp only [List.getElem?_cons_zero, Option.some.injEq] at h
                subst h
                simp [Written.push]
              | succ k =>
                simp only [List.getElem?_cons_succ] at h
                simpa [Written.push] using ih _ k f h

theorem writeLoop_state_ok (ct : Char) (hct : ct ≠ 'j') : ∀ (wfs : WhereFragments) (i k : Nat)
    (f : WhereFragment), (writeLoop ct i wfs).err = none → wfs[k]? = some f →
    f.isMarker = false → (writeLoop ct i wfs).state[k]? = some f.writeCondition.state
  | [], _, _, _, _, h, _ => by simp at h
  | g :: rest, i, k, f, hok, h, hm => by
      have ih := fun j k f hok h => writeLoop_state_ok ct hct rest j k f hok h
      have hj : ¬ (ct = 'j' ∧ g.Using.length > 0) := fun h => hct h.1
      unfold writeLoop at hok ⊢
      simp only [hj, if_false] at hok ⊢
      by_cases hc : g.Condition = ")"
      · simp only [hc, if_true, Written.push] at hok ⊢
        cases k with
        | zero =>
          simp only [List.getElem?_cons_zero, Option.some.injEq] at h
          subst h
          simp [WhereFragment.isMarker, hc] at hm
        | succ k =>
          simp only [List.getElem?_cons_succ] at h
          simpa using ih _ k f hok h hm
      · by_cases ho : g.Condition = "("
        · simp only [if_neg hc, if_pos ho, Written.push] at hok ⊢
          cases k with
          | zero =>
            simp only [List.getElem?_cons_zero, Option.some.injEq] at h
            subst h
            simp [WhereFragment.isMarker, ho] at hm
          | succ k =>
            simp only [List.getElem?_cons_succ] at h
            simpa using ih _ k f hok h hm
        · simp only [if_neg hc, if_neg ho] at hok ⊢
          rcases he : g.writeCondition.err with _ | e
          · simp only [he, Written.push] at hok ⊢
            cases k with
            | zero =>
              simp only [List.getElem?_cons_zero, Option.some.injEq] at h
              subst h
              simp
            | succ k =>
              simp only [List.getElem?_cons_succ] at h
              simpa using ih _ k f hok h hm
          · simp [he] at hok

theorem writeCondition_sets_in (f : WhereFragment) (he : f.IsExpression = false)
    (hsub : f.SubSelect = none) (hargs : f.Arguments = none) (hp : f.IsPlaceHolder = false)
    (hs : f.Argument.isSet = true) (hl : f.Argument.len > 1) (ho : f.Operator = Op.unset) :
    f.writeCondition.state = { f with Operator := Op.In } := by
  have h1 : (decide (f.Argument.len > 1) && (f.Operator == Op.unset)) = true := by
    simp [hl, ho]
  simp only [WhereFragment.writeCondition, he, hsub, hargs, hs, hp, Bool.false_eq_true, if_false,
    if_true, h1]

/-- C36. For a condition list without sub-selects, the list that
`WhereFragments.write` leaves behind has the fragments of the list in their
order, each one unchanged or changed in its `Operator` alone, which is then
`In` on a fragment that is no expression and no placeholder and has a direct
`Argument` of length greater than one, no `Arguments` list and no operator. A
successful pass over a WHERE or HAVING list sets `In` on every such fragment
that is no parenthesis marker. -/
theorem write_changes_operator_to_in_only (wfs : WhereFragments) (ct : Char)
    (hsub : ∀ f ∈ wfs, f.SubSelect = none) :
    (wfs.write ct).state.length = wfs.length
    ∧ (∀ (k : Nat) (f : WhereFragment), wfs[k]? = some f →
        (wfs.write ct).state[k]? = some f
        ∨ ((wfs.write ct).state[k]? = some { f with Operator := Op.In }
            ∧ f.IsExpression = false ∧ f.IsPlaceHolder = false ∧ f.Argument.isSet = true
            ∧ f.Argument.len > 1 ∧ f.Arguments = none ∧ f.Operator = Op.unset))
    ∧ (ct ≠ 'j' → (wfs.write ct).err = none →
        ∀ (k : Nat) (f : WhereFragment), wfs[k]? = some f → f.isMarker = false →
          f.IsExpression = false → f.IsPlaceHolder = false → f.Argument.isSet = true →
          f.Argument.len > 1 → f.Arguments = none → f.Operator = Op.unset →
          (wfs.write ct).state[k]? = some { f with Operator := Op.In }) := by
  unfold WhereFragments.write
  by_cases hz : wfs.length = 0
  · have : wfs = [] := List.length_eq_zero.mp hz
    subst this
    simp
  · simp only [hz, if_false]
    refine ⟨writeLoop_state_length ct wfs 0, ?_, ?_⟩
    · intro k f hk
      rcases writeLoop_state_getElem? ct wfs 0 k f hk with h | h
      · exact Or.inl h
      · rcases writeCondition_state f with h2 | ⟨h2, he, _, hargs, hs, hin⟩
        · left; rw [h, h2]
        · right
          rw [h, h2]
          simp only [Bool.and_eq_true, decide_eq_true_eq, beq_iff_eq] at hin
          rcases Bool.eq_false_or_eq_true f.IsPlaceHolder with hp | hp
          · simp [hp] at hin
          · simp only [hp, Bool.false_eq_true, if_false] at hin
            exact ⟨rfl, he, hp, hs, hin.1, hargs, hin.2⟩
    · intro hct hok k f hk hm he hp hs hl hargs ho
      rw [writeLoop_state_ok ct hct wfs 0 k f hok hk hm,
        writeCondition_sets_in f he (hsub f (List.getElem?_mem hk)) hargs hp hs hl ho]

/-- C36 at the list `Column("a").Ints(1, 2, 3)`, `Column("b").Int(4)`: the
first fragment has the operator `In` after the pass, the second is unchanged. -/
theorem write_changes_operator_to_in_only_witness :
    (whereMultiThenSingle.write 'w').state
      = [{ (Column "a").arg (Argument.ints [1, 2, 3]) with Operator := Op.In },
          (Column "b").arg (Argument.int 4)]
    ∧ (whereMultiThenSingle.write 'w').state.length = whereMultiThenSingle.length :=
  have h := write_changes_operator_to_in_only whereMultiThenSingle 'w'
    (fun f hf => by
      simp only [whereMultiThenSingle, List.mem_cons, List.mem_singleton, List.not_mem_nil,
        or_false] at hf
      rcases hf with h | h <;> subst h <;> rfl)
  ⟨by rfl, h.1⟩

/-! ## The interpolation flag of the template after a bulk update (C38) -/

theorem toSQL_state_IsInterpolate (b : Update) : b.toSQL.state.IsInterpolate = b.IsInterpolate := by
  unfold Update.toSQL
  split
  · rfl
  · split
    · rfl
    · split
      · rfl
      · split
        · rfl
        · simp only []
          split <;> rfl

theorem execRecords_update_IsInterpolate (d : Driver) (tx : Txer) (isTx isI : Bool)
    (sql : String) : ∀ (records : List ArgumentAssembler) (i : Nat) (u : Update)
    (results : List SqlResult) (events : List Event),
    (execRecords d tx isTx isI sql i records u results events).update.IsInterpolate
      = u.IsInterpolate
  | [], i, u, results, events => by
      unfold execRecords
      split <;> rfl
  | record :: records, i, u, results, events => by
      have ih := execRecords_update_IsInterpolate d tx isTx isI sql records
      unfold execRecords
      simp only []
      repeat' split
      all_goals first
        | rfl
        | rw [ih]

/-- C38 fails on every run that passes `validate`: `Exec` sets the flag
`IsInterpolate` of the template to false before the text pass and never sets
it back, so a template with interpolation switched on has it switched off
after the run, and a second run prepares a statement where the first one sent
literal SQL. -/
theorem exec_leaves_interpolate_switched_off (b : UpdateMulti) (d : Driver) :
    (b.validate = none → (b.Exec d).update.IsInterpolate = false)
    ∧ (multiInterpolated.Update.IsInterpolate = true
        ∧ (multiInterpolated.Exec driverSucceeds).err = none
        ∧ (multiInterpolated.Exec driverSucceeds).events = [Event.execSQL "UPDATE `t` SET `a`=?"]
        ∧ (multiInterpolated.Exec driverSucceeds).update.IsInterpolate = false
        ∧ (({ multiInterpolated with Update := (multiInterpolated.Exec driverSucceeds).update }
            : UpdateMulti).Exec driverSucceeds).events
          = [Event.prepare "UPDATE `t` SET `a`=?", Event.execStmt [Argument.str "va"]]) := by
  constructor
  · intro hv
    unfold UpdateMulti.Exec
    simp only [hv]
    have hs := toSQL_state_IsInterpolate ({ b.Update with IsInterpolate := false } : Dbr.Update)
    repeat' split
    all_goals first
      | exact hs
      | (rw [execRecords_update_IsInterpolate]; exact hs)
  · refine ⟨by rfl, by rfl, by rfl, by rfl, by rfl⟩

/-! ## The failure of BETWEEN with a wrong number of values is raised, not returned (C10) -/

theorem writeOperator_between_mismatch (n : Nat) (o : Op)
    (ho : o = Op.Between ∨ o = Op.NotBetween) (hn : n ≠ 2) :
    ∃ msg, writeOperator n o = .error (Error.panic (Error.mismatch msg)) := by
  rcases ho with h | h <;> subst h <;> simp [writeOperator, hn]

theorem writeCondition_between_mismatch (f : WhereFragment)
    (hexpr : f.IsExpression = false) (hsub : f.SubSelect = none) (hargs : f.Arguments = none)
    (harg : f.Argument.isSet = true)
    (hop : f.Operator = Op.Between ∨ f.Operator = Op.NotBetween) (hlen : f.Argument.len ≠ 2) :
    ∃ msg, f.writeCondition.err = some (Error.panic (Error.mismatch msg)) := by
  have hu : (f.Operator == Op.unset) = false := by
    rcases hop with h | h <;> rw [h] <;> decide
  have hal : (if f.IsPlaceHolder = true then 1 else f.Argument.len) ≠ 2 := by
    split <;> simp [hlen]
  obtain ⟨msg, he⟩ := writeOperator_between_mismatch _ f.Operator hop hal
  refine ⟨msg, ?_⟩
  simp only [WhereFragment.writeCondition, hexpr, hsub, hargs, harg, hu, Bool.and_false, if_true]
  simp [writeOperatorAfter, he]

theorem argumentError_between_mismatch (f : WhereFragment)
    (hexpr : f.IsExpression = false) (harg : f.Argument.isSet = true)
    (hop : f.Operator = Op.Between ∨ f.Operator = Op.NotBetween) (hlen : f.Argument.len ≠ 2) :
    ∃ msg, f.argumentError = some (Error.panic (Error.mismatch msg)) := by
  unfold WhereFragment.argumentError
  simp only [hexpr, Bool.false_eq_true, if_false, harg, if_true]
  rcases Bool.eq_false_or_eq_true f.IsPlaceHolder with hp | hp
  · obtain ⟨msg, he⟩ := writeOperator_between_mismatch 1 f.Operator hop (by decide)
    exact ⟨msg, by simp [hp, he]⟩
  · obtain ⟨msg, he⟩ := writeOperator_between_mismatch f.Argument.len f.Operator hop hlen
    exact ⟨msg, by simp [hp, he]⟩

theorem argumentError_isPanic (f : WhereFragment) (hsub : f.SubSelect = none) (e : Error)
    (h : f.argumentError = some e) : e.isPanic = true := by
  unfold WhereFragment.argumentError at h
  simp only [hsub] at h
  repeat' split at h
  all_goals first
    | (cases h; done)
    | (simp only [Option.some.injEq] at h
       subst h
       exact writeOperator_error_isPanic _ _ _ (by assumption))

theorem appendArgsLoop_error_isPanic (ct : Char) :
    ∀ (wfs : WhereFragments) (args : Arguments) (pap : List Nat) (cnt : Nat),
      (∀ f ∈ wfs, f.SubSelect = none) →
      ∀ e, (appendArgsLoop ct wfs args pap cnt).err = some e → e.isPanic = true
  | [], args, pap, cnt, _, e, h => by simp [appendArgsLoop] at h
  | f :: rest, args, pap, cnt, hsub, e, h => by
      have ih := fun a p c => appendArgsLoop_error_isPanic ct rest a p c
        (fun g hg => hsub g (by simp [hg])) e
      rcases Bool.eq_false_or_eq_true (endsAtUsing ct f) with hu | hu
      · rw [appendArgsLoop_using ct f rest args pap cnt hu] at h
        cases h
      · rcases Bool.eq_false_or_eq_true f.isMarker with hm | hm
        · rw [appendArgsLoop_marker ct f rest args pap cnt hu hm] at h
          exact ih _ _ _ h
        · obtain ⟨h1, h2⟩ := appendArgsLoop_fragment ct f rest args pap cnt hu hm
          rcases he : f.argumentError with _ | e1
          · rw [h2 he] at h
            exact ih _ _ _ h
          · rw [h1 e1 he] at h
            simp only [Option.some.injEq] at h
            subst h
            exact argumentError_isPanic f (hsub f (by simp)) e1 he

theorem appendArgs_error_isPanic (wfs : WhereFragments) (args : Arguments) (ct : Char)
    (hsub : ∀ f ∈ wfs, f.SubSelect = none) (e : Error)
    (h : (WhereFragments.appendArgs wfs args ct).err = some e) : e.isPanic = true := by
  unfold WhereFragments.appendArgs at h
  split at h
  · cases h
  · exact appendArgsLoop_error_isPanic ct wfs args [] args.length hsub e h

/-- C10, as stated, fails on the list `Column("a")`,
`Column("d").Between().Ints(13, 14, 15)`: neither pass returns an error. The
text pass discards the result of `writeOperator` and the argument pass takes
one boolean from it, so the mismatch that `writeOperator` raises for three
values ends both passes as a panic; no error value comes back from
`WhereFragments.write` or from `WhereFragments.appendArgs`. -/
theorem between_mismatch_is_not_returned :
    (WhereFragments.write [Column "a", fragmentBetweenThree] 'w').err
      = some (Error.panic (Error.mismatch "[dbr] BETWEEN requires two arguments"))
    ∧ (WhereFragments.appendArgs [Column "a", fragmentBetweenThree] [] 'w').err
      = some (Error.panic (Error.mismatch "[dbr] BETWEEN requires two arguments"))
    ∧ (¬ ∃ e, (WhereFragments.write [Column "a", fragmentBetweenThree] 'w').err = some e
        ∧ e.isPanic = false)
    ∧ (¬ ∃ e, (WhereFragments.appendArgs [Column "a", fragmentBetweenThree] [] 'w').err = some e
        ∧ e.isPanic = false) := by
  have h1 : (WhereFragments.write [Column "a", fragmentBetweenThree] 'w').err
      = some (Error.panic (Error.mismatch "[dbr] BETWEEN requires two arguments")) := by rfl
  have h2 : (WhereFragments.appendArgs [Column "a", fragmentBetweenThree] [] 'w').err
      = some (Error.panic (Error.mismatch "[dbr] BETWEEN requires two arguments")) := by rfl
  refine ⟨h1, h2, ?_, ?_⟩
  · rintro ⟨e, he, hp⟩
    rw [h1] at he
    cases he
    cases hp
  · rintro ⟨e, he, hp⟩
    rw [h2] at he
    cases he
    cases hp

/-- C10, amended. In a condition list without sub-selects, a column condition
whose operator is BETWEEN or NOT BETWEEN and whose argument holds a number of
values other than two makes `WhereFragments.write` and
`WhereFragments.appendArgs` end in a panic, wherever the condition stands in
the list (in join mode: before any USING fragment): neither returns an error
value. At the condition itself the panic is the mismatch that `writeOperator`
raises, in the text pass and in the argument pass. -/
theorem between_mismatch_is_raised (pre post : WhereFragments) (f : WhereFragment)
    (conditionType : Char) (args : Arguments)
    (hexpr : f.IsExpression = false) (hsub : f.SubSelect = none) (hargs : f.Arguments = none)
    (harg : f.Argument.isSet = true)
    (hop : f.Operator = Op.Between ∨ f.Operator = Op.NotBetween) (hlen : f.Argument.len ≠ 2)
    (ho : f.Condition ≠ "(") (hc : f.Condition ≠ ")")
    (hu : conditionType = 'j' → ∀ g ∈ pre ++ [f], g.Using.length = 0)
    (hnosub : ∀ g ∈ pre ++ post, g.SubSelect = none) :
    (∃ e, (WhereFragments.write (pre ++ f :: post) conditionType).err = some e
      ∧ e.isPanic = true)
    ∧ (∃ e, (WhereFragments.appendArgs (pre ++ f :: post) args conditionType).err = some e
      ∧ e.isPanic = true)
    ∧ (¬ ∃ e, (WhereFragments.write (pre ++ f :: post) conditionType).err = some e
      ∧ e.isPanic = false)
    ∧ (¬ ∃ e, (WhereFragments.appendArgs (pre ++ f :: post) args conditionType).err = some e
      ∧ e.isPanic = false)
    ∧ (∃ msg, f.writeCondition.err = some (Error.panic (Error.mismatch msg)))
    ∧ (∃ msg, f.argumentError = some (Error.panic (Error.mismatch msg))) := by
  have hall : ∀ g ∈ pre ++ f :: post, g.SubSelect = none := by
    intro g hg
    simp only [List.mem_append, List.mem_cons] at hg
    rcases hg with h | h | h
    · exact hnosub g (by simp [h])
    · rw [h]; exact hsub
    · exact hnosub g (by simp [h])
  obtain ⟨hw, ha⟩ := between_condition_fails pre post f conditionType args hexpr hsub hargs harg
    hop hlen ho hc hu
  have hwp := write_error_isPanic (pre ++ f :: post) conditionType hall
  have hap := appendArgs_error_isPanic (pre ++ f :: post) args conditionType hall
  refine ⟨?_, ?_, ?_, ?_, writeCondition_between_mismatch f hexpr hsub hargs harg hop hlen,
    argumentError_between_mismatch f hexpr harg hop hlen⟩
  · rcases he : (WhereFragments.write (pre ++ f :: post) conditionType).err with _ | e
    · exact absurd he hw
    · exact ⟨e, rfl, hwp e he⟩
  · rcases he : (WhereFragments.appendArgs (pre ++ f :: post) args conditionType).err with _ | e
    · exact absurd he ha
    · exact ⟨e, rfl, hap e he⟩
  · rintro ⟨e, he, hp⟩
    rw [hwp e he] at hp
    cases hp
  · rintro ⟨e, he, hp⟩
    rw [hap e he] at hp
    cases hp

/-- The amended C10 at the list `Column("a")`,
`Column("d").Between().Ints(13, 14, 15)`. -/
theorem between_mismatch_is_raised_witness :
    (∃ e, (WhereFragments.write ([Column "a"] ++ fragmentBetweenThree :: []) 'w').err = some e
      ∧ e.isPanic = true)
    ∧ (∃ e, (WhereFragments.appendArgs ([Column "a"] ++ fragmentBetweenThree :: []) [] 'w').err
        = some e ∧ e.isPanic = true)
    ∧ (∃ msg, fragmentBetweenThree.writeCondition.err
        = some (Error.panic (Error.mismatch msg))) :=
  have h := between_mismatch_is_raised [Column "a"] [] fragmentBetweenThree 'w' [] rfl rfl rfl rfl
    (Or.inl rfl) (by decide) (by decide) (by decide) (by decide)
    (by
      intro g hg
      simp only [List.append_nil, List.mem_singleton] at hg
      subst hg
      rfl)
  ⟨h.1, h.2.1, h.2.2.2.2.1⟩

end Dbr

namespace Signed

/-! ## Parsing the Content-Signature header (C29, C30) -/

/-- C29 fails on a header with a character after the third separator: whatever
the decoder, `Signature.Parse` on the header value `a,b,c,d` writes to the
buffer with index 3 of its three buffers and ends in the runtime panic of an
index out of range, which is neither nil nor a not-found nor a not-valid
error. -/
theorem parse_four_fields_panics (decoder : String → Except Error (List Nat)) :
    (({} : Signature).Parse requestFourFields decoder).err = some Error.panicIndexOutOfRange
    ∧ parseLoop ',' "a,b,c,".data 0 {} = .ok ⟨"a", "b", "c"⟩
    ∧ Fields.writeRune ⟨"a", "b", "c"⟩ 3 'd' = .error Error.panicIndexOutOfRange := by
  refine ⟨by rfl, by rfl, by rfl⟩

theorem hexValue_hexDigit (n : Nat) (h : n < 16) : hexValue (hexDigit n) = n := by
  have hall : ∀ k : Fin 16, hexValue (hexDigit k.val) = k.val := by decide
  exact hall ⟨n, h⟩

theorem hexDecodeChars_hexEncodeChars : ∀ (src : List Nat), (∀ b ∈ src, b < 256) →
    hexDecodeChars (hexEncodeChars src) = src
  | [], _ => rfl
  | b :: rest, h => by
      have hb := h b (by simp)
      have ih := hexDecodeChars_hexEncodeChars rest (fun x hx => h x (by simp [hx]))
      simp only [hexEncodeChars, hexDecodeChars, ih,
        hexValue_hexDigit (b / 16) (by omega), hexValue_hexDigit (b % 16) (by omega),
        List.cons.injEq, and_true]
      omega

/-- C30 fails for every signature with a key: `Signature.Parse` never assigns
the fields `KeyID`, `Algorithm` and `Signature` of its receiver, so a fresh
struct that parses the header value written by `s.Write` still has its empty
fields, whatever the encoder and the decoder are, also for the hexadecimal
pair, which are inverse to each other. -/
theorem parse_leaves_receiver_fields (s s0 : Signature) (r : Request)
    (encoder : List Nat → String) (decoder : String → Except Error (List Nat)) :
    (s0.Parse r decoder).signature.KeyID = s0.KeyID
    ∧ (s0.Parse r decoder).signature.Algorithm = s0.Algorithm
    ∧ (s0.Parse r decoder).signature.Signature = s0.Signature
    ∧ (s.KeyID ≠ "" →
        (({} : Signature).Parse { header := (s.Write encoder).1 } decoder).signature.KeyID
          ≠ s.KeyID)
    ∧ (signatureK1.IsValid = none
        ∧ (∀ src, (∀ b ∈ src, b < 256) → hexDecoder (hexEncoder src) = .ok src)
        ∧ (signatureK1.Write hexEncoder).1
          = "keyId=\"k1\",algorithm=\"hmac-sha1\",signature=\"abcd\""
        ∧ ({} : Signature).Parse { header := (signatureK1.Write hexEncoder).1 } hexDecoder
          = ⟨{ Separator := ',' },
              ["keyId=\"k1\"", "algorithm=\"hmac-sha1\"", "signature=\"abcd\""], none⟩) := by
  have key : ∀ (x : Signature) (q : Request),
      (x.Parse q decoder).signature.KeyID = x.KeyID
      ∧ (x.Parse q decoder).signature.Algorithm = x.Algorithm
      ∧ (x.Parse q decoder).signature.Signature = x.Signature := by
    intro x q
    unfold Signature.Parse
    by_cases hsep : x.Separator = Char.ofNat 0
    · simp only [hsep, if_true]
      repeat' split
      all_goals exact ⟨rfl, rfl, rfl⟩
    · simp only [hsep, if_false]
      repeat' split
      all_goals exact ⟨rfl, rfl, rfl⟩
  refine ⟨(key s0 r).1, (key s0 r).2.1, (key s0 r).2.2, ?_, ?_⟩
  · intro h
    rw [(key {} _).1]
    exact fun h2 => h h2.symm
  · refine ⟨by rfl, ?_, by rfl, by rfl⟩
    intro src hsrc
    unfold hexDecoder hexEncoder
    simp only [Except.ok.injEq]
    exact hexDecodeChars_hexEncodeChars src hsrc

end Signed
